import Mathlib

/-!
# gomlp: a shallow embedding of the multilayer-perceptron engine

Source files embedded here: `mlp/functions.go`, `mlp/mlp.go`, `mlp/api.go` and the two loaders
of `mnist/mnist.go`.

Modelling conventions.

* `float64` is modelled by an arbitrary linearly ordered field `R` (exact arithmetic, no
  rounding, no NaN inside matrices).  `math.Exp` is a parameter `exp : R → R`, so every
  definition is computable; theorems about derivatives instantiate `R := ℝ` and
  `exp := Real.exp`.
* A `*mat.Dense` is its dimensions and its entries.  The operations of `gonum/mat` that the
  program calls are modelled after the library documentation: an operation that panics
  (`ErrShape`, `ErrZeroLength`, an index out of range) returns `none`.  The repository pins no
  version of gonum; the documented behaviour of the current library is taken, in which a
  matrix with a zero dimension cannot be built (`ErrZeroLength`).
* The entries of `net.weights`, `net.biases` and of the data sets are non-nil pointers; the
  slices `dW`, `dB` that `backward` makes hold nil until assigned and are lists of options.
* A Go panic is `none` (or `Run.panic` in `Train`); printing is not modelled.
* Go `int` is the 64-bit signed integer.  Indices, lengths and loop counters, which stay far
  inside its range, are mathematical integers; the one product the program computes on values
  chosen by the caller, `sizes[i+1] * sizes[i]` in `New` (and the same product inside
  `mat.NewDense`), wraps around (`wrap64`).  The sum `j + batchSize` in `Train` cannot: once
  `j > 0`, a slice expression has returned with `batchSize` as its upper bound.
* Memory: `maxLen` is the length of the longest `[]float64` that `make` returns on the machine
  (the runtime panics or the process dies beyond it); it is a parameter of `New`, and at most
  `2 ^ 63 - 1` since a length is an `int`.  Nothing else is assumed about memory.
* Slices of `*mat.Dense` appear twice.  `Slice` and `DataSet` are values: a slice is its
  elements and its spare capacity.  `SliceRef` and `DataRef` are headers over one memory of
  cells, so that two slices may share elements of a backing array, as `Data = arr[0:3]` and
  `Labels = arr[1:4]` do; `shuffleRef` and `TrainRef` run on them.  The two agree when the
  slices that are written to share no cell with the others (`TrainRef_view`).
* The pseudo-random generator is a parameter (`rnd`, `wInit`, `bInit`).
-/

namespace Gomlp

/-! ## Go `int` -/

/-- The value of a Go `int` expression whose mathematical value is `v`: two's complement
wrap-around on 64 bits. -/
def wrap64 (v : Int) : Int :=
  (v + 2 ^ 63) % 2 ^ 64 - 2 ^ 63

/-- The outcome of a constructor call.  `short`: the call returns, but a matrix it has built
has a backing slice with fewer than `rows * cols` entries, because that product wrapped
around; such a matrix is not a value of `Dense`, and any later access to a missing entry
panics. -/
inductive Built (α : Type) where
  | ok (v : α)
  | panic
  | short

/-! ## gonum `mat.Dense` -/

/-- A dense matrix: `rows`, `cols` and the entry at row `i`, column `j`. -/
structure Dense (R : Type) where
  rows : Nat
  cols : Nat
  elem : Nat → Nat → R

namespace Dense

variable {R : Type}

/-- The transpose view `m.T()`. -/
def T (m : Dense R) : Dense R :=
  ⟨m.cols, m.rows, fun i j => m.elem j i⟩

/-- The call `m.At(i, j)`: panics when the index is outside the matrix. -/
def At (m : Dense R) (i j : Nat) : Option R :=
  if i < m.rows ∧ j < m.cols then some (m.elem i j) else none

/-- The call `mat.Row(nil, i, a)`: the entries of row `i`; panics when `i` is not a row. -/
def Row (i : Nat) (a : Dense R) : Option (List R) :=
  if i < a.rows then some ((List.range a.cols).map (a.elem i)) else none

/-- The call `mat.NewDense(r, c, data)` with a non-nil `data`, stored row-major: panics when a
dimension is not positive or when `r*c != len(data)`, a comparison of two `int` values in
which `r*c` wraps around.  When the comparison passes although the true product is not
`len(data)`, the matrix returned is short of entries. -/
def NewDense [Zero R] (r c : Int) (data : List R) : Built (Dense R) :=
  if r ≤ 0 ∨ c ≤ 0 then Built.panic
  else if wrap64 (r * c) ≠ (data.length : Int) then Built.panic
  else if r * c ≠ (data.length : Int) then Built.short
  else Built.ok ⟨r.toNat, c.toNat, fun i j => data.getD (i * c.toNat + j) 0⟩

/-- Entries of a matrix product (no shape check). -/
def mulRaw [Semiring R] (a b : Dense R) : Dense R :=
  ⟨a.rows, b.cols, fun i j => ∑ k in Finset.range a.cols, a.elem i k * b.elem k j⟩

/-- Entries of a difference (no shape check). -/
def subRaw [Sub R] (a b : Dense R) : Dense R :=
  ⟨a.rows, a.cols, fun i j => a.elem i j - b.elem i j⟩

/-- Entries of a sum (no shape check). -/
def addRaw [Add R] (a b : Dense R) : Dense R :=
  ⟨a.rows, a.cols, fun i j => a.elem i j + b.elem i j⟩

/-- Entries of an elementwise product (no shape check). -/
def mulElemRaw [Mul R] (a b : Dense R) : Dense R :=
  ⟨a.rows, a.cols, fun i j => a.elem i j * b.elem i j⟩

/-- Entries of a matrix mapped through `f`. -/
def mapRaw (f : R → R) (a : Dense R) : Dense R :=
  ⟨a.rows, a.cols, fun i j => f (a.elem i j)⟩

/-- Entries of `Apply(fn, a)` (no check that the callback returns). -/
def applyRaw [Zero R] (fn : Nat → Nat → R → Option R) (a : Dense R) : Dense R :=
  ⟨a.rows, a.cols, fun i j => (fn i j (a.elem i j)).getD 0⟩

/-- The call `m.Mul(a, b)` on a receiver that is empty or is an operand: panics with `ErrShape`
when the inner dimensions differ and with `ErrZeroLength` when the result would be empty. -/
def Mul [Semiring R] (a b : Dense R) : Option (Dense R) :=
  if a.cols ≠ b.rows then none
  else if a.rows = 0 ∨ b.cols = 0 then none
  else some (mulRaw a b)

/-- The call `m.Sub(a, b)`: panics unless `a` and `b` have the same non-empty shape. -/
def Sub [Ring R] (a b : Dense R) : Option (Dense R) :=
  if a.rows ≠ b.rows ∨ a.cols ≠ b.cols then none
  else if a.rows = 0 ∨ a.cols = 0 then none
  else some (subRaw a b)

/-- The call `m.Add(a, b)`: panics unless `a` and `b` have the same non-empty shape. -/
def Add [Semiring R] (a b : Dense R) : Option (Dense R) :=
  if a.rows ≠ b.rows ∨ a.cols ≠ b.cols then none
  else if a.rows = 0 ∨ a.cols = 0 then none
  else some (addRaw a b)

/-- The call `m.MulElem(a, b)`: panics unless `a` and `b` have the same non-empty shape. -/
def MulElem [Semiring R] (a b : Dense R) : Option (Dense R) :=
  if a.rows ≠ b.rows ∨ a.cols ≠ b.cols then none
  else if a.rows = 0 ∨ a.cols = 0 then none
  else some (mulElemRaw a b)

/-- The call `m.Apply(fn, a)`: `fn` receives the row index, the column index and the entry, for
every entry of `a`; the result has the shape of `a`.  A callback that panics (`none`) makes the
call panic, and so does an empty `a`. -/
def Apply [Zero R] (fn : Nat → Nat → R → Option R) (a : Dense R) : Option (Dense R) :=
  if a.rows = 0 ∨ a.cols = 0 then none
  else if ∀ i, i < a.rows → ∀ j, j < a.cols → (fn i j (a.elem i j)).isSome = true then
    some (applyRaw fn a)
  else none

/-- The zero value `mat.Dense{}`: an empty matrix. -/
def empty [Zero R] : Dense R :=
  ⟨0, 0, fun _ _ => 0⟩

end Dense

/-! ## `mlp/functions.go` -/

section Functions

variable {R : Type} [LinearOrderedField R]

/-- The function `sigmoid`: `1.0 / (1.0 + math.Exp(-x))`. -/
def sigmoid (exp : R → R) (x : R) : R :=
  1 / (1 + exp (-x))

/-- The function `sigmoidPrime`: `sigmoid(x) * (1 - sigmoid(x))`. -/
def sigmoidPrime (exp : R → R) (x : R) : R :=
  sigmoid exp x * (1 - sigmoid exp x)

end Functions

/-! ## `mlp/mlp.go` -/

/-- The struct `net`. -/
structure Net (R : Type) where
  layers : List Int
  biases : List (Dense R)
  weights : List (Dense R)

section Engine

variable {R : Type} [LinearOrderedField R]

/-- The callback of the first `Apply` in `forward`, for layer `i`:
`func(_, c int, v float64) float64 { return v + n.biases[i].At(c, 0) }`.
The second argument of an `Apply` callback is the column index. -/
def biasCallback (n : Net R) (i : Nat) : Nat → Nat → R → Option R :=
  fun _ c v =>
    match n.biases[i]? with
    | none => none
    | some b =>
      match b.At c 0 with
      | none => none
      | some bv => some (v + bv)

/-- The loop of `forward`: `k` iterations remain, `i` is the loop variable and `x` the current
activation.  Returns the activations `a[i+1..]` and the weighted sums `z[i..]`. -/
def forwardFrom (exp : R → R) (n : Net R) :
    Nat → Nat → Dense R → Option (List (Dense R) × List (Dense R))
  | 0, _, _ => some ([], [])
  | k + 1, i, x =>
    match n.weights[i]? with
    | none => none
    | some w =>
      match Dense.Mul w x with
      | none => none
      | some m =>
        match Dense.Apply (biasCallback n i) m with
        | none => none
        | some zL =>
          match Dense.Apply (fun _ _ v => some (sigmoid exp v)) zL with
          | none => none
          | some aL =>
            match forwardFrom exp n k (i + 1) aL with
            | none => none
            | some (as, zs) => some (aL :: as, zL :: zs)

/-- The method `forward`: `a` has `len(n.layers)` entries with `a[0] = x`, `z` has
`len(n.layers)-1` entries (`make` panics on a negative length). -/
def forward (exp : R → R) (n : Net R) (x : Dense R) :
    Option (List (Dense R) × List (Dense R)) :=
  if n.layers.length = 0 then none
  else
    match forwardFrom exp n (n.layers.length - 1) 0 x with
    | none => none
    | some (as, zs) => some (x :: as, zs)

/-- An indexed assignment `l[i] = v`: panics when `i` is out of range. -/
def setAt {α : Type} (l : List α) (i : Nat) (v : α) : Option (List α) :=
  if i < l.length then some (l.set i v) else none

/-- The loop of `backward`, `for i := len(n.layers) - 3; i >= 0; i--`: the first argument is
`i + 1`, `delta` is the error of layer `i + 1`; `dW` and `dB` are slices of pointers. -/
def backwardLoop (exp : R → R) (n : Net R) (a z : List (Dense R)) :
    Nat → Dense R → List (Option (Dense R)) → List (Option (Dense R)) →
    Option (List (Option (Dense R)) × List (Option (Dense R)))
  | 0, _, dW, dB => some (dW, dB)
  | i + 1, delta, dW, dB =>
    match z[i]? with
    | none => none
    | some zi =>
      match Dense.Apply (fun _ _ v => some (sigmoidPrime exp v)) zi with
      | none => none
      | some sp =>
        match n.weights[i + 1]? with
        | none => none
        | some w =>
          match Dense.Mul w.T delta with
          | none => none
          | some wd =>
            match Dense.MulElem wd sp with
            | none => none
            | some newDelta =>
              match setAt dB i (some newDelta) with
              | none => none
              | some dB1 =>
                match a[i]? with
                | none => none
                | some ai =>
                  match Dense.Mul newDelta ai.T with
                  | none => none
                  | some g =>
                    match setAt dW i (some g) with
                    | none => none
                    | some dW1 => backwardLoop exp n a z i newDelta dW1 dB1

/-- The method `backward`.  The slices `dB` and `dW` are made with `len(n.biases)` and
`len(n.weights)` nil entries and filled by indexed assignment. -/
def backward (exp : R → R) (n : Net R) (x y : Dense R) :
    Option (List (Option (Dense R)) × List (Option (Dense R))) :=
  match forward exp n x with
  | none => none
  | some (a, z) =>
    match a[a.length - 1]? with
    | none => none
    | some aL =>
      match Dense.Sub aL y with
      | none => none
      | some dC =>
        match z[z.length - 1]? with
        | none => none
        | some zL =>
          match Dense.Apply (fun _ _ v => some (sigmoidPrime exp v)) zL with
          | none => none
          | some sp =>
            match Dense.MulElem dC sp with
            | none => none
            | some delta =>
              match setAt (List.replicate n.biases.length none) (n.biases.length - 1)
                  (some delta) with
              | none => none
              | some dB =>
                if a.length < 2 then none
                else
                  match a[a.length - 2]? with
                  | none => none
                  | some aPrev =>
                    match Dense.Mul delta aPrev.T with
                    | none => none
                    | some g =>
                      match setAt (List.replicate n.weights.length none)
                          (n.weights.length - 1) (some g) with
                      | none => none
                      | some dW => backwardLoop exp n a z (n.layers.length - 2) delta dW dB

/-- The loop `for j, w := range dW { w.Add(w, nW[j]) }`: a nil pointer or a missing `nW[j]`
panics. -/
def addAll : List (Option (Dense R)) → List (Option (Dense R)) →
    Option (List (Option (Dense R)))
  | [], _ => some []
  | _ :: _, [] => none
  | none :: _, _ :: _ => none
  | some _ :: _, none :: _ => none
  | some w :: ws, some g :: gs =>
    match Dense.Add w g with
    | none => none
    | some s =>
      match addAll ws gs with
      | none => none
      | some rest => some (some s :: rest)

/-- The loop `for _, w := range dW { w.Apply(v / float64(len(x)) * alpha, w) }`. -/
def scaleAll (len : Nat) (alpha : R) : List (Option (Dense R)) → Option (List (Dense R))
  | [] => some []
  | none :: _ => none
  | some w :: ws =>
    match Dense.Apply (fun _ _ v => some (v / (len : R) * alpha)) w with
    | none => none
    | some s =>
      match scaleAll len alpha ws with
      | none => none
      | some rest => some (s :: rest)

/-- The loop `for i := 0; i < len(n.weights); i++ { n.weights[i].Sub(n.weights[i], dW[i]) }`. -/
def subAll : List (Dense R) → List (Dense R) → Option (List (Dense R))
  | [], _ => some []
  | _ :: _, [] => none
  | w :: ws, g :: gs =>
    match Dense.Sub w g with
    | none => none
    | some s =>
      match subAll ws gs with
      | none => none
      | some rest => some (s :: rest)

/-- The accumulation loop of `gradientDescent`, `for i := 1; i < len(x); i++`: the list holds
`x[i..]`, and `y[i]` is read by index. -/
def gdLoop (exp : R → R) (n : Net R) (y : List (Dense R)) :
    List (Dense R) → Nat → List (Option (Dense R)) → List (Option (Dense R)) →
    Option (List (Option (Dense R)) × List (Option (Dense R)))
  | [], _, dW, dB => some (dW, dB)
  | xi :: xs, i, dW, dB =>
    match y[i]? with
    | none => none
    | some yi =>
      match backward exp n xi yi with
      | none => none
      | some (nW, nB) =>
        match addAll dW nW with
        | none => none
        | some dW1 =>
          match addAll dB nB with
          | none => none
          | some dB1 => gdLoop exp n y xs (i + 1) dW1 dB1

/-- The method `gradientDescent`; the mutated network is returned. -/
def gradientDescent (exp : R → R) (n : Net R) (x y : List (Dense R)) (alpha : R) :
    Option (Net R) :=
  match x[0]?, y[0]? with
  | some x0, some y0 =>
    match backward exp n x0 y0 with
    | none => none
    | some (dW0, dB0) =>
      match gdLoop exp n y x.tail 1 dW0 dB0 with
      | none => none
      | some (dW, dB) =>
        match scaleAll x.length alpha dW, scaleAll x.length alpha dB with
        | some sW, some sB =>
          match subAll n.weights sW, subAll n.biases sB with
          | some ws, some bs => some ⟨n.layers, bs, ws⟩
          | _, _ => none
        | _, _ => none
  | _, _ => none

end Engine

/-! ## `mlp/api.go` -/

/-- A Go slice taken by itself: its elements `s[0..len)` and the elements of the backing array
between `len` and `cap`, which a slice expression may reach.  Slices that share cells of one
backing array, where a write through one is seen through the other, are the `SliceRef` headers
of the section on shared backing arrays. -/
structure Slice (α : Type) where
  elems : List α
  spare : List α

namespace Slice

variable {α : Type}

/-- The length `len(s)`. -/
def len (s : Slice α) : Nat := s.elems.length

/-- The capacity `cap(s)`. -/
def cap (s : Slice α) : Nat := s.elems.length + s.spare.length

/-- The slice expression `s[lo:hi]`: panics unless `0 <= lo <= hi <= cap(s)`. -/
def slice (s : Slice α) (lo hi : Int) : Option (Slice α) :=
  if 0 ≤ lo ∧ lo ≤ hi ∧ hi ≤ (s.cap : Int) then
    some ⟨((s.elems ++ s.spare).drop lo.toNat).take (hi.toNat - lo.toNat),
          (s.elems ++ s.spare).drop hi.toNat⟩
  else none

end Slice

/-- The struct `DataSet`, its two slices taken as independent values (see `DataRef` for two
slices over one memory). -/
structure DataSet (R : Type) where
  Data : Slice (Dense R)
  Labels : Slice (Dense R)

/-- The value of `float64(a) / float64(b)` for two counts: `0/0` is NaN and `a/0` is `+Inf`. -/
inductive Quot64 (R : Type) where
  | num (v : R)
  | posInf
  | nan

/-- The outcome of a run of `Train`. -/
inductive Run (α : Type) where
  | ok (v : α)
  | panic
  | outOfFuel

/-- The outcome of a run with its result mapped through `f`. -/
def Run.map {α β : Type} (f : α → β) : Run α → Run β
  | Run.ok v => Run.ok (f v)
  | Run.panic => Run.panic
  | Run.outOfFuel => Run.outOfFuel

section Api

variable {R : Type} [LinearOrderedField R]

/-- The division `float64(correct) / float64(len(data.Data))`. -/
def divCounts (c t : Nat) : Quot64 R :=
  if t = 0 then (if c = 0 then Quot64.nan else Quot64.posInf)
  else Quot64.num ((c : R) / (t : R))

/-- The slice `make([]float64, len)` filled by `w[j] = rand.NormFloat64()`; `gen j` is the
`j`-th draw.  The call fails when `len` is negative or exceeds `maxLen`. -/
def makeFloats (maxLen : Nat) (len : Int) (gen : Nat → R) : Option (List R) :=
  if len < 0 ∨ (maxLen : Int) < len then none else some ((List.range len.toNat).map gen)

/-- The body of the loop of `New` for layer `i`: the matrices `weights[i]` and `biases[i]`.
The length `sizes[i+1] * sizes[i]` is an `int` product. -/
def newLayer (maxLen : Nat) (wInit bInit : Nat → Nat → R) (sizes : List Int) (i : Nat) :
    Built (Dense R × Dense R) :=
  match sizes[i]?, sizes[i + 1]? with
  | some si, some sj =>
    match makeFloats maxLen (wrap64 (sj * si)) (wInit i) with
    | none => Built.panic
    | some w =>
      match Dense.NewDense sj si w with
      | Built.panic => Built.panic
      | wm =>
        match makeFloats maxLen sj (bInit i) with
        | none => Built.panic
        | some b =>
          match Dense.NewDense sj 1 b, wm with
          | Built.panic, _ => Built.panic
          | Built.ok bm1, Built.ok wm1 => Built.ok (wm1, bm1)
          | _, _ => Built.short
  | _, _ => Built.panic

/-- The loop of `New`: `k` iterations remain and `i` is the loop variable.  Returns the weights
and the biases of layers `i..`.  A matrix short of entries does not stop the loop. -/
def newLayers (maxLen : Nat) (wInit bInit : Nat → Nat → R) (sizes : List Int) :
    Nat → Nat → Built (List (Dense R) × List (Dense R))
  | 0, _ => Built.ok ([], [])
  | k + 1, i =>
    match newLayer maxLen wInit bInit sizes i with
    | Built.panic => Built.panic
    | layer =>
      match newLayers maxLen wInit bInit sizes k (i + 1), layer with
      | Built.panic, _ => Built.panic
      | Built.ok (ws, bs), Built.ok (wm, bm) => Built.ok (wm :: ws, bm :: bs)
      | _, _ => Built.short

/-- The constructor `New(sizes...)`: panics with fewer than two sizes. -/
def New (maxLen : Nat) (wInit bInit : Nat → Nat → R) (sizes : List Int) : Built (Net R) :=
  if sizes.length < 2 then Built.panic
  else
    match newLayers maxLen wInit bInit sizes (sizes.length - 1) 0 with
    | Built.ok (ws, bs) => Built.ok ⟨sizes, bs, ws⟩
    | Built.panic => Built.panic
    | Built.short => Built.short

/-- The method `Predict`: the last activation of `forward`. -/
def Predict (exp : R → R) (n : Net R) (input : Dense R) : Option (Dense R) :=
  match forward exp n input with
  | none => none
  | some (a, _) => a[a.length - 1]?

/-- The four running variables of the inner loop of `Evaluate`. -/
structure MaxState (R : Type) where
  maxP : R
  maxPInd : Nat
  maxE : R
  maxEInd : Nat

/-- The body of the inner loop of `Evaluate` for row `j`. -/
def maxStep (output label : Dense R) (s : MaxState R) (j : Nat) : Option (MaxState R) :=
  match Dense.Row j output, Dense.Row j label with
  | some p, some e =>
    match p[0]?, e[0]? with
    | some p0, some e0 =>
      let s1 : MaxState R := if p0 > s.maxP then ⟨p0, j, s.maxE, s.maxEInd⟩ else s
      some (if e0 > s1.maxE then ⟨s1.maxP, s1.maxPInd, e0, j⟩ else s1)
    | _, _ => none
  | _, _ => none

/-- The inner loop of `Evaluate`, `for j := 0; j < r; j++`, over the rows `js`. -/
def maxLoop (output label : Dense R) : List Nat → MaxState R → Option (MaxState R)
  | [], s => some s
  | j :: js, s =>
    match maxStep output label s j with
    | none => none
    | some s1 => maxLoop output label js s1

/-- The body of the outer loop of `Evaluate` for one sample: whether `maxEInd == maxPInd`. -/
def sampleCorrect (exp : R → R) (n : Net R) (x label : Dense R) : Option Bool :=
  match Predict exp n x with
  | none => none
  | some output =>
    match output.At 0 0, label.At 0 0 with
    | some maxP, some maxE =>
      match maxLoop output label (List.range output.rows) ⟨maxP, 0, maxE, 0⟩ with
      | none => none
      | some s => some (s.maxEInd == s.maxPInd)
    | _, _ => none

/-- The outer loop of `Evaluate`: the list holds `data.Data[i..]`, `data.Labels[i]` is read by
index, `correct` is the running count. -/
def evalLoop (exp : R → R) (n : Net R) (labels : List (Dense R)) :
    List (Dense R) → Nat → Nat → Option Nat
  | [], _, correct => some correct
  | x :: xs, i, correct =>
    match labels[i]? with
    | none => none
    | some l =>
      match sampleCorrect exp n x l with
      | none => none
      | some b => evalLoop exp n labels xs (i + 1) (if b then correct + 1 else correct)

/-- The method `Evaluate`. -/
def Evaluate (exp : R → R) (n : Net R) (data : DataSet R) : Option (Quot64 R) :=
  match evalLoop exp n data.Labels.elems data.Data.elems 0 0 with
  | none => none
  | some correct => some (divCounts correct data.Data.len)

/-- The exchange `l[i], l[j] = l[j], l[i]`. -/
def swapAt {α : Type} (l : List α) (i j : Nat) : Option (List α) :=
  match l[i]?, l[j]? with
  | some a, some b => some ((l.set i b).set j a)
  | _, _ => none

/-- The loop of `rand.Shuffle(len(data.Data), swap)` (Fisher-Yates): the loop variable `i` runs
from `n - 1` down to `1`, `j` is a draw in `[0, i]`, and `swap(i, j)` exchanges the entries of
`Data` and of `Labels`.  The first argument is the current `i`; `rnd i` is the raw draw. -/
def shuffleLoop (rnd : Nat → Nat) : Nat → List (Dense R) → List (Dense R) →
    Option (List (Dense R) × List (Dense R))
  | 0, d, l => some (d, l)
  | i + 1, d, l =>
    match swapAt d (i + 1) (rnd (i + 1) % (i + 2)), swapAt l (i + 1) (rnd (i + 1) % (i + 2)) with
    | some d1, some l1 => shuffleLoop rnd i d1 l1
    | _, _ => none

/-- The shuffle of one epoch on a data set whose two slices share no cell: the exchanges act on
the elements of each slice (`shuffleRef_view`).  The general case is `shuffleRef`. -/
def shuffle (rnd : Nat → Nat) (data : DataSet R) : Option (DataSet R) :=
  match shuffleLoop rnd (data.Data.len - 1) data.Data.elems data.Labels.elems with
  | none => none
  | some (d, l) => some ⟨⟨d, data.Data.spare⟩, ⟨l, data.Labels.spare⟩⟩

/-- The batch loop of `Train`, `for j := 0; j < len(data.Data); j += batchSize`, with a bound
on the number of iterations. -/
def batchLoop (exp : R → R) (data : DataSet R) (batchSize : Int) (alpha : R) :
    Nat → Int → Net R → Run (Net R)
  | 0, j, n => if j < (data.Data.len : Int) then Run.outOfFuel else Run.ok n
  | fuel + 1, j, n =>
    if j < (data.Data.len : Int) then
      match data.Data.slice j (j + batchSize), data.Labels.slice j (j + batchSize) with
      | some xs, some ys =>
        match gradientDescent exp n xs.elems ys.elems alpha with
        | none => Run.panic
        | some n1 => batchLoop exp data batchSize alpha fuel (j + batchSize) n1
      | _, _ => Run.panic
    else Run.ok n

/-- The epoch loop of `Train`: `k` epochs remain, `e` is the index of the current epoch.  The
training set is shuffled in place, so the shuffled set is part of the state. -/
def trainEpochs (exp : R → R) (rnd : Nat → Nat → Nat) (validation : DataSet R)
    (batchSize : Int) (alpha : R) : Nat → Nat → Net R → DataSet R → Run (Net R × DataSet R)
  | 0, _, n, data => Run.ok (n, data)
  | k + 1, e, n, data =>
    match shuffle (rnd e) data with
    | none => Run.panic
    | some data1 =>
      match batchLoop exp data1 batchSize alpha (data1.Data.len + 1) 0 n with
      | Run.panic => Run.panic
      | Run.outOfFuel => Run.outOfFuel
      | Run.ok n1 =>
        if validation.Data.len > 0 then
          match Evaluate exp n1 validation with
          | none => Run.panic
          | some _ => trainEpochs exp rnd validation batchSize alpha k (e + 1) n1 data1
        else trainEpochs exp rnd validation batchSize alpha k (e + 1) n1 data1

/-- The method `Train` on a training set whose two slices share no cell and whose elements are
not elements of the validation set (`TrainRef_view`).  The general case is `TrainRef`. -/
def Train (exp : R → R) (rnd : Nat → Nat → Nat) (n : Net R) (data validation : DataSet R)
    (batchSize epochs : Int) (learningRate : R) : Run (Net R × DataSet R) :=
  trainEpochs exp rnd validation batchSize learningRate epochs.toNat 0 n data

end Api

/-! ## Shapes and accessors used in the statements -/

section Shapes

variable {R : Type} [LinearOrderedField R]

/-- The matrix `n.weights[i]`, the empty matrix when `i` is out of range. -/
def Net.W (n : Net R) (i : Nat) : Dense R := n.weights.getD i Dense.empty

/-- The matrix `n.biases[i]`, the empty matrix when `i` is out of range. -/
def Net.B (n : Net R) (i : Nat) : Dense R := n.biases.getD i Dense.empty

/-- The size `n.layers[i]`, zero when `i` is out of range. -/
def Net.size (n : Net R) (i : Nat) : Int := n.layers.getD i 0

/-- Entry `i` of a trace (`a` or `z`), the empty matrix when `i` is out of range. -/
def traceAt (l : List (Dense R)) (i : Nat) : Dense R := l.getD i Dense.empty

/-- Entry `i` of a gradient slice (`dW` or `dB`), the empty matrix when absent or nil. -/
def gradAt (g : List (Option (Dense R))) (i : Nat) : Dense R :=
  (g.getD i none).getD Dense.empty

/-- A column vector with `s` rows. -/
def ColShaped (m : Dense R) (s : Int) : Prop :=
  (m.rows : Int) = s ∧ m.cols = 1

/-- The shape invariant of the data model: at least two layer sizes, all positive,
`len(W) = len(B) = len(sizes) - 1`, `W[i]` of shape `(sizes[i+1], sizes[i])` and `B[i]` of
shape `(sizes[i+1], 1)`. -/
def WellShaped (n : Net R) : Prop :=
  2 ≤ n.layers.length ∧
  n.weights.length + 1 = n.layers.length ∧
  n.biases.length + 1 = n.layers.length ∧
  (∀ i, i < n.layers.length → 0 < n.size i) ∧
  (∀ i, i < n.weights.length →
    ((n.W i).rows : Int) = n.size (i + 1) ∧ ((n.W i).cols : Int) = n.size i ∧
    ((n.B i).rows : Int) = n.size (i + 1) ∧ (n.B i).cols = 1)

/-- Layer `i` of `New(sizes...)` cannot be built: one of its two sizes is not positive, or the
`int` product `sizes[i+1] * sizes[i]` is negative or longer than the longest slice, or
`sizes[i+1]` is. -/
def LayerFails (maxLen : Nat) (sizes : List Int) (i : Nat) : Prop :=
  sizes.getD i 0 ≤ 0 ∨ sizes.getD (i + 1) 0 ≤ 0 ∨
  wrap64 (sizes.getD (i + 1) 0 * sizes.getD i 0) < 0 ∨
  (maxLen : Int) < wrap64 (sizes.getD (i + 1) 0 * sizes.getD i 0) ∨
  (maxLen : Int) < sizes.getD (i + 1) 0

/-- The `int` product `sizes[i+1] * sizes[i]` of layer `i` is not the true product. -/
def LayerWraps (sizes : List Int) (i : Nat) : Prop :=
  wrap64 (sizes.getD (i + 1) 0 * sizes.getD i 0) ≠ sizes.getD (i + 1) 0 * sizes.getD i 0

/-- Matrix `d` has the (non-empty) shape of `p`. -/
def SameShape (p d : Dense R) : Prop :=
  d.rows = p.rows ∧ d.cols = p.cols ∧ 0 < p.rows ∧ 0 < p.cols

/-- Pointer `o` is non-nil and points to a matrix of the shape of `p`. -/
def PtrShape (p : Dense R) (o : Option (Dense R)) : Prop :=
  ∃ d, o = some d ∧ SameShape p d

/-- The gradient bundle that `backward` returns for sample `s` of a batch, evaluated against
the network `n`; two empty slices if `backward` panics. -/
def sampleGrad (exp : R → R) (n : Net R) (x y : List (Dense R)) (s : Nat) :
    List (Option (Dense R)) × List (Option (Dense R)) :=
  (backward exp n (traceAt x s) (traceAt y s)).getD ([], [])

/-- A matrix given by its row-major entries (as the tests build them with `mat.NewDense`). -/
def Dense.ofList (r c : Nat) (data : List R) : Dense R :=
  ⟨r, c, fun i j => data.getD (i * c + j) 0⟩

/-- The network of `TestNetwork_Forward32`: layers `3, 2`, weights `1 3 5 / 2 4 6`, biases
`-5, -3`. -/
def net32 : Net R :=
  ⟨[3, 2], [Dense.ofList 2 1 [-5, -3]], [Dense.ofList 2 3 [1, 3, 5, 2, 4, 6]]⟩

/-- The input of `TestNetwork_Forward32`. -/
def x32 : Dense R := Dense.ofList 3 1 [2, 3, 4]

/-- A target for `net32`. -/
def y32 : Dense R := Dense.ofList 2 1 [0, 1]

/-- The data set with no samples and no spare capacity. -/
def emptySet : DataSet R := ⟨⟨[], []⟩, ⟨[], []⟩⟩

/-- Three samples for `net32`, in slices without spare capacity. -/
def threeSamples : DataSet R := ⟨⟨[x32, x32, x32], []⟩, ⟨[y32, y32, y32], []⟩⟩

/-- One sample for `net32`, in slices of length 1 and capacity 2: the backing arrays hold one
more matrix beyond the length (as `trainData[:30000]` does in `main.go`). -/
def oneOfTwo : DataSet R := ⟨⟨[x32], [x32]⟩, ⟨[y32], [y32]⟩⟩

/-- A network with layers `2, 2, 1`. -/
def net221 : Net R :=
  ⟨[2, 2, 1], [Dense.ofList 2 1 [0, 1], Dense.ofList 1 1 [0]],
    [Dense.ofList 2 2 [1, 0, 0, 1], Dense.ofList 1 2 [1, 1]]⟩

/-- An input for `net221`. -/
def x221 : Dense R := Dense.ofList 2 1 [1, 0]

/-- A target for `net221`. -/
def y221 : Dense R := Dense.ofList 1 1 [1]

/-- The cost `C = ½‖a[L] − y‖²` of one sample, with `a[L]` computed by the network's own
`Predict` (zero when `Predict` panics). -/
def cost (exp : R → R) (n : Net R) (x y : Dense R) : R :=
  match Predict exp n x with
  | none => 0
  | some out => 1 / 2 * ∑ j in Finset.range out.rows, (out.elem j 0 - y.elem j 0) ^ 2

/-- The network `n` with entry `j` of the bias vector `B[i]` replaced by `t`. -/
def Net.setBias (n : Net R) (i j : Nat) (t : R) : Net R :=
  ⟨n.layers,
    n.biases.set i ⟨(n.B i).rows, (n.B i).cols,
      fun r c => if r = j ∧ c = 0 then t else (n.B i).elem r c⟩,
    n.weights⟩

/-- A network with layers `1, 2`, all weights and biases zero. -/
def net12 : Net R :=
  ⟨[1, 2], [Dense.ofList 2 1 [0, 0]], [Dense.ofList 2 1 [0, 0]]⟩

/-- An input for `net12`. -/
def x12 : Dense R := Dense.ofList 1 1 [0]

/-- A target for `net12`. -/
def y12 : Dense R := Dense.ofList 2 1 [0, 0]

/-- Index `k` is the index of the maximum among the first `r` entries of the column vector `m`
(the first such index when the maximum is attained more than once). -/
def IsArgmax (m : Dense R) (r k : Nat) : Prop :=
  k < r ∧ (∀ j, j < r → m.elem j 0 ≤ m.elem k 0) ∧
    (∀ j, j < k → m.elem j 0 < m.elem k 0)

/-- The sample `(x, label)` is classified correctly: the index of the maximum entry of
`Predict(x)` is the index of the maximum entry of the target. -/
def sampleMatches (exp : R → R) (n : Net R) (x label : Dense R) : Prop :=
  match Predict exp n x with
  | none => False
  | some out => ∃ k, k < out.rows ∧ IsArgmax out out.rows k ∧ IsArgmax label label.rows k

/-- The invariant of a running maximum `mx` with index `ix` before row `s` is examined. -/
def ArgInv (m : Dense R) (s : Nat) (mx : R) (ix : Nat) : Prop :=
  mx = m.elem ix 0 ∧ (∀ j, j < s → m.elem j 0 ≤ mx) ∧
    (∀ j, j < ix → m.elem j 0 < mx) ∧ (ix < s ∨ ix = 0)

/-- The invariant of the inner loop of `Evaluate` before row `s` is examined. -/
def MaxInv (output label : Dense R) (s : Nat) (st : MaxState R) : Prop :=
  ArgInv output s st.maxP st.maxPInd ∧ ArgInv label s st.maxE st.maxEInd

instance (m : Dense R) (r k : Nat) : Decidable (IsArgmax m r k) := by
  unfold IsArgmax; infer_instance

instance (exp : R → R) (n : Net R) (x label : Dense R) :
    Decidable (sampleMatches exp n x label) := by
  unfold sampleMatches
  split <;> infer_instance

/-- The number of correctly classified samples of a data set. -/
def correctCount (exp : R → R) (n : Net R) (data : DataSet R) : Nat :=
  ((Finset.range data.Data.len).filter
    (fun s => sampleMatches exp n (traceAt data.Data.elems s)
      (traceAt data.Labels.elems s))).card

/-- The sample `(x, label)` is counted by `Evaluate` when its target has at least as many rows
as the output: the index of the maximum entry of `Predict(x)` is the index of the maximum among
the first `r` entries of the target, `r` being the number of rows of the output. -/
def sampleMatchesFirst (exp : R → R) (n : Net R) (x label : Dense R) : Prop :=
  match Predict exp n x with
  | none => False
  | some out => ∃ k, k < out.rows ∧ IsArgmax out out.rows k ∧ IsArgmax label out.rows k

instance (exp : R → R) (n : Net R) (x label : Dense R) :
    Decidable (sampleMatchesFirst exp n x label) := by
  unfold sampleMatchesFirst
  split <;> infer_instance

/-- The number of samples of a data set counted by `Evaluate` when only the leading entries of
each target are compared. -/
def firstCount (exp : R → R) (n : Net R) (data : DataSet R) : Nat :=
  ((Finset.range data.Data.len).filter
    (fun s => sampleMatchesFirst exp n (traceAt data.Data.elems s)
      (traceAt data.Labels.elems s))).card

/-- The zero input for `net32`. -/
def zero3 : Dense R := Dense.ofList 3 1 [0, 0, 0]

/-- The target of class 0 for `net32`. -/
def y10 : Dense R := Dense.ofList 2 1 [1, 0]

/-- Three samples for `net32`: the input of the test with target class 1, and the zero input
with target class 1 and with target class 0. -/
def mixedSet : DataSet R := ⟨⟨[x32, zero3, zero3], []⟩, ⟨[y32, y32, y10], []⟩⟩

instance (m : Dense R) (s : Int) : Decidable (ColShaped m s) := by
  unfold ColShaped; infer_instance

instance (n : Net R) : Decidable (WellShaped n) := by
  unfold WellShaped; infer_instance

end Shapes

section Fixture11

variable {R : Type} [LinearOrderedField R]

/-- The network of `TestNetwork_Forward11`: layers `1, 1`, one weight `w` and one bias `b`. -/
def net11 (w b : R) : Net R :=
  ⟨[1, 1], [Dense.ofList 1 1 [b]], [Dense.ofList 1 1 [w]]⟩

/-- The input of `TestNetwork_Forward11`: the `1 × 1` matrix holding `x`. -/
def x11 (x : R) : Dense R := Dense.ofList 1 1 [x]

end Fixture11

/-! ## `mnist/mnist.go`

The file system and the gzip decoder are the environment: a `Source` says whether `os.Open`
and `gzip.NewReader` succeed and, if so, which decompressed bytes the reader delivers and how
the stream ends.  A function returning `(value, error)` returns a `Loaded`; a panic is
`none`. -/

namespace Mnist

/-- The constant `Width`. -/
def Width : Int := 28

/-- The constant `Height`. -/
def Height : Int := 28

/-- The constant `imageMagic`. -/
def imageMagic : Int := 0x00000803

/-- The constant `labelMagic`. -/
def labelMagic : Int := 0x00000801

/-- The errors that can reach the caller. -/
inductive Err where
  | osOpen
  | gzipHeader
  | eof
  | unexpectedEOF
  | stream
  | invalidFormat
  deriving DecidableEq

/-- A reader: the bytes still to be delivered and the error reported once they are exhausted
(`none` is a clean end, `io.EOF`). -/
structure Reader where
  bytes : List Nat
  ending : Option Err

/-- The outcome of `os.Open` followed by `gzip.NewReader`. -/
inductive Source where
  | openFails
  | gzipFails
  | opened (r : Reader)

/-- A Go result pair `(value, err)`: `value = none` is the nil slice, `err = none` the nil
error. -/
structure Loaded (α : Type) where
  value : Option (List α)
  err : Option Err

/-- The read of exactly `n` bytes that `binary.Read` performs (`io.ReadFull`): with no byte
left the error is the end of the stream (`io.EOF` on a clean end), with too few bytes it is
`io.ErrUnexpectedEOF` on a clean end. -/
def readFull (r : Reader) (n : Nat) : Except Err (List Nat × Reader) :=
  if n ≤ r.bytes.length then Except.ok (r.bytes.take n, ⟨r.bytes.drop n, r.ending⟩)
  else if r.bytes.length = 0 then Except.error (r.ending.getD Err.eof)
  else Except.error (r.ending.getD Err.unexpectedEOF)

/-- A big-endian `int32` from four bytes. -/
def int32BE (bs : List Nat) : Int :=
  let u : Nat := (bs.getD 0 0 % 256) * 16777216 + (bs.getD 1 0 % 256) * 65536
    + (bs.getD 2 0 % 256) * 256 + bs.getD 3 0 % 256
  if u < 2147483648 then (u : Int) else (u : Int) - 4294967296

/-- An `int8` from one byte. -/
def int8Of (b : Nat) : Int :=
  if b % 256 < 128 then ((b % 256 : Nat) : Int) else ((b % 256 : Nat) : Int) - 256

/-- The struct `imageFileHeader`. -/
structure imageFileHeader where
  Magic : Int
  NumImages : Int
  Height : Int
  Width : Int

/-- The struct `labelFileHeader`. -/
structure labelFileHeader where
  Magic : Int
  NumLabels : Int

/-- The call `binary.Read(reader, binary.BigEndian, &header)` for an `imageFileHeader`. -/
def readImageHeader (r : Reader) : Except Err (imageFileHeader × Reader) :=
  match readFull r 16 with
  | Except.error e => Except.error e
  | Except.ok (bs, r1) =>
    Except.ok (⟨int32BE bs, int32BE (bs.drop 4), int32BE (bs.drop 8), int32BE (bs.drop 12)⟩, r1)

/-- The call `binary.Read(reader, binary.BigEndian, &header)` for a `labelFileHeader`. -/
def readLabelHeader (r : Reader) : Except Err (labelFileHeader × Reader) :=
  match readFull r 8 with
  | Except.error e => Except.error e
  | Except.ok (bs, r1) => Except.ok (⟨int32BE bs, int32BE (bs.drop 4)⟩, r1)

/-- The function `readImage`: one image of `Width * Height` bytes. -/
def readImage (r : Reader) : Except Err (List Nat × Reader) :=
  readFull r (Width * Height).toNat

/-- The reading loop of `LoadImageFile`: `k` images remain. -/
def readImages : Nat → Reader → Except Err (List (List Nat))
  | 0, _ => Except.ok []
  | k + 1, r =>
    match readImage r with
    | Except.error e => Except.error e
    | Except.ok (img, r1) =>
      match readImages k r1 with
      | Except.error e => Except.error e
      | Except.ok imgs => Except.ok (img :: imgs)

/-- The reading loop of `LoadLabelFile`: `k` labels remain. -/
def readLabels : Nat → Reader → Except Err (List Int)
  | 0, _ => Except.ok []
  | k + 1, r =>
    match readFull r 1 with
    | Except.error e => Except.error e
    | Except.ok (bs, r1) =>
      match readLabels k r1 with
      | Except.error e => Except.error e
      | Except.ok ls => Except.ok (int8Of (bs.getD 0 0) :: ls)

/-- The function `LoadImageFile`.  The third test of the format check compares
`header.Height` with itself. -/
def LoadImageFile (src : Source) : Option (Loaded (List Nat)) :=
  match src with
  | Source.openFails => some ⟨none, some Err.osOpen⟩
  | Source.gzipFails => some ⟨none, some Err.gzipHeader⟩
  | Source.opened reader =>
    match readImageHeader reader with
    | Except.error e => some ⟨none, some e⟩
    | Except.ok (header, r1) =>
      if header.Magic ≠ imageMagic ∨ header.Width ≠ Width ∨ header.Height ≠ header.Height then
        some ⟨none, some Err.invalidFormat⟩
      else if header.NumImages < 0 then none
      else
        match readImages header.NumImages.toNat r1 with
        | Except.error e => some ⟨none, some e⟩
        | Except.ok images => some ⟨some images, none⟩

/-- The function `LoadLabelFile`.  On a wrong magic number it returns `nil, err`, where `err`
is the (nil) error of the header read that has just succeeded. -/
def LoadLabelFile (src : Source) : Option (Loaded Int) :=
  match src with
  | Source.openFails => some ⟨none, some Err.osOpen⟩
  | Source.gzipFails => some ⟨none, some Err.gzipHeader⟩
  | Source.opened reader =>
    match readLabelHeader reader with
    | Except.error e => some ⟨none, some e⟩
    | Except.ok (header, r1) =>
      if header.Magic ≠ labelMagic then some ⟨none, none⟩
      else if header.NumLabels < 0 then none
      else
        match readLabels header.NumLabels.toNat r1 with
        | Except.error e => some ⟨none, some e⟩
        | Except.ok labels => some ⟨some labels, none⟩

/-- A label file whose header carries the magic number of an image file and announces no
label. -/
def badLabelFile : Source :=
  Source.opened ⟨[0, 0, 8, 3, 0, 0, 0, 0], none⟩

/-- An image file with the right magic number, no image, `Height = 27` and `Width = 28`. -/
def shortImageFile : Source :=
  Source.opened ⟨[0, 0, 8, 3, 0, 0, 0, 0, 0, 0, 0, 27, 0, 0, 0, 28], none⟩

end Mnist

section Fixture18

variable {R : Type} [LinearOrderedField R]

/-- A target with three rows, one more than the output layer of `net32` has units. -/
def longTarget : Dense R := Dense.ofList 3 1 [0, 1, 5]

/-- One sample for `net32` whose target is `longTarget`. -/
def longTargetSet : DataSet R := ⟨⟨[x32], []⟩, ⟨[longTarget], []⟩⟩

end Fixture18

/-! ## Pointers and in-place mutation

The methods of `gonum/mat` write their result into the receiver.  To state which matrices
`forward`, `Predict` and `backward` leave untouched, the same code is embedded a second time
over a store of matrices: a pointer is an index into the store, `new(mat.Dense)` appends the
zero value, and a method call replaces the cell of its receiver.  The struct `net` holds
pointers; its fields are never assigned by these methods and are a read-only parameter. -/

section HeapModel

variable {R : Type} [LinearOrderedField R]

/-- The store: cell `p` holds the matrix that the pointer `p` refers to. -/
abbrev Heap (R : Type) := List (Dense R)

/-- The struct `net`, with `*mat.Dense` fields as pointers into the store. -/
structure NetRef where
  layers : List Int
  biases : List Nat
  weights : List Nat

/-- An argument of type `mat.Matrix`: a pointer `p`, or the transposed view `p.T()`. -/
inductive Operand where
  | mat (p : Nat)
  | tr (p : Nat)

/-- The matrix that an operand denotes; a dangling (nil) pointer panics. -/
def Heap.read (h : Heap R) : Operand → Option (Dense R)
  | Operand.mat p => h[p]?
  | Operand.tr p =>
    match h[p]? with
    | none => none
    | some m => some m.T

/-- The effect of a method call on its receiver `p`, `res` being the result of the operation
(`none` if it panics): the receiver must be the zero value or already have the shape of the
result (`reuseAsNonZeroed`), and it then holds the result.  No other cell changes. -/
def Heap.assign (h : Heap R) (p : Nat) (res : Option (Dense R)) : Option (Heap R) :=
  match res, h[p]? with
  | some m, some r =>
    if (r.rows = 0 ∧ r.cols = 0) ∨ (r.rows = m.rows ∧ r.cols = m.cols) then some (h.set p m)
    else none
  | _, _ => none

/-- The call `recv.Mul(a, b)`. -/
def Heap.Mul (h : Heap R) (recv : Nat) (a b : Operand) : Option (Heap R) :=
  match Heap.read h a, Heap.read h b with
  | some A, some B => Heap.assign h recv (Dense.Mul A B)
  | _, _ => none

/-- The call `recv.Sub(a, b)`. -/
def Heap.Sub (h : Heap R) (recv : Nat) (a b : Operand) : Option (Heap R) :=
  match Heap.read h a, Heap.read h b with
  | some A, some B => Heap.assign h recv (Dense.Sub A B)
  | _, _ => none

/-- The call `recv.MulElem(a, b)`. -/
def Heap.MulElem (h : Heap R) (recv : Nat) (a b : Operand) : Option (Heap R) :=
  match Heap.read h a, Heap.read h b with
  | some A, some B => Heap.assign h recv (Dense.MulElem A B)
  | _, _ => none

/-- The call `recv.Apply(fn, a)`. -/
def Heap.Apply (h : Heap R) (recv : Nat) (fn : Nat → Nat → R → Option R) (a : Operand) :
    Option (Heap R) :=
  match Heap.read h a with
  | some A => Heap.assign h recv (Dense.Apply fn A)
  | none => none

/-- The bias callback of `forward`, reading `n.biases[i]` through the store. -/
def biasCallbackH (h : Heap R) (n : NetRef) (i : Nat) : Nat → Nat → R → Option R :=
  fun _ c v =>
    match n.biases[i]? with
    | none => none
    | some b =>
      match h[b]? with
      | none => none
      | some B =>
        match B.At c 0 with
        | none => none
        | some bv => some (v + bv)

/-- The loop of `forward` over the store: `k` iterations remain, `i` is the loop variable, `x`
points to the current activation.  `zL` and `aL` are the two fresh pointers of
`var zL, aL = new(mat.Dense), new(mat.Dense)`. -/
def forwardFromH (exp : R → R) (n : NetRef) :
    Nat → Nat → Nat → Heap R → Option (Heap R × List Nat × List Nat)
  | 0, _, _, h => some (h, [], [])
  | k + 1, i, x, h =>
    match n.weights[i]? with
    | none => none
    | some w =>
      match Heap.Mul (h ++ [Dense.empty, Dense.empty]) h.length (Operand.mat w)
          (Operand.mat x) with
      | none => none
      | some h3 =>
        match Heap.Apply h3 h.length (biasCallbackH h3 n i) (Operand.mat h.length) with
        | none => none
        | some h4 =>
          match Heap.Apply h4 (h.length + 1) (fun _ _ v => some (sigmoid exp v))
              (Operand.mat h.length) with
          | none => none
          | some h5 =>
            match forwardFromH exp n k (i + 1) (h.length + 1) h5 with
            | none => none
            | some (h6, as, zs) => some (h6, (h.length + 1) :: as, h.length :: zs)

/-- The method `forward` over the store: returns the store and the pointer slices `a`, `z`. -/
def forwardH (exp : R → R) (n : NetRef) (x : Nat) (h : Heap R) :
    Option (Heap R × List Nat × List Nat) :=
  if n.layers.length = 0 then none
  else
    match forwardFromH exp n (n.layers.length - 1) 0 x h with
    | none => none
    | some (h1, as, zs) => some (h1, x :: as, zs)

/-- The method `Predict` over the store: the store and the pointer `a[len(a)-1]`. -/
def PredictH (exp : R → R) (n : NetRef) (input : Nat) (h : Heap R) : Option (Heap R × Nat) :=
  match forwardH exp n input h with
  | none => none
  | some (h1, a, _) =>
    match a[a.length - 1]? with
    | none => none
    | some p => some (h1, p)

/-- The loop of `backward` over the store: the first argument is `i + 1`, `delta` points to the
error of layer `i + 1`.  The fresh pointers are, in order, `sp`, `newDelta` and `dW[i]`. -/
def backwardLoopH (exp : R → R) (n : NetRef) (a z : List Nat) :
    Nat → Nat → List (Option Nat) → List (Option Nat) → Heap R →
    Option (Heap R × List (Option Nat) × List (Option Nat))
  | 0, _, dW, dB, h => some (h, dW, dB)
  | i + 1, delta, dW, dB, h =>
    match z[i]? with
    | none => none
    | some zi =>
      match Heap.Apply (h ++ [Dense.empty]) h.length
          (fun _ _ v => some (sigmoidPrime exp v)) (Operand.mat zi) with
      | none => none
      | some h2 =>
        match n.weights[i + 1]? with
        | none => none
        | some w =>
          match Heap.Mul (h2 ++ [Dense.empty]) h2.length (Operand.tr w)
              (Operand.mat delta) with
          | none => none
          | some h4 =>
            match Heap.MulElem h4 h2.length (Operand.mat h2.length) (Operand.mat h.length) with
            | none => none
            | some h5 =>
              match setAt dB i (some h2.length) with
              | none => none
              | some dB1 =>
                match setAt dW i (some h5.length) with
                | none => none
                | some dW1 =>
                  match a[i]? with
                  | none => none
                  | some ai =>
                    match Heap.Mul (h5 ++ [Dense.empty]) h5.length (Operand.mat h2.length)
                        (Operand.tr ai) with
                    | none => none
                    | some h7 => backwardLoopH exp n a z i h2.length dW1 dB1 h7

/-- The method `backward` over the store.  The fresh pointers before the loop are, in order,
`dC`, `sp`, `delta` and `dW[len(dW)-1]`. -/
def backwardH (exp : R → R) (n : NetRef) (x y : Nat) (h : Heap R) :
    Option (Heap R × List (Option Nat) × List (Option Nat)) :=
  match forwardH exp n x h with
  | none => none
  | some (h0, a, z) =>
    match a[a.length - 1]? with
    | none => none
    | some aL =>
      match Heap.Sub (h0 ++ [Dense.empty]) h0.length (Operand.mat aL) (Operand.mat y) with
      | none => none
      | some h1 =>
        match z[z.length - 1]? with
        | none => none
        | some zL =>
          match Heap.Apply (h1 ++ [Dense.empty]) h1.length
              (fun _ _ v => some (sigmoidPrime exp v)) (Operand.mat zL) with
          | none => none
          | some h2 =>
            match Heap.MulElem (h2 ++ [Dense.empty]) h2.length (Operand.mat h0.length)
                (Operand.mat h1.length) with
            | none => none
            | some h3 =>
              match setAt (List.replicate n.biases.length none) (n.biases.length - 1)
                  (some h2.length) with
              | none => none
              | some dB =>
                match setAt (List.replicate n.weights.length none) (n.weights.length - 1)
                    (some h3.length) with
                | none => none
                | some dW =>
                  if a.length < 2 then none
                  else
                    match a[a.length - 2]? with
                    | none => none
                    | some aPrev =>
                      match Heap.Mul (h3 ++ [Dense.empty]) h3.length (Operand.mat h2.length)
                          (Operand.tr aPrev) with
                      | none => none
                      | some h4 =>
                        backwardLoopH exp n a z (n.layers.length - 2) h2.length dW dB h4

/-- The store `h` represents the network `N` through the pointers of `n`. -/
def Refs (h : Heap R) (n : NetRef) (N : Net R) : Prop :=
  n.layers = N.layers ∧
  List.Forall₂ (fun p m => h[p]? = some m) n.weights N.weights ∧
  List.Forall₂ (fun p m => h[p]? = some m) n.biases N.biases

/-- The pointers `ps` refer, in the store `h`, to the matrices `vs`. -/
def Holds (h : Heap R) (ps : List Nat) (vs : List (Dense R)) : Prop :=
  List.Forall₂ (fun p m => h[p]? = some m) ps vs

/-- The slice of pointers `ps` (nil or not) refers, in the store `h`, to `vs`. -/
def HoldsOpt (h : Heap R) (ps : List (Option Nat)) (vs : List (Option (Dense R))) : Prop :=
  List.Forall₂ (fun p m =>
    match p, m with
    | none, none => True
    | some q, some v => h[q]? = some v
    | _, _ => False) ps vs

/-- Every cell of `h` is a cell of `h1` with the same content: nothing that existed was
written. -/
def Unchanged (h h1 : Heap R) : Prop :=
  ∀ p, p < h.length → h1[p]? = h[p]?

/-- A store holding the matrices of `net221`, its input and its target, with the pointers of
the network. -/
def heap221 : Heap R :=
  [Dense.ofList 2 2 [1, 0, 0, 1], Dense.ofList 1 2 [1, 1], Dense.ofList 2 1 [0, 1],
    Dense.ofList 1 1 [0], x221, y221]

/-- The network `net221` as pointers into `heap221`. -/
def netRef221 : NetRef := ⟨[2, 2, 1], [2, 3], [0, 1]⟩

end HeapModel

/-! ## Slices that share a backing array

In `Slice` the two slices of a `DataSet` are independent lists.  The program exchanges elements
in place, and two Go slices may denote overlapping ranges of one backing array.  This section
keeps the cells of all backing arrays in one list (the memory) and a slice is a header: an
offset, a length and a capacity.  A cell holds a pointer to a matrix, identified with the
matrix, which `Train` never writes to. -/

/-- A slice header: the slice denotes the cells `off .. off + len` of the memory, and a slice
expression may reach the cells up to `off + cap`.  Headers with intersecting ranges are slices
of one backing array that share elements. -/
structure SliceRef where
  off : Nat
  len : Nat
  cap : Nat

/-- The struct `DataSet` as a pair of slice headers. -/
structure DataRef where
  Data : SliceRef
  Labels : SliceRef

section SliceRefs

variable {R : Type} [LinearOrderedField R]

/-- The elements `s[0..len)` of a slice header, read from the memory `m`. -/
def SliceRef.elems {α : Type} (s : SliceRef) (m : List α) : List α :=
  (m.drop s.off).take s.len

/-- The slice that a header denotes in the memory `m`: its elements and the cells between its
length and its capacity. -/
def SliceRef.view {α : Type} (s : SliceRef) (m : List α) : Slice α :=
  ⟨s.elems m, (m.drop (s.off + s.len)).take (s.cap - s.len)⟩

/-- The data set that a pair of headers denotes in the memory `m`. -/
def DataRef.view (d : DataRef) (m : List (Dense R)) : DataSet R :=
  ⟨d.Data.view m, d.Labels.view m⟩

/-- The sequence of pairs `(Data[i], Labels[i])` of a data set held in the memory `m`. -/
def DataRef.pairs (d : DataRef) (m : List (Dense R)) : List (Dense R × Dense R) :=
  List.zip (d.Data.elems m) (d.Labels.elems m)

/-- The exchange `s[i], s[j] = s[j], s[i]` in memory: both elements are read, then `s[i]` and
`s[j]` are written in this order; panics when an index is not below `len(s)`. -/
def swapRef {α : Type} (m : List α) (s : SliceRef) (i j : Nat) : Option (List α) :=
  if i < s.len ∧ j < s.len then
    match m[s.off + i]?, m[s.off + j]? with
    | some a, some b => some ((m.set (s.off + i) b).set (s.off + j) a)
    | _, _ => none
  else none

/-- The loop of `rand.Shuffle(len(data.Data), swap)` in memory: `swap(i, j)` exchanges two
elements of `data.Data`, then two elements of `data.Labels`.  The first argument is the current
`i`; `rnd i` is the raw draw. -/
def shuffleLoopRef (rnd : Nat → Nat) (d : DataRef) : Nat → List (Dense R) →
    Option (List (Dense R))
  | 0, m => some m
  | i + 1, m =>
    match swapRef m d.Data (i + 1) (rnd (i + 1) % (i + 2)) with
    | none => none
    | some m1 =>
      match swapRef m1 d.Labels (i + 1) (rnd (i + 1) % (i + 2)) with
      | none => none
      | some m2 => shuffleLoopRef rnd d i m2

/-- The shuffle of one epoch, in memory. -/
def shuffleRef (rnd : Nat → Nat) (d : DataRef) (m : List (Dense R)) : Option (List (Dense R)) :=
  shuffleLoopRef rnd d (d.Data.len - 1) m

/-- The epoch loop of `Train` in memory: `k` epochs remain, `e` is the index of the current
epoch.  The shuffle writes to the memory; the batch loop and `Evaluate` read the slices as they
stand in the memory after it. -/
def trainEpochsRef (exp : R → R) (rnd : Nat → Nat → Nat) (data validation : DataRef)
    (batchSize : Int) (alpha : R) : Nat → Nat → Net R → List (Dense R) →
    Run (Net R × List (Dense R))
  | 0, _, n, m => Run.ok (n, m)
  | k + 1, e, n, m =>
    match shuffleRef (rnd e) data m with
    | none => Run.panic
    | some m1 =>
      match batchLoop exp (data.view m1) batchSize alpha (data.Data.len + 1) 0 n with
      | Run.panic => Run.panic
      | Run.outOfFuel => Run.outOfFuel
      | Run.ok n1 =>
        if validation.Data.len > 0 then
          match Evaluate exp n1 (validation.view m1) with
          | none => Run.panic
          | some _ => trainEpochsRef exp rnd data validation batchSize alpha k (e + 1) n1 m1
        else trainEpochsRef exp rnd data validation batchSize alpha k (e + 1) n1 m1

/-- The method `Train` in memory. -/
def TrainRef (exp : R → R) (rnd : Nat → Nat → Nat) (n : Net R) (data validation : DataRef)
    (batchSize epochs : Int) (learningRate : R) (m : List (Dense R)) :
    Run (Net R × List (Dense R)) :=
  trainEpochsRef exp rnd data validation batchSize learningRate epochs.toNat 0 n m

/-- A header lies inside the memory. -/
def SliceRef.Valid {α : Type} (s : SliceRef) (m : List α) : Prop :=
  s.len ≤ s.cap ∧ s.off + s.cap ≤ m.length

/-- The elements of two slices share no cell. -/
def SliceRef.Apart (s t : SliceRef) : Prop :=
  s.len = 0 ∨ t.len = 0 ∨ s.off + s.len ≤ t.off ∨ t.off + t.len ≤ s.off

/-- The cells that two slices can reach (up to their capacities) are disjoint. -/
def SliceRef.FarApart (s t : SliceRef) : Prop :=
  s.cap = 0 ∨ t.cap = 0 ∨ s.off + s.cap ≤ t.off ∨ t.off + t.cap ≤ s.off

instance (s t : SliceRef) : Decidable (s.Apart t) := by
  unfold SliceRef.Apart; infer_instance

instance (s t : SliceRef) : Decidable (s.FarApart t) := by
  unfold SliceRef.FarApart; infer_instance

instance {α : Type} (s : SliceRef) (m : List α) : Decidable (s.Valid m) := by
  unfold SliceRef.Valid; infer_instance

/-- Four one-entry column vectors, as consecutive cells of one backing array. -/
def seqMem : List (Dense R) :=
  [Dense.ofList 1 1 [1], Dense.ofList 1 1 [2], Dense.ofList 1 1 [3], Dense.ofList 1 1 [4]]

/-- The data set `Data = arr[0:3]`, `Labels = arr[1:4]` over `seqMem`: each target is the next
element of the sequence, and the two slices share two cells. -/
def seqData : DataRef := ⟨⟨0, 3, 4⟩, ⟨1, 3, 3⟩⟩

/-- Three samples for `net32` with three different inputs and targets: the cells `0..2` hold the
inputs and the cells `3..5` the targets. -/
def sampleMem : List (Dense R) :=
  [Dense.ofList 3 1 [2, 3, 4], Dense.ofList 3 1 [0, 0, 0], Dense.ofList 3 1 [1, 1, 1],
    Dense.ofList 2 1 [0, 1], Dense.ofList 2 1 [1, 0], Dense.ofList 2 1 [1, 1]]

/-- The headers of the data set held in `sampleMem`. -/
def sampleData : DataRef := ⟨⟨0, 3, 3⟩, ⟨3, 3, 3⟩⟩

/-- The draws that make `rand.Shuffle` on three elements call `swap(2, 0)` and `swap(1, 1)`. -/
def draws20 : Nat → Nat := fun i => if i = 2 then 0 else 1

end SliceRefs

/-! ## Theorems -/

section Basic

variable {R : Type} [LinearOrderedField R]

theorem Dense.Mul_of_shape (a b : Dense R) (h : a.cols = b.rows) (ha : 0 < a.rows)
    (hb : 0 < b.cols) : Dense.Mul a b = some (Dense.mulRaw a b) := by
  unfold Dense.Mul
  rw [if_neg (by simpa using h), if_neg (by omega)]

theorem Dense.Sub_of_shape (a b : Dense R) (hr : a.rows = b.rows) (hc : a.cols = b.cols)
    (h0 : 0 < a.rows) (h1 : 0 < a.cols) : Dense.Sub a b = some (Dense.subRaw a b) := by
  unfold Dense.Sub
  rw [if_neg (by omega), if_neg (by omega)]

theorem Dense.Add_of_shape (a b : Dense R) (hr : a.rows = b.rows) (hc : a.cols = b.cols)
    (h0 : 0 < a.rows) (h1 : 0 < a.cols) : Dense.Add a b = some (Dense.addRaw a b) := by
  unfold Dense.Add
  rw [if_neg (by omega), if_neg (by omega)]

theorem Dense.MulElem_of_shape (a b : Dense R) (hr : a.rows = b.rows) (hc : a.cols = b.cols)
    (h0 : 0 < a.rows) (h1 : 0 < a.cols) :
    Dense.MulElem a b = some (Dense.mulElemRaw a b) := by
  unfold Dense.MulElem
  rw [if_neg (by omega), if_neg (by omega)]

theorem Dense.Apply_of_isSome (fn : Nat → Nat → R → Option R) (a : Dense R)
    (h0 : 0 < a.rows) (h1 : 0 < a.cols)
    (h : ∀ i, i < a.rows → ∀ j, j < a.cols → (fn i j (a.elem i j)).isSome = true) :
    Dense.Apply fn a = some (Dense.applyRaw fn a) := by
  unfold Dense.Apply
  rw [if_neg (by omega), if_pos h]

theorem Dense.Apply_total (f : R → R) (a : Dense R) (h0 : 0 < a.rows) (h1 : 0 < a.cols) :
    Dense.Apply (fun _ _ v => some (f v)) a = some (Dense.mapRaw f a) := by
  rw [Dense.Apply_of_isSome _ a h0 h1 (by intros; rfl)]
  rfl

theorem Net.weights_get (n : Net R) (i : Nat) (h : i < n.weights.length) :
    n.weights[i]? = some (n.W i) := by
  simp [Net.W, List.getD_eq_getElem?_getD, List.getElem?_eq_getElem h]

theorem Net.biases_get (n : Net R) (i : Nat) (h : i < n.biases.length) :
    n.biases[i]? = some (n.B i) := by
  simp [Net.B, List.getD_eq_getElem?_getD, List.getElem?_eq_getElem h]

theorem traceAt_get (l : List (Dense R)) (i : Nat) (h : i < l.length) :
    l[i]? = some (traceAt l i) := by
  simp [traceAt, List.getD_eq_getElem?_getD, List.getElem?_eq_getElem h]

end Basic

section Fwd
variable {R : Type} [LinearOrderedField R]

theorem biasCallback_col0 (n : Net R) (i : Nat) (hi : i < n.biases.length)
    (h0 : 0 < (n.B i).rows) (h1 : 0 < (n.B i).cols) (r : Nat) (v : R) :
    biasCallback n i r 0 v = some (v + (n.B i).elem 0 0) := by
  simp [biasCallback, Net.biases_get n i hi, Dense.At, h0, h1]

theorem forwardFrom_spec (exp : R → R) (n : Net R) (hn : WellShaped n) :
    ∀ k i x, i + k = n.weights.length → ColShaped x (n.size i) →
    ∃ as zs, forwardFrom exp n k i x = some (as, zs) ∧ as.length = k ∧ zs.length = k ∧
      ∀ t, t < k →
        traceAt zs t = Dense.applyRaw (biasCallback n (i + t))
          (Dense.mulRaw (n.W (i + t)) (traceAt (x :: as) t)) ∧
        traceAt as t = Dense.mapRaw (sigmoid exp) (traceAt zs t) ∧
        ColShaped (traceAt zs t) (n.size (i + t + 1)) ∧
        ColShaped (traceAt as t) (n.size (i + t + 1)) := by
  obtain ⟨h2, hw, hb, hpos, hsh⟩ := hn
  intro k
  induction k with
  | zero =>
    intro i x _ _
    exact ⟨[], [], rfl, rfl, rfl, fun t ht => absurd ht (Nat.not_lt_zero t)⟩
  | succ k ih =>
    intro i x hik hx
    have hi : i < n.weights.length := by omega
    obtain ⟨hwr, hwc, hbr, hbc⟩ := hsh i hi
    have hp1 := hpos (i + 1) (by omega)
    have hp0 := hpos i (by omega)
    obtain ⟨hxr, hxc⟩ := hx
    have hmul : Dense.Mul (n.W i) x = some (Dense.mulRaw (n.W i) x) :=
      Dense.Mul_of_shape _ _ (by omega) (by omega) (by omega)
    have hap : Dense.Apply (biasCallback n i) (Dense.mulRaw (n.W i) x)
        = some (Dense.applyRaw (biasCallback n i) (Dense.mulRaw (n.W i) x)) := by
      apply Dense.Apply_of_isSome
      · show 0 < (n.W i).rows
        omega
      · show 0 < x.cols
        omega
      · intro r _ c hc
        have hc0 : c = 0 := by
          have : c < x.cols := hc
          omega
        subst hc0
        rw [biasCallback_col0 n i (by omega) (by omega) (by omega)]
        rfl
    have hsg : Dense.Apply (fun _ _ v => some (sigmoid exp v))
        (Dense.applyRaw (biasCallback n i) (Dense.mulRaw (n.W i) x))
        = some (Dense.mapRaw (sigmoid exp)
            (Dense.applyRaw (biasCallback n i) (Dense.mulRaw (n.W i) x))) := by
      apply Dense.Apply_total
      · show 0 < (n.W i).rows
        omega
      · show 0 < x.cols
        omega
    have hcol : ColShaped (Dense.mapRaw (sigmoid exp)
        (Dense.applyRaw (biasCallback n i) (Dense.mulRaw (n.W i) x))) (n.size (i + 1)) :=
      ⟨hwr, hxc⟩
    obtain ⟨as, zs, hf, hal, hzl, hrest⟩ := ih (i + 1) _ (by omega) hcol
    refine ⟨Dense.mapRaw (sigmoid exp)
        (Dense.applyRaw (biasCallback n i) (Dense.mulRaw (n.W i) x)) :: as,
      Dense.applyRaw (biasCallback n i) (Dense.mulRaw (n.W i) x) :: zs, ?_,
      by simp [hal], by simp [hzl], ?_⟩
    · simp only [forwardFrom, Net.weights_get n i hi, hmul, hap, hsg, hf]
    · intro t ht
      cases t with
      | zero =>
        refine ⟨rfl, rfl, ⟨hwr, hxc⟩, hcol⟩
      | succ t =>
        have := hrest t (by omega)
        have e : i + (t + 1) = i + 1 + t := by omega
        simpa [traceAt, e] using this

end Fwd

section Bwd
variable {R : Type} [LinearOrderedField R]

theorem forward_spec (exp : R → R) (n : Net R) (hn : WellShaped n) (x : Dense R)
    (hx : ColShaped x (n.size 0)) :
    ∃ a z, forward exp n x = some (a, z) ∧ a.length = n.weights.length + 1 ∧
      z.length = n.weights.length ∧ traceAt a 0 = x ∧
      (∀ i, i ≤ n.weights.length → ColShaped (traceAt a i) (n.size i)) ∧
      ∀ i, i < n.weights.length →
        traceAt z i = Dense.applyRaw (biasCallback n i)
          (Dense.mulRaw (n.W i) (traceAt a i)) ∧
        traceAt a (i + 1) = Dense.mapRaw (sigmoid exp) (traceAt z i) ∧
        ColShaped (traceAt z i) (n.size (i + 1)) := by
  obtain ⟨as, zs, hf, hal, hzl, hrest⟩ :=
    forwardFrom_spec exp n hn n.weights.length 0 x (by omega) hx
  have hlen : n.layers.length - 1 = n.weights.length := by
    have := hn.2.1
    omega
  have hne : ¬ n.layers.length = 0 := by
    have := hn.1
    omega
  refine ⟨x :: as, zs, ?_, by simp [hal], hzl, rfl, ?_, ?_⟩
  · simp only [forward, if_neg hne, hlen, hf]
  · intro i hi
    cases i with
    | zero => exact hx
    | succ i =>
      have := (hrest i (by omega)).2.2.2
      simpa [traceAt] using this
  · intro i hi
    obtain ⟨h1, h2, h3, _⟩ := hrest i hi
    refine ⟨by simpa using h1, ?_, by simpa using h3⟩
    simpa [traceAt] using h2

theorem gradAt_of_get (g : List (Option (Dense R))) (i : Nat) (d : Dense R)
    (h : g[i]? = some (some d)) : gradAt g i = d := by
  simp [gradAt, List.getD_eq_getElem?_getD, h]

theorem gradAt_congr (g1 g2 : List (Option (Dense R))) (i : Nat) (h : g1[i]? = g2[i]?) :
    gradAt g1 i = gradAt g2 i := by
  simp [gradAt, List.getD_eq_getElem?_getD, h]

theorem setAt_of_lt {α : Type} (l : List α) (i : Nat) (v : α) (h : i < l.length) :
    setAt l i v = some (l.set i v) := by
  simp [setAt, h]

theorem backwardLoop_spec (exp : R → R) (n : Net R) (hn : WellShaped n) (a z : List (Dense R))
    (ha : a.length = n.weights.length + 1) (hz : z.length = n.weights.length)
    (hash : ∀ i, i ≤ n.weights.length → ColShaped (traceAt a i) (n.size i))
    (hzsh : ∀ i, i < n.weights.length → ColShaped (traceAt z i) (n.size (i + 1))) :
    ∀ k delta dW dB, k + 1 ≤ n.weights.length → dW.length = n.weights.length →
      dB.length = n.weights.length → ColShaped delta (n.size (k + 1)) →
      dB[k]? = some (some delta) →
      ∃ dW1 dB1, backwardLoop exp n a z k delta dW dB = some (dW1, dB1) ∧
        dW1.length = n.weights.length ∧ dB1.length = n.weights.length ∧
        (∀ j, k ≤ j → dW1[j]? = dW[j]? ∧ dB1[j]? = dB[j]?) ∧
        (∀ i, i < k →
          dB1[i]? = some (some (Dense.mulElemRaw
            (Dense.mulRaw (n.W (i + 1)).T (gradAt dB1 (i + 1)))
            (Dense.mapRaw (sigmoidPrime exp) (traceAt z i)))) ∧
          dW1[i]? = some (some (Dense.mulRaw (gradAt dB1 i) (traceAt a i).T)) ∧
          ColShaped (gradAt dB1 i) (n.size (i + 1))) := by
  obtain ⟨h2, hw, hb, hpos, hsh⟩ := hn
  intro k
  induction k with
  | zero =>
    intro delta dW dB _ hdW hdB _ _
    exact ⟨dW, dB, rfl, hdW, hdB, fun j _ => ⟨rfl, rfl⟩,
      fun i hi => absurd hi (Nat.not_lt_zero i)⟩
  | succ k ih =>
    intro delta dW dB hk hdW hdB hdelta hget
    obtain ⟨hdr, hdc⟩ := hdelta
    obtain ⟨hzr, hzc⟩ := hzsh k (by omega)
    obtain ⟨har, hac⟩ := hash k (by omega)
    obtain ⟨hwr, hwc, -, -⟩ := hsh (k + 1) (by omega)
    have hp0 := hpos k (by omega)
    have hp1 := hpos (k + 1) (by omega)
    have hp2 := hpos (k + 1 + 1) (by omega)
    have e1 : z[k]? = some (traceAt z k) := traceAt_get z k (by omega)
    have e2 : Dense.Apply (fun _ _ v => some (sigmoidPrime exp v)) (traceAt z k)
        = some (Dense.mapRaw (sigmoidPrime exp) (traceAt z k)) :=
      Dense.Apply_total _ _ (by omega) (by omega)
    have e3 : n.weights[k + 1]? = some (n.W (k + 1)) := Net.weights_get n _ (by omega)
    have e4 : Dense.Mul (n.W (k + 1)).T delta = some (Dense.mulRaw (n.W (k + 1)).T delta) := by
      apply Dense.Mul_of_shape
      · show (n.W (k + 1)).rows = delta.rows
        omega
      · show 0 < (n.W (k + 1)).cols
        omega
      · omega
    obtain ⟨nd, hnd⟩ : ∃ nd, nd = Dense.mulElemRaw (Dense.mulRaw (n.W (k + 1)).T delta)
        (Dense.mapRaw (sigmoidPrime exp) (traceAt z k)) := ⟨_, rfl⟩
    have hndr : nd.rows = (n.W (k + 1)).cols := by rw [hnd]; rfl
    have hndc : nd.cols = delta.cols := by rw [hnd]; rfl
    have e5 : Dense.MulElem (Dense.mulRaw (n.W (k + 1)).T delta)
        (Dense.mapRaw (sigmoidPrime exp) (traceAt z k)) = some nd := by
      rw [hnd]
      apply Dense.MulElem_of_shape
      · show (n.W (k + 1)).cols = (traceAt z k).rows
        omega
      · show delta.cols = (traceAt z k).cols
        omega
      · show 0 < (n.W (k + 1)).cols
        omega
      · show 0 < delta.cols
        omega
    have e6 := setAt_of_lt dB k (some nd) (by omega)
    have e7 : a[k]? = some (traceAt a k) := traceAt_get a k (by omega)
    have e8 : Dense.Mul nd (traceAt a k).T = some (Dense.mulRaw nd (traceAt a k).T) := by
      apply Dense.Mul_of_shape
      · show nd.cols = (traceAt a k).cols
        omega
      · omega
      · show 0 < (traceAt a k).rows
        omega
    have e9 := setAt_of_lt dW k (some (Dense.mulRaw nd (traceAt a k).T)) (by omega)
    have hcol : ColShaped nd (n.size (k + 1)) := ⟨by omega, by omega⟩
    obtain ⟨dW1, dB1, hrun, hl1, hl2, hkeep, hrec⟩ :=
      ih nd (dW.set k (some (Dense.mulRaw nd (traceAt a k).T))) (dB.set k (some nd))
        (by omega) (by rw [List.length_set]; exact hdW) (by rw [List.length_set]; exact hdB)
        hcol (by rw [List.getElem?_set_self (by omega)])
    refine ⟨dW1, dB1, ?_, hl1, hl2, ?_, ?_⟩
    · simp only [backwardLoop, e1, e2, e3, e4, e5, e6, e7, e8, e9, hrun]
    · intro j hj
      obtain ⟨k1, k2⟩ := hkeep j (by omega)
      rw [k1, k2, List.getElem?_set_ne (by omega), List.getElem?_set_ne (by omega)]
      exact ⟨rfl, rfl⟩
    · intro i hi
      rcases Nat.lt_succ_iff_lt_or_eq.mp hi with hlt | heq
      · exact hrec i hlt
      · subst heq
        obtain ⟨k1, k2⟩ := hkeep i (le_refl i)
        obtain ⟨-, k3⟩ := hkeep (i + 1) (by omega)
        rw [List.getElem?_set_self (by omega)] at k1 k2
        rw [List.getElem?_set_ne (by omega), hget] at k3
        have g1 := gradAt_of_get _ _ _ k3
        have g0 := gradAt_of_get _ _ _ k2
        rw [g1, g0]
        refine ⟨?_, k1, hcol⟩
        rw [k2, hnd]

end Bwd

section Bwd2
variable {R : Type} [LinearOrderedField R]

theorem backward_spec (exp : R → R) (n : Net R) (hn : WellShaped n) (x y : Dense R)
    (hx : ColShaped x (n.size 0)) (hy : ColShaped y (n.size n.weights.length)) :
    ∃ a z dW dB, forward exp n x = some (a, z) ∧ backward exp n x y = some (dW, dB) ∧
      dW.length = n.weights.length ∧ dB.length = n.weights.length ∧
      dB[n.weights.length - 1]? = some (some (Dense.mulElemRaw
        (Dense.subRaw (traceAt a n.weights.length) y)
        (Dense.mapRaw (sigmoidPrime exp) (traceAt z (n.weights.length - 1))))) ∧
      (∀ i, i + 1 < n.weights.length →
        dB[i]? = some (some (Dense.mulElemRaw
          (Dense.mulRaw (n.W (i + 1)).T (gradAt dB (i + 1)))
          (Dense.mapRaw (sigmoidPrime exp) (traceAt z i))))) ∧
      (∀ i, i < n.weights.length →
        dW[i]? = some (some (Dense.mulRaw (gradAt dB i) (traceAt a i).T)) ∧
        dB[i]? = some (some (gradAt dB i)) ∧
        ColShaped (gradAt dB i) (n.size (i + 1))) := by
  obtain ⟨a, z, hf, hal, hzl, ha0, hash, hrest⟩ := forward_spec exp n hn x hx
  have hn0 := hn
  obtain ⟨h2, hw, hb, hpos, hsh⟩ := hn
  obtain ⟨m, hm⟩ : ∃ m, n.weights.length = m + 1 := ⟨n.weights.length - 1, by omega⟩
  have hzsh : ∀ i, i < n.weights.length → ColShaped (traceAt z i) (n.size (i + 1)) :=
    fun i hi => (hrest i hi).2.2
  obtain ⟨haLr, haLc⟩ := hash (m + 1) (by omega)
  obtain ⟨hamr, hamc⟩ := hash m (by omega)
  obtain ⟨hzr, hzc⟩ := hzsh m (by omega)
  obtain ⟨hyr, hyc⟩ := hy
  rw [hm] at hyr
  have hpL := hpos (m + 1) (by omega)
  have hpm := hpos m (by omega)
  have e1 : a[a.length - 1]? = some (traceAt a (m + 1)) := by
    rw [hal, hm]
    exact traceAt_get a (m + 1) (by omega)
  have e2 : Dense.Sub (traceAt a (m + 1)) y = some (Dense.subRaw (traceAt a (m + 1)) y) :=
    Dense.Sub_of_shape _ _ (by omega) (by omega) (by omega) (by omega)
  have e3 : z[z.length - 1]? = some (traceAt z m) := by
    rw [hzl, hm]
    exact traceAt_get z m (by omega)
  have e4 : Dense.Apply (fun _ _ v => some (sigmoidPrime exp v)) (traceAt z m)
      = some (Dense.mapRaw (sigmoidPrime exp) (traceAt z m)) :=
    Dense.Apply_total _ _ (by omega) (by omega)
  obtain ⟨delta, hdelta⟩ : ∃ delta, delta = Dense.mulElemRaw
      (Dense.subRaw (traceAt a (m + 1)) y) (Dense.mapRaw (sigmoidPrime exp) (traceAt z m)) :=
    ⟨_, rfl⟩
  have hdr : delta.rows = (traceAt a (m + 1)).rows := by rw [hdelta]; rfl
  have hdc : delta.cols = (traceAt a (m + 1)).cols := by rw [hdelta]; rfl
  have e5 : Dense.MulElem (Dense.subRaw (traceAt a (m + 1)) y)
      (Dense.mapRaw (sigmoidPrime exp) (traceAt z m)) = some delta := by
    rw [hdelta]
    apply Dense.MulElem_of_shape
    · show (traceAt a (m + 1)).rows = (traceAt z m).rows
      omega
    · show (traceAt a (m + 1)).cols = (traceAt z m).cols
      omega
    · show 0 < (traceAt a (m + 1)).rows
      omega
    · show 0 < (traceAt a (m + 1)).cols
      omega
  have e6 : setAt (List.replicate n.biases.length (none : Option (Dense R)))
      (n.biases.length - 1) (some delta)
      = some ((List.replicate (m + 1) none).set m (some delta)) := by
    have : n.biases.length = m + 1 := by omega
    rw [this]
    exact setAt_of_lt _ _ _ (by simp)
  have e7 : ¬ a.length < 2 := by omega
  have e8 : a[a.length - 2]? = some (traceAt a m) := by
    rw [hal, hm]
    exact traceAt_get a m (by omega)
  have e9 : Dense.Mul delta (traceAt a m).T = some (Dense.mulRaw delta (traceAt a m).T) := by
    apply Dense.Mul_of_shape
    · show delta.cols = (traceAt a m).cols
      omega
    · omega
    · show 0 < (traceAt a m).rows
      omega
  have e10 : setAt (List.replicate n.weights.length (none : Option (Dense R)))
      (n.weights.length - 1) (some (Dense.mulRaw delta (traceAt a m).T))
      = some ((List.replicate (m + 1) none).set m
          (some (Dense.mulRaw delta (traceAt a m).T))) := by
    rw [hm]
    exact setAt_of_lt _ _ _ (by simp)
  have e11 : n.layers.length - 2 = m := by omega
  have hcol : ColShaped delta (n.size (m + 1)) := ⟨by omega, by omega⟩
  obtain ⟨dW1, dB1, hrun, hl1, hl2, hkeep, hrec⟩ :=
    backwardLoop_spec exp n hn0 a z hal hzl hash hzsh m delta
      ((List.replicate (m + 1) none).set m (some (Dense.mulRaw delta (traceAt a m).T)))
      ((List.replicate (m + 1) none).set m (some delta))
      (by omega) (by simp [hm]) (by simp [hm])
      hcol (by rw [List.getElem?_set_self (by simp)])
  obtain ⟨k1, k2⟩ := hkeep m (le_refl m)
  rw [List.getElem?_set_self (by simp)] at k1 k2
  have gm : gradAt dB1 m = delta := gradAt_of_get _ _ _ k2
  refine ⟨a, z, dW1, dB1, hf, ?_, hl1, hl2, ?_, ?_, ?_⟩
  · simp only [backward, hf, e1, e2, e3, e4, e5, e6, if_neg e7, e8, e9, e10, e11, hrun]
  · rw [hm]
    simp only [Nat.add_sub_cancel]
    rw [k2, hdelta]
  · intro i hi
    exact (hrec i (by omega)).1
  · intro i hi
    rcases Nat.lt_succ_iff_lt_or_eq.mp (hm ▸ hi) with hlt | heq
    · obtain ⟨r1, r2, r3⟩ := hrec i hlt
      refine ⟨r2, ?_, r3⟩
      rw [r1]
      congr 2
      exact (gradAt_of_get _ _ _ r1).symm
    · subst heq
      rw [gm]
      exact ⟨k1, k2, hcol⟩

end Bwd2

section Lists
variable {R : Type} [LinearOrderedField R]

theorem gradAt_nil (i : Nat) : gradAt ([] : List (Option (Dense R))) i = Dense.empty := by
  simp [gradAt]

theorem gradAt_cons_zero (o : Option (Dense R)) (l : List (Option (Dense R))) :
    gradAt (o :: l) 0 = o.getD Dense.empty := by
  simp [gradAt]

theorem gradAt_cons_succ (o : Option (Dense R)) (l : List (Option (Dense R))) (i : Nat) :
    gradAt (o :: l) (i + 1) = gradAt l i := by
  simp [gradAt]

theorem traceAt_nil (i : Nat) : traceAt ([] : List (Dense R)) i = Dense.empty := by
  simp [traceAt]

theorem traceAt_cons_zero (d : Dense R) (l : List (Dense R)) : traceAt (d :: l) 0 = d := by
  simp [traceAt]

theorem traceAt_cons_succ (d : Dense R) (l : List (Dense R)) (i : Nat) :
    traceAt (d :: l) (i + 1) = traceAt l i := by
  simp [traceAt]

theorem addAll_spec : ∀ (proto : List (Dense R)) (acc g : List (Option (Dense R))),
    List.Forall₂ PtrShape proto acc → List.Forall₂ PtrShape proto g →
    ∃ r, addAll acc g = some r ∧ List.Forall₂ PtrShape proto r ∧
      ∀ i u v, (gradAt r i).elem u v = (gradAt acc i).elem u v + (gradAt g i).elem u v := by
  intro proto
  induction proto with
  | nil =>
    intro acc g h1 h2
    cases h1
    cases h2
    refine ⟨[], rfl, List.Forall₂.nil, ?_⟩
    intro i u v
    simp [gradAt_nil, Dense.empty]
  | cons p ps ih =>
    intro acc g h1 h2
    cases h1 with
    | cons ha hacc =>
      cases h2 with
      | cons hg hgs =>
        obtain ⟨a, rfl, har, hac, hp0, hp1⟩ := ha
        obtain ⟨b, rfl, hbr, hbc, -, -⟩ := hg
        obtain ⟨r, hr, hsh, hel⟩ := ih _ _ hacc hgs
        have hadd : Dense.Add a b = some (Dense.addRaw a b) :=
          Dense.Add_of_shape _ _ (by omega) (by omega) (by omega) (by omega)
        refine ⟨some (Dense.addRaw a b) :: r, ?_, ?_, ?_⟩
        · simp only [addAll, hadd, hr]
        · exact List.Forall₂.cons ⟨_, rfl, har, hac, hp0, hp1⟩ hsh
        · intro i u v
          cases i with
          | zero => rfl
          | succ i => simpa [gradAt_cons_succ] using hel i u v

theorem scaleAll_spec (len : Nat) (alpha : R) : ∀ (proto : List (Dense R))
    (g : List (Option (Dense R))), List.Forall₂ PtrShape proto g →
    ∃ r, scaleAll len alpha g = some r ∧ List.Forall₂ SameShape proto r ∧
      ∀ i u v, (traceAt r i).elem u v = (gradAt g i).elem u v / (len : R) * alpha := by
  intro proto
  induction proto with
  | nil =>
    intro g h
    cases h
    refine ⟨[], rfl, List.Forall₂.nil, ?_⟩
    intro i u v
    simp [gradAt_nil, traceAt_nil, Dense.empty]
  | cons p ps ih =>
    intro g h
    cases h with
    | cons ha hacc =>
      obtain ⟨a, rfl, har, hac, hp0, hp1⟩ := ha
      obtain ⟨r, hr, hsh, hel⟩ := ih _ hacc
      have hap : Dense.Apply (fun _ _ v => some (v / (len : R) * alpha)) a
          = some (Dense.mapRaw (fun v => v / (len : R) * alpha) a) :=
        Dense.Apply_total _ _ (by omega) (by omega)
      refine ⟨Dense.mapRaw (fun v => v / (len : R) * alpha) a :: r, ?_, ?_, ?_⟩
      · simp only [scaleAll, hap, hr]
      · exact List.Forall₂.cons ⟨har, hac, hp0, hp1⟩ hsh
      · intro i u v
        cases i with
        | zero => rfl
        | succ i => simpa [gradAt_cons_succ, traceAt_cons_succ] using hel i u v

theorem subAll_spec : ∀ (ws gs : List (Dense R)), List.Forall₂ SameShape ws gs →
    ∃ r, subAll ws gs = some r ∧ List.Forall₂ SameShape ws r ∧
      ∀ i u v, (traceAt r i).elem u v = (traceAt ws i).elem u v - (traceAt gs i).elem u v := by
  intro ws
  induction ws with
  | nil =>
    intro gs h
    cases h
    refine ⟨[], rfl, List.Forall₂.nil, ?_⟩
    intro i u v
    simp [traceAt_nil, Dense.empty]
  | cons w ws ih =>
    intro gs h
    cases h with
    | cons ha hrest =>
      obtain ⟨har, hac, hp0, hp1⟩ := ha
      obtain ⟨r, hr, hsh, hel⟩ := ih _ hrest
      rename_i g gs1
      have hsub : Dense.Sub w g = some (Dense.subRaw w g) :=
        Dense.Sub_of_shape _ _ (by omega) (by omega) (by omega) (by omega)
      refine ⟨Dense.subRaw w g :: r, ?_, ?_, ?_⟩
      · simp only [subAll, hsub, hr]
      · exact List.Forall₂.cons ⟨rfl, rfl, hp0, hp1⟩ hsh
      · intro i u v
        cases i with
        | zero => rfl
        | succ i => simpa [traceAt_cons_succ] using hel i u v

end Lists

section Gd
variable {R : Type} [LinearOrderedField R]

theorem forall2_of_getElem? {α β : Type} (P : α → β → Prop) (l1 : List α) (l2 : List β)
    (hlen : l1.length = l2.length)
    (h : ∀ i, i < l1.length → ∃ a b, l1[i]? = some a ∧ l2[i]? = some b ∧ P a b) :
    List.Forall₂ P l1 l2 := by
  apply List.forall₂_of_length_eq_of_get hlen
  intro i h1 h2
  obtain ⟨a, b, ha, hb, hp⟩ := h i h1
  rw [List.getElem?_eq_getElem h1] at ha
  rw [List.getElem?_eq_getElem h2] at hb
  simp only [Option.some.injEq] at ha hb
  simpa [List.get_eq_getElem, ha, hb] using hp

theorem backward_shaped (exp : R → R) (n : Net R) (hn : WellShaped n) (x y : Dense R)
    (hx : ColShaped x (n.size 0)) (hy : ColShaped y (n.size n.weights.length)) :
    ∃ dW dB, backward exp n x y = some (dW, dB) ∧
      List.Forall₂ PtrShape n.weights dW ∧ List.Forall₂ PtrShape n.biases dB := by
  obtain ⟨a, z, dW, dB, hf, hb, hlW, hlB, -, -, hall⟩ := backward_spec exp n hn x y hx hy
  obtain ⟨a1, z1, hf1, hal, hzl, ha0, hash, hrest⟩ := forward_spec exp n hn x hx
  rw [hf] at hf1
  obtain ⟨rfl, rfl⟩ : a = a1 ∧ z = z1 := by simpa using hf1
  obtain ⟨h2, hw, hbl, hpos, hsh⟩ := hn
  refine ⟨dW, dB, hb, ?_, ?_⟩
  · apply forall2_of_getElem? _ _ _ hlW.symm
    intro i hi
    obtain ⟨e1, e2, hc1, hc2⟩ := hall i hi
    obtain ⟨hwr, hwc, hbr, hbc⟩ := hsh i hi
    obtain ⟨har, hac⟩ := hash i (by omega)
    have hp0 := hpos i (by omega)
    have hp1 := hpos (i + 1) (by omega)
    refine ⟨_, _, Net.weights_get n i hi, e1, _, rfl, ?_, ?_, ?_, ?_⟩
    · show (gradAt dB i).rows = (n.W i).rows
      omega
    · show (traceAt a i).rows = (n.W i).cols
      omega
    · omega
    · omega
  · apply forall2_of_getElem? _ _ _ (by omega)
    intro i hi
    have hi1 : i < n.weights.length := by omega
    obtain ⟨e1, e2, hc1, hc2⟩ := hall i hi1
    obtain ⟨hwr, hwc, hbr, hbc⟩ := hsh i hi1
    have hp1 := hpos (i + 1) (by omega)
    refine ⟨_, _, Net.biases_get n i hi, e2, _, rfl, ?_, ?_, ?_, ?_⟩
    · omega
    · omega
    · omega
    · omega

theorem gdLoop_spec (exp : R → R) (n : Net R) (hn : WellShaped n) (y : List (Dense R)) :
    ∀ (xs : List (Dense R)) (i : Nat) (accW accB : List (Option (Dense R))),
    (∀ t, t < xs.length → ColShaped (traceAt xs t) (n.size 0) ∧ i + t < y.length ∧
      ColShaped (traceAt y (i + t)) (n.size n.weights.length)) →
    List.Forall₂ PtrShape n.weights accW → List.Forall₂ PtrShape n.biases accB →
    ∃ dW dB, gdLoop exp n y xs i accW accB = some (dW, dB) ∧
      List.Forall₂ PtrShape n.weights dW ∧ List.Forall₂ PtrShape n.biases dB ∧
      ∀ j u v,
        (gradAt dW j).elem u v = (gradAt accW j).elem u v +
          ∑ t in Finset.range xs.length,
            (gradAt ((backward exp n (traceAt xs t) (traceAt y (i + t))).getD ([], [])).1
              j).elem u v ∧
        (gradAt dB j).elem u v = (gradAt accB j).elem u v +
          ∑ t in Finset.range xs.length,
            (gradAt ((backward exp n (traceAt xs t) (traceAt y (i + t))).getD ([], [])).2
              j).elem u v := by
  intro xs
  induction xs with
  | nil =>
    intro i accW accB _ hW hB
    exact ⟨accW, accB, rfl, hW, hB, fun j u v => by simp⟩
  | cons xi xs ih =>
    intro i accW accB hsh hW hB
    obtain ⟨hx0, hi0, hy0⟩ := hsh 0 (by simp)
    rw [traceAt_cons_zero] at hx0
    rw [Nat.add_zero] at hi0 hy0
    obtain ⟨nW, nB, hbw, hnW, hnB⟩ := backward_shaped exp n hn xi (traceAt y i) hx0 hy0
    obtain ⟨dW1, hadd1, hs1, hel1⟩ := addAll_spec _ _ _ hW hnW
    obtain ⟨dB1, hadd2, hs2, hel2⟩ := addAll_spec _ _ _ hB hnB
    obtain ⟨dW, dB, hrun, hsW, hsB, hel⟩ := ih (i + 1) dW1 dB1 (by
      intro t ht
      have := hsh (t + 1) (by simpa using ht)
      rw [traceAt_cons_succ] at this
      have e : i + (t + 1) = i + 1 + t := by omega
      rw [e] at this
      exact this) hs1 hs2
    refine ⟨dW, dB, ?_, hsW, hsB, ?_⟩
    · simp only [gdLoop, traceAt_get y i hi0, hbw, hadd1, hadd2, hrun]
    · intro j u v
      obtain ⟨k1, k2⟩ := hel j u v
      rw [k1, k2, hel1, hel2]
      simp only [List.length_cons]
      rw [Finset.sum_range_succ', Finset.sum_range_succ']
      simp only [traceAt_cons_succ, traceAt_cons_zero, Nat.add_zero, hbw, Option.getD_some]
      simp only [← Nat.add_assoc, Nat.add_right_comm i 1]
      constructor <;> ring

end Gd

section Gd2
variable {R : Type} [LinearOrderedField R]

theorem gradientDescent_spec (exp : R → R) (n : Net R) (hn : WellShaped n)
    (x y : List (Dense R)) (alpha : R) (hne : 0 < x.length) (hlen : x.length = y.length)
    (hsh : ∀ s, s < x.length → ColShaped (traceAt x s) (n.size 0) ∧
      ColShaped (traceAt y s) (n.size n.weights.length)) :
    ∃ n1, gradientDescent exp n x y alpha = some n1 ∧ n1.layers = n.layers ∧
      List.Forall₂ SameShape n.weights n1.weights ∧
      List.Forall₂ SameShape n.biases n1.biases ∧
      ∀ i u v,
        (n1.W i).elem u v = (n.W i).elem u v - alpha / (x.length : R) *
          ∑ s in Finset.range x.length, (gradAt (sampleGrad exp n x y s).1 i).elem u v ∧
        (n1.B i).elem u v = (n.B i).elem u v - alpha / (x.length : R) *
          ∑ s in Finset.range x.length, (gradAt (sampleGrad exp n x y s).2 i).elem u v := by
  cases x with
  | nil => simp at hne
  | cons x0 xs =>
    cases y with
    | nil => simp at hlen
    | cons y0 ys =>
      obtain ⟨hx0, hy0⟩ := hsh 0 (by simp)
      rw [traceAt_cons_zero] at hx0 hy0
      obtain ⟨dW0, dB0, hb0, hs0W, hs0B⟩ := backward_shaped exp n hn x0 y0 hx0 hy0
      obtain ⟨dW, dB, hloop, hsW, hsB, hsum⟩ :=
        gdLoop_spec exp n hn (y0 :: ys) xs 1 dW0 dB0 (by
          intro t ht
          obtain ⟨h1, h2⟩ := hsh (t + 1) (by simpa using ht)
          rw [traceAt_cons_succ] at h1
          rw [Nat.add_comm 1 t]
          refine ⟨h1, ?_, h2⟩
          simp only [List.length_cons] at hlen ⊢
          omega) hs0W hs0B
      obtain ⟨sW, hscW, hshW, helW⟩ := scaleAll_spec (xs.length + 1) alpha _ _ hsW
      obtain ⟨sB, hscB, hshB, helB⟩ := scaleAll_spec (xs.length + 1) alpha _ _ hsB
      obtain ⟨ws, hsubW, hwsh, hwel⟩ := subAll_spec _ _ hshW
      obtain ⟨bs, hsubB, hbsh, hbel⟩ := subAll_spec _ _ hshB
      refine ⟨⟨n.layers, bs, ws⟩, ?_, rfl, hwsh, hbsh, ?_⟩
      · simp only [gradientDescent, List.getElem?_cons_zero, hb0, List.tail_cons, hloop,
          List.length_cons, hscW, hscB, hsubW, hsubB]
      · intro i u v
        obtain ⟨k1, k2⟩ := hsum i u v
        have eW : (Net.W ⟨n.layers, bs, ws⟩ i) = traceAt ws i := rfl
        have eB : (Net.B ⟨n.layers, bs, ws⟩ i) = traceAt bs i := rfl
        have eW0 : traceAt n.weights i = n.W i := rfl
        have eB0 : traceAt n.biases i = n.B i := rfl
        rw [eW, eB, hwel, hbel, helW, helB, k1, k2, eW0, eB0]
        simp only [List.length_cons]
        rw [Finset.sum_range_succ', Finset.sum_range_succ']
        simp only [sampleGrad, traceAt_cons_succ, traceAt_cons_zero, hb0, Option.getD_some,
          Nat.add_comm 1]
        push_cast
        constructor <;> ring

end Gd2

section Claims
variable {R : Type} [LinearOrderedField R]

/-- C3: for a network of consistent shapes with `L ≥ 1` weight layers, a well-shaped input `x`
and target `y`, `forward` returns traces `a`, `z` and `backward` returns `dW`, `dB` of length
`L` with `dB[L-1] = (a[L] - y) ⊙ sigmoidPrime(z[L-1])`, `dW[L-1] = dB[L-1] · a[L-1]ᵗ`, and for
every `i` with `i + 1 < L`, `dB[i] = (W[i+1]ᵗ · dB[i+1]) ⊙ sigmoidPrime(z[i])` and
`dW[i] = dB[i] · a[i]ᵗ`. -/
theorem backward_recurrence (exp : R → R) (n : Net R) (x y : Dense R) (hn : WellShaped n)
    (hx : ColShaped x (n.size 0)) (hy : ColShaped y (n.size n.weights.length)) :
    ∃ a z dW dB, forward exp n x = some (a, z) ∧ backward exp n x y = some (dW, dB) ∧
      a.length = n.weights.length + 1 ∧ z.length = n.weights.length ∧
      dW.length = n.weights.length ∧ dB.length = n.weights.length ∧
      dB[n.weights.length - 1]? = some (some (Dense.mulElemRaw
        (Dense.subRaw (traceAt a n.weights.length) y)
        (Dense.mapRaw (sigmoidPrime exp) (traceAt z (n.weights.length - 1))))) ∧
      dW[n.weights.length - 1]? = some (some (Dense.mulRaw
        (gradAt dB (n.weights.length - 1)) (traceAt a (n.weights.length - 1)).T)) ∧
      ∀ i, i + 1 < n.weights.length →
        dB[i]? = some (some (Dense.mulElemRaw
          (Dense.mulRaw (n.W (i + 1)).T (gradAt dB (i + 1)))
          (Dense.mapRaw (sigmoidPrime exp) (traceAt z i)))) ∧
        dW[i]? = some (some (Dense.mulRaw (gradAt dB i) (traceAt a i).T)) := by
  obtain ⟨a, z, dW, dB, hf, hb, hlW, hlB, hlast, hrec, hall⟩ :=
    backward_spec exp n hn x y hx hy
  obtain ⟨a1, z1, hf1, hal, hzl, -, -, -⟩ := forward_spec exp n hn x hx
  rw [hf] at hf1
  obtain ⟨rfl, rfl⟩ : a = a1 ∧ z = z1 := by simpa using hf1
  have hL : 0 < n.weights.length := by
    have := hn.1
    have := hn.2.1
    omega
  exact ⟨a, z, dW, dB, hf, hb, hal, hzl, hlW, hlB, hlast, (hall _ (by omega)).1,
    fun i hi => ⟨hrec i hi, (hall i (by omega)).1⟩⟩

/-- Witness of C3 on the network with layers `2, 2, 1` over the reals. -/
theorem backward_recurrence_witness :
    WellShaped (net221 : Net ℝ) ∧ ColShaped (x221 : Dense ℝ) ((net221 : Net ℝ).size 0) ∧
    ColShaped (y221 : Dense ℝ) ((net221 : Net ℝ).size (net221 : Net ℝ).weights.length) ∧
    (backward Real.exp net221 x221 y221).isSome = true := by
  refine ⟨by decide, by decide, by decide, ?_⟩
  obtain ⟨a, z, dW, dB, -, hb, -⟩ :=
    backward_recurrence Real.exp (net221 : Net ℝ) x221 y221 (by decide) (by decide) (by decide)
  rw [hb]
  rfl

/-- C4: for a network of consistent shapes, a non-empty batch of `n` inputs and as many targets,
all well-shaped, and every learning rate `alpha`, `gradientDescent` returns and afterwards every
entry of `W[i]` is the old entry minus `(alpha / n)` times the sum over the samples of the
entry of the `dW[i]` that `backward` returns for that sample on the network as it was before
the call; likewise for `B[i]` and `dB[i]`. -/
theorem gradientDescent_update (exp : R → R) (n : Net R) (x y : List (Dense R)) (alpha : R)
    (hn : WellShaped n) (hne : 0 < x.length) (hlen : x.length = y.length)
    (hsh : ∀ s, s < x.length → ColShaped (traceAt x s) (n.size 0) ∧
      ColShaped (traceAt y s) (n.size n.weights.length)) :
    ∃ n1, gradientDescent exp n x y alpha = some n1 ∧
      n1.weights.length = n.weights.length ∧ n1.biases.length = n.biases.length ∧
      (∀ s, s < x.length → (backward exp n (traceAt x s) (traceAt y s)).isSome = true) ∧
      ∀ i u v,
        (n1.W i).elem u v = (n.W i).elem u v - alpha / (x.length : R) *
          ∑ s in Finset.range x.length, (gradAt (sampleGrad exp n x y s).1 i).elem u v ∧
        (n1.B i).elem u v = (n.B i).elem u v - alpha / (x.length : R) *
          ∑ s in Finset.range x.length, (gradAt (sampleGrad exp n x y s).2 i).elem u v := by
  obtain ⟨n1, hgd, -, hW, hB, hel⟩ := gradientDescent_spec exp n hn x y alpha hne hlen hsh
  refine ⟨n1, hgd, hW.length_eq.symm, hB.length_eq.symm, ?_, hel⟩
  intro s hs
  obtain ⟨dW, dB, hb, -, -⟩ :=
    backward_shaped exp n hn _ _ (hsh s hs).1 (hsh s hs).2
  rw [hb]
  rfl

/-- Witness of C4: a batch of two samples on the network with layers `2, 2, 1`. -/
theorem gradientDescent_update_witness :
    (gradientDescent Real.exp (net221 : Net ℝ) [x221, x221] [y221, y221] 3).isSome = true := by
  obtain ⟨n1, hgd, -⟩ := gradientDescent_update Real.exp (net221 : Net ℝ) [x221, x221]
    [y221, y221] 3 (by decide) (by decide) (by decide) (by
      intro s hs
      have hs2 : s < 2 := hs
      interval_cases s <;> exact ⟨by decide, by decide⟩)
  rw [hgd]
  rfl

end Claims

section Claims12
variable {R : Type} [LinearOrderedField R]

theorem forward_entry (exp : R → R) (n : Net R) (hn : WellShaped n) (x : Dense R)
    (hx : ColShaped x (n.size 0)) :
    ∃ a z, forward exp n x = some (a, z) ∧
      Predict exp n x = some (traceAt a n.weights.length) ∧
      a.length = n.weights.length + 1 ∧ z.length = n.weights.length ∧ traceAt a 0 = x ∧
      (∀ i, i ≤ n.weights.length → ColShaped (traceAt a i) (n.size i)) ∧
      ∀ i, i < n.weights.length → ColShaped (traceAt z i) (n.size (i + 1)) ∧ ∀ j,
        (traceAt z i).elem j 0 =
          (∑ k in Finset.range (n.W i).cols, (n.W i).elem j k * (traceAt a i).elem k 0)
            + (n.B i).elem 0 0 ∧
        (traceAt a (i + 1)).elem j 0 = sigmoid exp ((traceAt z i).elem j 0) := by
  obtain ⟨a, z, hf, hal, hzl, ha0, hash, hrest⟩ := forward_spec exp n hn x hx
  obtain ⟨h2, hw, hb, hpos, hsh⟩ := hn
  refine ⟨a, z, hf, ?_, hal, hzl, ha0, hash, ?_⟩
  · simp only [Predict, hf, hal, Nat.add_sub_cancel]
    exact traceAt_get a _ (by omega)
  · intro i hi
    obtain ⟨hz, ha, hc⟩ := hrest i hi
    obtain ⟨hwr, hwc, hbr, hbc⟩ := hsh i hi
    have hp1 := hpos (i + 1) (by omega)
    refine ⟨hc, fun j => ⟨?_, ?_⟩⟩
    · rw [hz]
      show (biasCallback n i j 0 _).getD 0 = _
      rw [biasCallback_col0 n i (by omega) (by omega) (by omega)]
      rfl
    · rw [ha]
      rfl

theorem wellShaped_net32 : WellShaped (net32 : Net R) :=
  of_decide_eq_true rfl

/-- C1 (code bug): on the network and input of `TestNetwork_Forward32`, `forward` returns
`z[0][1] = 35`, the weighted sum of unit 1 plus the bias of unit 0, whereas the claimed value
`Σ_k W[1,k]·x[k] + B[1]` is `37`; the activation of unit 1 is `sigmoid 35`. -/
theorem forward32_second_unit (exp : R → R) :
    ∃ a z, forward exp (net32 : Net R) x32 = some (a, z) ∧
      (traceAt z 0).elem 1 0 = 35 ∧
      (∑ k in Finset.range 3, ((net32 : Net R).W 0).elem 1 k * (x32 : Dense R).elem k 0)
        + ((net32 : Net R).B 0).elem 1 0 = 37 ∧
      (traceAt a 1).elem 1 0 = sigmoid exp 35 ∧ (35 : R) ≠ 37 := by
  obtain ⟨a, z, hf, -, -, -, ha0, -, hent⟩ :=
    forward_entry exp (net32 : Net R) wellShaped_net32 x32 ⟨rfl, rfl⟩
  obtain ⟨-, hj⟩ := hent 0 (Nat.zero_lt_one)
  obtain ⟨hz, ha⟩ := hj 1
  have hz35 : (traceAt z 0).elem 1 0 = 35 := by
    rw [hz, ha0]
    simp [net32, x32, Net.W, Net.B, Dense.ofList, Finset.sum_range_succ]
    norm_num
  refine ⟨a, z, hf, hz35, ?_, ?_, by norm_num⟩
  · simp [net32, x32, Net.W, Net.B, Dense.ofList, Finset.sum_range_succ]
    norm_num
  · rw [ha, hz35]

end Claims12

section Claims2

theorem sigmoid_real_zero : sigmoid Real.exp (0 : ℝ) = 1 / 2 := by
  simp [sigmoid, Real.exp_zero]
  norm_num

theorem cost_net12_setBias (t : ℝ) :
    cost Real.exp ((net12 : Net ℝ).setBias 0 1 t) x12 y12 = 1 / 4 := by
  have hn : WellShaped ((net12 : Net ℝ).setBias 0 1 t) := of_decide_eq_true rfl
  obtain ⟨a, z, -, hp, -, -, ha0, hash, hent⟩ :=
    forward_entry Real.exp ((net12 : Net ℝ).setBias 0 1 t) hn x12 ⟨rfl, rfl⟩
  obtain ⟨hc, hj⟩ := hent 0 Nat.zero_lt_one
  have hz : ∀ j, (traceAt z 0).elem j 0 = 0 := by
    intro j
    rw [(hj j).1, ha0]
    simp [net12, x12, Net.setBias, Net.W, Net.B, Dense.ofList, Finset.sum_range_succ]
  have ha : ∀ j, (traceAt a 1).elem j 0 = 1 / 2 := by
    intro j
    rw [(hj j).2, hz j, sigmoid_real_zero]
  have hrows : (traceAt a 1).rows = 2 := by
    have h := (hash 1 (le_refl 1)).1
    have h2 : ((net12 : Net ℝ).setBias 0 1 t).size 1 = 2 := rfl
    omega
  have hp1 : Predict Real.exp ((net12 : Net ℝ).setBias 0 1 t) x12 = some (traceAt a 1) := hp
  simp only [cost, hp1, hrows, Finset.sum_range_succ, Finset.sum_range_zero, ha]
  simp [y12, Dense.ofList]
  norm_num

/-- C2 (code bug): on the network with layers `1, 2` and all parameters zero, input `0` and
target `(0, 0)`, `backward` returns `dB[0][1] = 1/8`, while the cost computed by the network's
own forward pass does not depend on `B[0][1]`: as a function of that entry (set by
`setBias 0 1 t`) it has derivative `0`.  The bias gradient returned is not the gradient of the
cost. -/
theorem backward_bias_gradient_mismatch :
    ∃ dW dB, backward Real.exp (net12 : Net ℝ) x12 y12 = some (dW, dB) ∧
      (gradAt dB 0).elem 1 0 = 1 / 8 ∧
      (∀ t : ℝ, (((net12 : Net ℝ).setBias 0 1 t).B 0).elem 1 0 = t) ∧
      HasDerivAt (fun t => cost Real.exp ((net12 : Net ℝ).setBias 0 1 t) x12 y12) 0
        (((net12 : Net ℝ).B 0).elem 1 0) := by
  have hn : WellShaped (net12 : Net ℝ) := of_decide_eq_true rfl
  obtain ⟨a, z, dW, dB, hf, hb, -, -, hlast, -, -⟩ :=
    backward_spec Real.exp (net12 : Net ℝ) hn x12 y12 ⟨rfl, rfl⟩ ⟨rfl, rfl⟩
  obtain ⟨a1, z1, hf1, -, -, -, ha0, -, hent⟩ :=
    forward_entry Real.exp (net12 : Net ℝ) hn x12 ⟨rfl, rfl⟩
  rw [hf] at hf1
  obtain ⟨rfl, rfl⟩ : a = a1 ∧ z = z1 := by simpa using hf1
  obtain ⟨-, hj⟩ := hent 0 Nat.zero_lt_one
  have hz : (traceAt z 0).elem 1 0 = 0 := by
    rw [(hj 1).1, ha0]
    simp [net12, x12, Net.W, Net.B, Dense.ofList, Finset.sum_range_succ]
  have ha : (traceAt a 1).elem 1 0 = 1 / 2 := by
    rw [(hj 1).2, hz, sigmoid_real_zero]
  have hlast1 : dB[0]? = some (some (Dense.mulElemRaw (Dense.subRaw (traceAt a 1) y12)
      (Dense.mapRaw (sigmoidPrime Real.exp) (traceAt z 0)))) := hlast
  refine ⟨dW, dB, hb, ?_, fun t => by simp [Net.setBias, Net.B, net12], ?_⟩
  · rw [gradAt_of_get _ _ _ hlast1]
    show ((traceAt a 1).elem 1 0 - (y12 : Dense ℝ).elem 1 0)
      * sigmoidPrime Real.exp ((traceAt z 0).elem 1 0) = 1 / 8
    rw [ha, hz]
    simp only [sigmoidPrime, sigmoid_real_zero]
    simp [y12, Dense.ofList]
    norm_num
  · have hconst : (fun t => cost Real.exp ((net12 : Net ℝ).setBias 0 1 t) x12 y12)
        = fun _ => (1 / 4 : ℝ) := by
      funext t
      exact cost_net12_setBias t
    rw [hconst]
    exact hasDerivAt_const _ _

end Claims2

section RowHead
variable {R : Type}

theorem Row_head (a : Dense R) (j : Nat) (hj : j < a.rows) (hc : 0 < a.cols) :
    ∃ l, Dense.Row j a = some l ∧ l[0]? = some (a.elem j 0) := by
  refine ⟨(List.range a.cols).map (a.elem j), by simp [Dense.Row, hj], ?_⟩
  simp [List.getElem?_map, List.getElem?_range hc]

end RowHead

section Eval
variable {R : Type} [LinearOrderedField R]

theorem ArgInv_step (m : Dense R) (s : Nat) (mx : R) (ix : Nat) (h : ArgInv m s mx ix) :
    ArgInv m (s + 1) (if m.elem s 0 > mx then m.elem s 0 else mx)
      (if m.elem s 0 > mx then s else ix) := by
  obtain ⟨p1, p2, p3, p4⟩ := h
  by_cases hgt : m.elem s 0 > mx
  · rw [if_pos hgt, if_pos hgt]
    refine ⟨rfl, ?_, ?_, Or.inl (Nat.lt_succ_self s)⟩
    · intro j hj
      rcases Nat.lt_succ_iff_lt_or_eq.mp hj with h1 | h1
      · exact le_of_lt (lt_of_le_of_lt (p2 j h1) hgt)
      · rw [h1]
    · intro j hj
      exact lt_of_le_of_lt (p2 j hj) hgt
  · rw [if_neg hgt, if_neg hgt]
    refine ⟨p1, ?_, p3, ?_⟩
    · intro j hj
      rcases Nat.lt_succ_iff_lt_or_eq.mp hj with h1 | h1
      · exact p2 j h1
      · rw [h1]
        exact not_lt.mp hgt
    · rcases p4 with h1 | h1
      · exact Or.inl (Nat.lt_succ_of_lt h1)
      · exact Or.inr h1

theorem maxStep_eq (output label : Dense R) (hoc : 0 < output.cols) (hlc : 0 < label.cols)
    (s : Nat) (st : MaxState R) (ho : s < output.rows) (hl : s < label.rows) :
    maxStep output label st s = some
      ⟨if output.elem s 0 > st.maxP then output.elem s 0 else st.maxP,
       if output.elem s 0 > st.maxP then s else st.maxPInd,
       if label.elem s 0 > st.maxE then label.elem s 0 else st.maxE,
       if label.elem s 0 > st.maxE then s else st.maxEInd⟩ := by
  obtain ⟨p, hp, hp0⟩ := Row_head output s ho hoc
  obtain ⟨e, he, he0⟩ := Row_head label s hl hlc
  simp only [maxStep, hp, he, hp0, he0]
  by_cases h1 : output.elem s 0 > st.maxP <;> by_cases h2 : label.elem s 0 > st.maxE <;>
    simp [h1, h2]

theorem maxLoop_spec (output label : Dense R) (hoc : 0 < output.cols) (hlc : 0 < label.cols) :
    ∀ (len s : Nat) (st : MaxState R), s + len ≤ output.rows → s + len ≤ label.rows →
      MaxInv output label s st →
      ∃ st1, maxLoop output label (List.range' s len) st = some st1 ∧
        MaxInv output label (s + len) st1 := by
  intro len
  induction len with
  | zero =>
    intro s st _ _ hinv
    exact ⟨st, rfl, hinv⟩
  | succ len ih =>
    intro s st ho hl hinv
    have hstep := maxStep_eq output label hoc hlc s st (by omega) (by omega)
    obtain ⟨st1, hrun, hinv1⟩ := ih (s + 1) _ (by omega) (by omega)
      (⟨ArgInv_step _ _ _ _ hinv.1, ArgInv_step _ _ _ _ hinv.2⟩ :
        MaxInv output label (s + 1)
          ⟨if output.elem s 0 > st.maxP then output.elem s 0 else st.maxP,
           if output.elem s 0 > st.maxP then s else st.maxPInd,
           if label.elem s 0 > st.maxE then label.elem s 0 else st.maxE,
           if label.elem s 0 > st.maxE then s else st.maxEInd⟩)
    refine ⟨st1, ?_, ?_⟩
    · rw [List.range'_succ]
      simp only [maxLoop, hstep, hrun]
    · have e : s + (len + 1) = s + 1 + len := by omega
      rw [e]
      exact hinv1

theorem IsArgmax_unique (m : Dense R) (r k1 k2 : Nat) (h1 : IsArgmax m r k1)
    (h2 : IsArgmax m r k2) : k1 = k2 := by
  obtain ⟨a1, a2, a3⟩ := h1
  obtain ⟨b1, b2, b3⟩ := h2
  rcases Nat.lt_trichotomy k1 k2 with h | h | h
  · exact absurd (b3 k1 h) (not_lt.mpr (a2 k2 b1))
  · exact h
  · exact absurd (a3 k2 h) (not_lt.mpr (b2 k1 a1))

theorem ArgInv_final (m : Dense R) (r : Nat) (hr : 0 < r) (mx : R) (ix : Nat)
    (h : ArgInv m r mx ix) : IsArgmax m r ix := by
  obtain ⟨p1, p2, p3, p4⟩ := h
  refine ⟨by omega, ?_, ?_⟩
  · intro j hj
    rw [← p1]
    exact p2 j hj
  · intro j hj
    rw [← p1]
    exact p3 j hj

theorem sampleCorrect_spec (exp : R → R) (n : Net R) (hn : WellShaped n) (x label : Dense R)
    (hx : ColShaped x (n.size 0)) (hl : ColShaped label (n.size n.weights.length)) :
    sampleCorrect exp n x label = some (decide (sampleMatches exp n x label)) := by
  obtain ⟨a, z, -, hp, -, -, -, hash, -⟩ := forward_entry exp n hn x hx
  obtain ⟨hor, hoc⟩ := hash n.weights.length (le_refl _)
  obtain ⟨hlr, hlc⟩ := hl
  have hpos := hn.2.2.2.1 n.weights.length (by have := hn.2.1; omega)
  obtain ⟨out, hout⟩ : ∃ out, out = traceAt a n.weights.length := ⟨_, rfl⟩
  rw [← hout] at hp hor hoc
  have hrows : label.rows = out.rows := by omega
  have hat1 : out.At 0 0 = some (out.elem 0 0) := by
    simp only [Dense.At]
    rw [if_pos ⟨by omega, by omega⟩]
  have hat2 : label.At 0 0 = some (label.elem 0 0) := by
    simp only [Dense.At]
    rw [if_pos ⟨by omega, by omega⟩]
  have hinit : MaxInv out label 0 ⟨out.elem 0 0, 0, label.elem 0 0, 0⟩ :=
    ⟨⟨rfl, fun j hj => absurd hj (Nat.not_lt_zero j), fun j hj => absurd hj (Nat.not_lt_zero j),
      Or.inr rfl⟩,
     ⟨rfl, fun j hj => absurd hj (Nat.not_lt_zero j), fun j hj => absurd hj (Nat.not_lt_zero j),
      Or.inr rfl⟩⟩
  obtain ⟨st, hrun, hinv⟩ := maxLoop_spec out label (by omega) (by omega) out.rows 0 _
    (by omega) (by omega) hinit
  rw [Nat.zero_add] at hinv
  have hP := ArgInv_final out out.rows (by omega) _ _ hinv.1
  have hE := ArgInv_final label out.rows (by omega) _ _ hinv.2
  have hmatch : sampleMatches exp n x label ↔ st.maxEInd = st.maxPInd := by
    simp only [sampleMatches, hp]
    constructor
    · rintro ⟨k, -, k1, k2⟩
      rw [hrows] at k2
      rw [← IsArgmax_unique _ _ _ _ k1 hP, ← IsArgmax_unique _ _ _ _ k2 hE]
    · intro h
      refine ⟨st.maxPInd, hP.1, hP, ?_⟩
      rw [hrows, ← h]
      exact hE
  simp only [sampleCorrect, hp, hat1, hat2, List.range_eq_range', hrun]
  congr 1
  by_cases h : st.maxEInd = st.maxPInd
  · simp [h, hmatch.mpr h]
  · have : ¬ sampleMatches exp n x label := fun hm => h (hmatch.mp hm)
    simp [h, this]

end Eval

section Eval2
variable {R : Type} [LinearOrderedField R]

theorem evalLoop_spec (exp : R → R) (n : Net R) (hn : WellShaped n) (labels : List (Dense R)) :
    ∀ (xs : List (Dense R)) (i c : Nat),
    (∀ t, t < xs.length → ColShaped (traceAt xs t) (n.size 0) ∧ i + t < labels.length ∧
      ColShaped (traceAt labels (i + t)) (n.size n.weights.length)) →
    evalLoop exp n labels xs i c = some (c + ∑ t in Finset.range xs.length,
      if sampleMatches exp n (traceAt xs t) (traceAt labels (i + t)) then 1 else 0) := by
  intro xs
  induction xs with
  | nil =>
    intro i c _
    simp [evalLoop]
  | cons x xs ih =>
    intro i c hsh
    obtain ⟨hx0, hi0, hl0⟩ := hsh 0 (by simp)
    rw [traceAt_cons_zero] at hx0
    rw [Nat.add_zero] at hi0 hl0
    have hs := sampleCorrect_spec exp n hn x (traceAt labels i) hx0 hl0
    have hrec := ih (i + 1)
      (if decide (sampleMatches exp n x (traceAt labels i)) = true then c + 1 else c) (by
        intro t ht
        have := hsh (t + 1) (by simpa using ht)
        rw [traceAt_cons_succ] at this
        have e : i + (t + 1) = i + 1 + t := by omega
        rw [e] at this
        exact this)
    simp only [evalLoop, traceAt_get labels i hi0, hs, hrec, List.length_cons]
    rw [Finset.sum_range_succ']
    simp only [traceAt_cons_succ, traceAt_cons_zero, Nat.add_zero, ← Nat.add_assoc,
      Nat.add_right_comm i 1]
    congr 1
    by_cases h : sampleMatches exp n x (traceAt labels i)
    · simp [h]
      ring
    · simp [h]

theorem Evaluate_spec (exp : R → R) (n : Net R) (data : DataSet R) (hn : WellShaped n)
    (hlen : data.Data.len = data.Labels.len)
    (hsh : ∀ s, s < data.Data.len → ColShaped (traceAt data.Data.elems s) (n.size 0) ∧
      ColShaped (traceAt data.Labels.elems s) (n.size n.weights.length)) :
    Evaluate exp n data = some (divCounts (correctCount exp n data) data.Data.len) := by
  have h := evalLoop_spec exp n hn data.Labels.elems data.Data.elems 0 0 (by
    intro t ht
    rw [Nat.zero_add]
    have hlt : t < data.Labels.elems.length := by
      have h1 : data.Data.elems.length = data.Labels.elems.length := hlen
      omega
    exact ⟨(hsh t ht).1, hlt, (hsh t ht).2⟩)
  simp only [Evaluate, h, Nat.zero_add, correctCount, Finset.card_filter, Slice.len]

end Eval2

section Net32Real

theorem sigmoid_real_lt (a b : ℝ) (h : a < b) : sigmoid Real.exp a < sigmoid Real.exp b := by
  unfold sigmoid
  have ha : 0 < Real.exp (-a) := Real.exp_pos _
  have hb : 0 < Real.exp (-b) := Real.exp_pos _
  have hlt : Real.exp (-b) < Real.exp (-a) := Real.exp_lt_exp.mpr (by linarith)
  exact one_div_lt_one_div_of_lt (by linarith) (by linarith)

theorem predict32 (x : Dense ℝ) (hx : ColShaped x 3) :
    ∃ out, Predict Real.exp (net32 : Net ℝ) x = some out ∧ out.rows = 2 ∧
      out.elem 0 0
        = sigmoid Real.exp (1 * x.elem 0 0 + 3 * x.elem 1 0 + 5 * x.elem 2 0 + -5) ∧
      out.elem 1 0
        = sigmoid Real.exp (2 * x.elem 0 0 + 4 * x.elem 1 0 + 6 * x.elem 2 0 + -5) := by
  obtain ⟨a, z, -, hp, -, -, ha0, hash, hent⟩ :=
    forward_entry Real.exp (net32 : Net ℝ) wellShaped_net32 x hx
  obtain ⟨-, hj⟩ := hent 0 Nat.zero_lt_one
  have hrows : (traceAt a 1).rows = 2 := by
    have h := (hash 1 (le_refl 1)).1
    have h2 : (net32 : Net ℝ).size 1 = 2 := rfl
    omega
  refine ⟨traceAt a 1, hp, hrows, ?_, ?_⟩
  · rw [(hj 0).2, (hj 0).1, ha0]
    simp [net32, Net.W, Net.B, Dense.ofList, Finset.sum_range_succ]
  · rw [(hj 1).2, (hj 1).1, ha0]
    simp [net32, Net.W, Net.B, Dense.ofList, Finset.sum_range_succ]

theorem predict32_x32 :
    ∃ out, Predict Real.exp (net32 : Net ℝ) x32 = some out ∧ out.rows = 2 ∧
      IsArgmax out 2 1 := by
  obtain ⟨out, hp, hr, h0, h1⟩ := predict32 x32 ⟨rfl, rfl⟩
  have hlt : out.elem 0 0 < out.elem 1 0 := by
    rw [h0, h1]
    apply sigmoid_real_lt
    simp [x32, Dense.ofList]
    norm_num
  refine ⟨out, hp, hr, by omega, ?_, ?_⟩
  · intro j hj
    interval_cases j
    · exact le_of_lt hlt
    · exact le_refl _
  · intro j hj
    interval_cases j
    exact hlt

theorem predict32_zero3 :
    ∃ out, Predict Real.exp (net32 : Net ℝ) zero3 = some out ∧ out.rows = 2 ∧
      IsArgmax out 2 0 := by
  obtain ⟨out, hp, hr, h0, h1⟩ := predict32 zero3 ⟨rfl, rfl⟩
  have heq : out.elem 1 0 = out.elem 0 0 := by
    rw [h0, h1]
    simp [zero3, Dense.ofList]
  refine ⟨out, hp, hr, by omega, ?_, ?_⟩
  · intro j hj
    interval_cases j
    · exact le_refl _
    · exact le_of_eq heq
  · intro j hj
    omega

theorem isArgmax_y32 : IsArgmax (y32 : Dense ℝ) 2 1 := by
  refine ⟨by omega, ?_, ?_⟩
  · intro j hj
    interval_cases j <;> simp [y32, Dense.ofList]
  · intro j hj
    interval_cases j
    simp [y32, Dense.ofList]

theorem isArgmax_y10 : IsArgmax (y10 : Dense ℝ) 2 0 := by
  refine ⟨by omega, ?_, ?_⟩
  · intro j hj
    interval_cases j <;> simp [y10, Dense.ofList]
  · intro j hj
    omega

theorem mixedSet_count : correctCount Real.exp (net32 : Net ℝ) mixedSet = 2 := by
  obtain ⟨o1, hp1, hr1, ha1⟩ := predict32_x32
  obtain ⟨o2, hp2, hr2, ha2⟩ := predict32_zero3
  have m0 : sampleMatches Real.exp (net32 : Net ℝ) x32 y32 := by
    simp only [sampleMatches, hp1, hr1]
    exact ⟨1, by omega, ha1, isArgmax_y32⟩
  have m1 : ¬ sampleMatches Real.exp (net32 : Net ℝ) zero3 y32 := by
    simp only [sampleMatches, hp2, hr2]
    rintro ⟨k, -, k1, k2⟩
    have e1 := IsArgmax_unique _ _ _ _ k1 ha2
    have e2 := IsArgmax_unique _ _ _ _ k2 isArgmax_y32
    omega
  have m2 : sampleMatches Real.exp (net32 : Net ℝ) zero3 y10 := by
    simp only [sampleMatches, hp2, hr2]
    exact ⟨0, by omega, ha2, isArgmax_y10⟩
  have t0 : traceAt (mixedSet : DataSet ℝ).Data.elems 0 = x32 := rfl
  have t1 : traceAt (mixedSet : DataSet ℝ).Data.elems 1 = zero3 := rfl
  have t2 : traceAt (mixedSet : DataSet ℝ).Data.elems 2 = zero3 := rfl
  have l0 : traceAt (mixedSet : DataSet ℝ).Labels.elems 0 = y32 := rfl
  have l1 : traceAt (mixedSet : DataSet ℝ).Labels.elems 1 = y32 := rfl
  have l2 : traceAt (mixedSet : DataSet ℝ).Labels.elems 2 = y10 := rfl
  have hl : (mixedSet : DataSet ℝ).Data.len = 3 := rfl
  unfold correctCount
  rw [Finset.card_filter, hl]
  simp only [Finset.sum_range_succ, Finset.sum_range_zero, t0, t1, t2, l0, l1, l2, if_pos m0,
    if_neg m1, if_pos m2]

end Net32Real

section Claim5
variable {R : Type} [LinearOrderedField R]

/-- C5: for a network of consistent shapes and a non-empty data set of well-shaped samples,
`Evaluate` returns `correctCount / totalCount`, where `totalCount` is the number of samples and
`correctCount` the number of samples whose prediction and target have their maximum at the same
index; the value lies in `[0, 1]`, is `1` when every sample matches and `0` when none does. -/
theorem Evaluate_accuracy (exp : R → R) (n : Net R) (data : DataSet R) (hn : WellShaped n)
    (hne : 0 < data.Data.len) (hlen : data.Data.len = data.Labels.len)
    (hsh : ∀ s, s < data.Data.len → ColShaped (traceAt data.Data.elems s) (n.size 0) ∧
      ColShaped (traceAt data.Labels.elems s) (n.size n.weights.length)) :
    Evaluate exp n data
      = some (Quot64.num ((correctCount exp n data : R) / (data.Data.len : R))) ∧
    (0 : R) ≤ (correctCount exp n data : R) / (data.Data.len : R) ∧
    (correctCount exp n data : R) / (data.Data.len : R) ≤ 1 ∧
    ((∀ s, s < data.Data.len → sampleMatches exp n (traceAt data.Data.elems s)
        (traceAt data.Labels.elems s)) → Evaluate exp n data = some (Quot64.num 1)) ∧
    ((∀ s, s < data.Data.len → ¬ sampleMatches exp n (traceAt data.Data.elems s)
        (traceAt data.Labels.elems s)) → Evaluate exp n data = some (Quot64.num 0)) := by
  have hev : Evaluate exp n data
      = some (Quot64.num ((correctCount exp n data : R) / (data.Data.len : R))) := by
    rw [Evaluate_spec exp n data hn hlen hsh, divCounts, if_neg (by omega)]
  have hle : correctCount exp n data ≤ data.Data.len := by
    unfold correctCount
    calc _ ≤ (Finset.range data.Data.len).card := Finset.card_filter_le _ _
      _ = data.Data.len := Finset.card_range _
  have hpos : (0 : R) < (data.Data.len : R) := by exact_mod_cast hne
  refine ⟨hev, ?_, ?_, ?_, ?_⟩
  · exact div_nonneg (Nat.cast_nonneg _) (le_of_lt hpos)
  · rw [div_le_one hpos]
    exact_mod_cast hle
  · intro hall
    have hc : correctCount exp n data = data.Data.len := by
      unfold correctCount
      rw [Finset.filter_true_of_mem (fun s hs => hall s (Finset.mem_range.mp hs)),
        Finset.card_range]
    rw [hev, hc, div_self (ne_of_gt hpos)]
  · intro hnone
    have hc : correctCount exp n data = 0 := by
      unfold correctCount
      rw [Finset.filter_false_of_mem (fun s hs => hnone s (Finset.mem_range.mp hs)),
        Finset.card_empty]
    rw [hev, hc, Nat.cast_zero, zero_div]

/-- Witness of C5: three samples on the network with layers `3, 2`, which has two output units.
The first and the third sample are classified correctly; the second is not (the two outputs are
equal there and the first index is kept).  The accuracy is `2/3`. -/
theorem Evaluate_accuracy_witness :
    correctCount Real.exp (net32 : Net ℝ) mixedSet = 2 ∧
    Evaluate Real.exp (net32 : Net ℝ) mixedSet = some (Quot64.num (2 / 3)) := by
  have h := (Evaluate_accuracy Real.exp (net32 : Net ℝ) mixedSet (by decide) (by decide)
    (by decide) (by
      intro s hs
      have hs1 : s < 3 := hs
      interval_cases s <;> exact ⟨by decide, by decide⟩)).1
  rw [mixedSet_count] at h
  refine ⟨mixedSet_count, ?_⟩
  rw [h]
  have hl : (mixedSet : DataSet ℝ).Data.len = 3 := rfl
  rw [hl]
  norm_num

end Claim5

section Shuffle
variable {α : Type}

theorem swapAt_length (l l1 : List α) (i j : Nat) (h : swapAt l i j = some l1) :
    l1.length = l.length := by
  unfold swapAt at h
  split at h
  · simp only [Option.some.injEq] at h
    rw [← h]
    simp
  · exact absurd h (by simp)

end Shuffle

section ShuffleLemmas
variable {R : Type}

theorem shuffleLoop_length (rnd : Nat → Nat) : ∀ (i : Nat) (d l d1 l1 : List (Dense R)),
    shuffleLoop rnd i d l = some (d1, l1) → d1.length = d.length ∧ l1.length = l.length := by
  intro i
  induction i with
  | zero =>
    intro d l d1 l1 h
    simp only [shuffleLoop, Option.some.injEq, Prod.mk.injEq] at h
    obtain ⟨rfl, rfl⟩ := h
    exact ⟨rfl, rfl⟩
  | succ i ih =>
    intro d l d1 l1 h
    simp only [shuffleLoop] at h
    split at h
    · rename_i d2 l2 hd hl
      obtain ⟨h1, h2⟩ := ih _ _ _ _ h
      rw [h1, h2, swapAt_length _ _ _ _ hd, swapAt_length _ _ _ _ hl]
      exact ⟨rfl, rfl⟩
    · exact absurd h (by simp)

theorem shuffle_shape (rnd : Nat → Nat) (data data1 : DataSet R)
    (h : shuffle rnd data = some data1) :
    data1.Data.len = data.Data.len ∧ data1.Data.cap = data.Data.cap ∧
    data1.Labels.len = data.Labels.len ∧ data1.Labels.cap = data.Labels.cap := by
  unfold shuffle at h
  split at h
  · exact absurd h (by simp)
  · rename_i d l hs
    simp only [Option.some.injEq] at h
    obtain ⟨h1, h2⟩ := shuffleLoop_length rnd _ _ _ _ _ hs
    rw [← h]
    simp [Slice.len, Slice.cap, h1, h2]

end ShuffleLemmas

section TrainLemmas
variable {R : Type} [LinearOrderedField R]

theorem gradientDescent_nil (exp : R → R) (n : Net R) (y : List (Dense R)) (alpha : R) :
    gradientDescent exp n [] y alpha = none := by
  simp [gradientDescent]

theorem Slice.slice_none_of_gt {α : Type} (s : Slice α) (lo hi : Int) (h : (s.cap : Int) < hi) :
    s.slice lo hi = none := by
  unfold Slice.slice
  rw [if_neg (by omega)]

theorem Slice.slice_none_of_lt {α : Type} (s : Slice α) (lo hi : Int) (h : hi < lo) :
    s.slice lo hi = none := by
  unfold Slice.slice
  rw [if_neg (by omega)]

theorem Slice.slice_empty {α : Type} (s s1 : Slice α) (lo : Int) (h : s.slice lo lo = some s1) :
    s1.elems = [] := by
  unfold Slice.slice at h
  split at h
  · simp only [Option.some.injEq] at h
    rw [← h]
    simp
  · exact absurd h (by simp)

/-- The first iteration of the batch loop panics when `batchSize <= 0` or `batchSize` exceeds
the capacity of `data.Data`. -/
theorem batchLoop_bad_size (exp : R → R) (data : DataSet R) (batchSize : Int) (alpha : R)
    (fuel : Nat) (n : Net R) (hne : 0 < data.Data.len)
    (hbs : batchSize ≤ 0 ∨ (data.Data.cap : Int) < batchSize) :
    batchLoop exp data batchSize alpha (fuel + 1) 0 n = Run.panic := by
  have hlt : (0 : Int) < (data.Data.len : Int) := by exact_mod_cast hne
  simp only [batchLoop, if_pos hlt, Int.zero_add]
  rcases hbs with h | h
  · rcases lt_or_eq_of_le h with h1 | h1
    · rw [Slice.slice_none_of_lt _ _ _ h1]
    · subst h1
      split
      · rename_i xs ys hx hy
        rw [Slice.slice_empty _ _ _ hx, gradientDescent_nil]
      · rfl
  · rw [Slice.slice_none_of_gt _ _ _ h]

end TrainLemmas

section TrainLemmas2
variable {R : Type} [LinearOrderedField R]

/-- With `0 < batchSize`, no spare capacity in `data.Data` and a remaining length that is not a
multiple of `batchSize`, the batch loop panics: its last slice expression reaches beyond the
capacity. -/
theorem batchLoop_trailing (exp : R → R) (data : DataSet R) (batchSize : Int) (alpha : R)
    (hcap : data.Data.cap = data.Data.len) (hbs : 0 < batchSize) :
    ∀ (fuel : Nat) (j : Int) (n : Net R), j ≤ (data.Data.len : Int) →
      ((data.Data.len : Int) - j) % batchSize ≠ 0 → (data.Data.len : Int) + 1 ≤ fuel + j →
      batchLoop exp data batchSize alpha fuel j n = Run.panic := by
  intro fuel
  induction fuel with
  | zero =>
    intro j n h1 _ h3
    simp only [Nat.cast_zero, Int.zero_add] at h3
    omega
  | succ fuel ih =>
    intro j n h1 h2 h3
    have hlt : j < (data.Data.len : Int) := by
      rcases lt_or_eq_of_le h1 with h | h
      · exact h
      · rw [h, Int.sub_self, Int.zero_emod] at h2
        exact absurd rfl h2
    simp only [batchLoop, if_pos hlt]
    by_cases hover : (data.Data.cap : Int) < j + batchSize
    · rw [Slice.slice_none_of_gt _ _ _ hover]
    · split
      · split
        · rfl
        · apply ih
          · rw [hcap] at hover
            omega
          · have e : (data.Data.len : Int) - (j + batchSize)
                = ((data.Data.len : Int) - j) - batchSize := by ring
            rw [e, Int.emod_sub_cancel]
            exact h2
          · push_cast at h3 ⊢
            omega
      · rfl

/-- The fuel given by `trainEpochs` is enough: the batch loop never runs out of it. -/
theorem batchLoop_fuel (exp : R → R) (data : DataSet R) (batchSize : Int) (alpha : R)
    (hbs : 0 < batchSize) :
    ∀ (fuel : Nat) (j : Int) (n : Net R), (data.Data.len : Int) + 1 ≤ fuel + j →
      batchLoop exp data batchSize alpha fuel j n ≠ Run.outOfFuel := by
  intro fuel
  induction fuel with
  | zero =>
    intro j n h
    simp only [Nat.cast_zero, Int.zero_add] at h
    simp only [batchLoop]
    rw [if_neg (by omega)]
    simp
  | succ fuel ih =>
    intro j n h
    simp only [batchLoop]
    split
    · split
      · split
        · simp
        · apply ih
          push_cast at h ⊢
          omega
      · simp
    · simp

theorem batchLoop_ne_outOfFuel (exp : R → R) (data : DataSet R) (batchSize : Int) (alpha : R)
    (n : Net R) :
    batchLoop exp data batchSize alpha (data.Data.len + 1) 0 n ≠ Run.outOfFuel := by
  by_cases hbs : 0 < batchSize
  · apply batchLoop_fuel exp data batchSize alpha hbs
    push_cast
    omega
  · by_cases hne : 0 < data.Data.len
    · rw [batchLoop_bad_size exp data batchSize alpha _ n hne (Or.inl (by omega))]
      simp
    · have hlt : ¬ (0 : Int) < (data.Data.len : Int) := by omega
      simp only [batchLoop, if_neg hlt]
      simp

theorem trainEpochs_ne_outOfFuel (exp : R → R) (rnd : Nat → Nat → Nat)
    (validation : DataSet R) (batchSize : Int) (alpha : R) :
    ∀ (k e : Nat) (n : Net R) (data : DataSet R),
      trainEpochs exp rnd validation batchSize alpha k e n data ≠ Run.outOfFuel := by
  intro k
  induction k with
  | zero =>
    intro e n data
    simp [trainEpochs]
  | succ k ih =>
    intro e n data
    simp only [trainEpochs]
    split
    · simp
    · rename_i data1 hs
      split
      · simp
      · rename_i hb
        exact absurd hb (batchLoop_ne_outOfFuel exp data1 batchSize alpha n)
      · split
        · split
          · simp
          · exact ih _ _ _
        · exact ih _ _ _

/-- The method `Train` never runs out of fuel: the bound on the batch loop is not a restriction. -/
theorem Train_ne_outOfFuel (exp : R → R) (rnd : Nat → Nat → Nat) (n : Net R)
    (data validation : DataSet R) (batchSize epochs : Int) (alpha : R) :
    Train exp rnd n data validation batchSize epochs alpha ≠ Run.outOfFuel :=
  trainEpochs_ne_outOfFuel exp rnd validation batchSize alpha _ _ _ _

end TrainLemmas2

section Claims8b
variable {R : Type} [LinearOrderedField R]

theorem Train_oneOfTwo (exp : R → R) (rnd : Nat → Nat → Nat) (alpha : R) :
    ∃ n1, Train exp rnd (net32 : Net R) oneOfTwo emptySet 2 1 alpha
      = Run.ok (n1, oneOfTwo) := by
  obtain ⟨n1, h, -⟩ := gradientDescent_spec exp (net32 : Net R) wellShaped_net32
    [x32, x32] [y32, y32] alpha (by simp) rfl (by
      intro s hs
      have hs2 : s < 2 := hs
      interval_cases s <;> exact ⟨⟨rfl, rfl⟩, ⟨rfl, rfl⟩⟩)
  refine ⟨n1, ?_⟩
  have hs : shuffle (rnd 0) (oneOfTwo : DataSet R) = some oneOfTwo := rfl
  have hx : (oneOfTwo : DataSet R).Data.slice 0 (0 + 2) = some ⟨[x32, x32], []⟩ := by
    simp [Slice.slice, oneOfTwo, Slice.cap]
  have hy : (oneOfTwo : DataSet R).Labels.slice 0 (0 + 2) = some ⟨[y32, y32], []⟩ := by
    simp [Slice.slice, oneOfTwo, Slice.cap]
  have hl : (oneOfTwo : DataSet R).Data.len = 1 := rfl
  have hv : ¬ (emptySet : DataSet R).Data.len > 0 := by simp [emptySet, Slice.len]
  have e1 : (1 : Int).toNat = 1 := rfl
  simp only [Train, e1, trainEpochs, hs, hl, batchLoop, Nat.cast_one, zero_lt_one, if_true,
    hx, hy, h, if_neg hv]
  rw [if_neg (by norm_num)]

end Claims8b

section Claims678
variable {R : Type} [LinearOrderedField R]

/-- C6 (code bug): when the slice `data.Data` has no spare capacity, `batchSize` is positive and
the number of samples is not a multiple of `batchSize`, `Train` with at least one epoch panics:
the batch loop enters an iteration for the trailing samples and its slice expression
`data.Data[j : j+batchSize]` is out of range.  The trailing samples are not skipped. -/
theorem Train_partial_batch_panics (exp : R → R) (rnd : Nat → Nat → Nat) (n : Net R)
    (data validation : DataSet R) (batchSize epochs : Int) (alpha : R)
    (hcap : data.Data.spare = []) (hbs : 0 < batchSize)
    (hmod : (data.Data.len : Int) % batchSize ≠ 0) (hep : 0 < epochs) :
    Train exp rnd n data validation batchSize epochs alpha = Run.panic := by
  obtain ⟨k, hk⟩ : ∃ k, epochs.toNat = k + 1 := ⟨epochs.toNat - 1, by omega⟩
  simp only [Train, hk, trainEpochs]
  split
  · rfl
  · rename_i data1 hs
    obtain ⟨h1, h2, -, -⟩ := shuffle_shape _ _ _ hs
    have hcap1 : data1.Data.cap = data1.Data.len := by
      rw [h1, h2]
      simp [Slice.cap, Slice.len, hcap]
    rw [batchLoop_trailing exp data1 batchSize alpha hcap1 hbs _ 0 n
      (by exact_mod_cast Nat.zero_le _) (by rw [h1, Int.sub_zero]; exact hmod)
      (by push_cast; omega)]

/-- Witness of C6: three samples, `batchSize = 2`, one epoch. -/
theorem Train_partial_batch_panics_witness :
    Train Real.exp (fun _ _ => 0) (net32 : Net ℝ) threeSamples emptySet 2 1 1 = Run.panic :=
  Train_partial_batch_panics Real.exp (fun _ _ => 0) (net32 : Net ℝ) threeSamples emptySet 2 1 1
    rfl (by decide) (by decide) (by decide)

/-- C7 (counterexample): on the data set with zero samples `Evaluate` does not fail; it returns
the quotient `0 / 0`, NaN. -/
theorem Evaluate_emptySet_returns :
    Evaluate Real.exp (net32 : Net ℝ) emptySet = some Quot64.nan :=
  rfl

/-- C7 (amended): for every network, `Evaluate` called on a data set with zero samples returns
normally; the division `correct / len(data.Data)` is carried out with both counts zero and the
result is NaN. -/
theorem Evaluate_empty (exp : R → R) (n : Net R) (spare : List (Dense R))
    (labels : Slice (Dense R)) :
    Evaluate exp n ⟨⟨[], spare⟩, labels⟩ = some (divCounts 0 0) ∧
    (divCounts 0 0 : Quot64 R) = Quot64.nan :=
  ⟨rfl, rfl⟩

/-- C8 (counterexample): with `epochs = 0` and `batchSize = 0`, `Train` returns normally; and
with one epoch, one sample in a slice of capacity two and `batchSize = 2`, larger than the
training set, `Train` returns normally as well. -/
theorem Train_bad_batchSize_returns :
    Train Real.exp (fun _ _ => 0) (net32 : Net ℝ) threeSamples emptySet 0 0 1
      = Run.ok (net32, threeSamples) ∧
    ∃ n1, Train Real.exp (fun _ _ => 0) (net32 : Net ℝ) oneOfTwo emptySet 2 1 1
      = Run.ok (n1, oneOfTwo) :=
  ⟨rfl, Train_oneOfTwo Real.exp (fun _ _ => 0) 1⟩

/-- C8 (amended): `Train` does not validate `batchSize`.  With at least one epoch and a
non-empty training set it fails (a panic) whenever `batchSize <= 0` or `batchSize` exceeds the
capacity of the slice `data.Data`; with `epochs <= 0` it returns normally, network and training
set unchanged, whatever `batchSize` is. -/
theorem Train_bad_batchSize (exp : R → R) (rnd : Nat → Nat → Nat) (n : Net R)
    (data validation : DataSet R) (batchSize epochs : Int) (alpha : R) :
    (0 < epochs → 0 < data.Data.len →
      (batchSize ≤ 0 ∨ (data.Data.cap : Int) < batchSize) →
      Train exp rnd n data validation batchSize epochs alpha = Run.panic) ∧
    (epochs ≤ 0 →
      Train exp rnd n data validation batchSize epochs alpha = Run.ok (n, data)) := by
  constructor
  · intro hep hne hbs
    obtain ⟨k, hk⟩ : ∃ k, epochs.toNat = k + 1 := ⟨epochs.toNat - 1, by omega⟩
    simp only [Train, hk, trainEpochs]
    split
    · rfl
    · rename_i data1 hs
      obtain ⟨h1, h2, -, -⟩ := shuffle_shape _ _ _ hs
      rw [batchLoop_bad_size exp data1 batchSize alpha _ n (by omega) (by rw [h2]; exact hbs)]
  · intro hep
    have hk : epochs.toNat = 0 := by omega
    simp only [Train, hk, trainEpochs]

/-- Witness of C8: one epoch on three samples with `batchSize = 4`, and zero epochs. -/
theorem Train_bad_batchSize_witness :
    Train Real.exp (fun _ _ => 0) (net32 : Net ℝ) threeSamples emptySet 4 1 1 = Run.panic ∧
    Train Real.exp (fun _ _ => 0) (net32 : Net ℝ) threeSamples emptySet 4 0 1
      = Run.ok (net32, threeSamples) :=
  ⟨(Train_bad_batchSize Real.exp (fun _ _ => 0) (net32 : Net ℝ) threeSamples emptySet 4 1 1).1
      (by decide) (by decide) (Or.inr (by decide)),
   (Train_bad_batchSize Real.exp (fun _ _ => 0) (net32 : Net ℝ) threeSamples emptySet 4 0 1).2
      (by decide)⟩

end Claims678

section MakeLemmas
variable {R : Type}

theorem wrap64_of_range (v : Int) (h0 : -(2 : Int) ^ 63 ≤ v) (h1 : v < 2 ^ 63) :
    wrap64 v = v := by
  unfold wrap64
  omega

theorem wrap64_range (v : Int) : -(2 : Int) ^ 63 ≤ wrap64 v ∧ wrap64 v < 2 ^ 63 := by
  unfold wrap64
  omega

theorem makeFloats_some (maxLen : Nat) (len : Int) (gen : Nat → R) (h : 0 ≤ len)
    (hm : len ≤ (maxLen : Int)) :
    ∃ l, makeFloats maxLen len gen = some l ∧ (l.length : Int) = len := by
  refine ⟨(List.range len.toNat).map gen, ?_, ?_⟩
  · unfold makeFloats
    rw [if_neg (by omega)]
  · simp
    omega

theorem makeFloats_none (maxLen : Nat) (len : Int) (gen : Nat → R)
    (h : len < 0 ∨ (maxLen : Int) < len) : makeFloats maxLen len gen = none := by
  unfold makeFloats
  rw [if_pos h]

end MakeLemmas

section NewLemmas
variable {R : Type} [LinearOrderedField R]

theorem NewDense_panic (r c : Int) (data : List R) (h : r ≤ 0 ∨ c ≤ 0) :
    Dense.NewDense r c data = Built.panic := by
  unfold Dense.NewDense
  rw [if_pos h]

theorem NewDense_short (r c : Int) (data : List R) (hr : 0 < r) (hc : 0 < c)
    (hlen : wrap64 (r * c) = (data.length : Int)) (hw : wrap64 (r * c) ≠ r * c) :
    Dense.NewDense r c data = Built.short := by
  unfold Dense.NewDense
  rw [if_neg (by omega), if_neg (by simpa using hlen), if_pos (by rw [← hlen]; exact hw.symm)]

theorem NewDense_ok (r c : Int) (data : List R) (hr : 0 < r) (hc : 0 < c)
    (hlen : wrap64 (r * c) = (data.length : Int)) (hw : wrap64 (r * c) = r * c) :
    ∃ m, Dense.NewDense r c data = Built.ok m ∧ (m.rows : Int) = r ∧ (m.cols : Int) = c := by
  refine ⟨⟨r.toNat, c.toNat, fun i j => data.getD (i * c.toNat + j) 0⟩, ?_, ?_, ?_⟩
  · unfold Dense.NewDense
    rw [if_neg (by omega), if_neg (by simpa using hlen), if_neg (by rw [← hlen, hw]; simp)]
  · show ((r.toNat : Nat) : Int) = r
    omega
  · show ((c.toNat : Nat) : Int) = c
    omega

theorem newLayer_cases (maxLen : Nat) (hmax : (maxLen : Int) < 2 ^ 63)
    (wInit bInit : Nat → Nat → R) (sizes : List Int) (i : Nat) (hi : i + 1 < sizes.length) :
    (LayerFails maxLen sizes i ∧ newLayer maxLen wInit bInit sizes i = Built.panic) ∨
    (¬ LayerFails maxLen sizes i ∧ LayerWraps sizes i ∧
      newLayer maxLen wInit bInit sizes i = Built.short) ∨
    (¬ LayerFails maxLen sizes i ∧ ¬ LayerWraps sizes i ∧
      ∃ wm bm, newLayer maxLen wInit bInit sizes i = Built.ok (wm, bm) ∧
        (wm.rows : Int) = sizes.getD (i + 1) 0 ∧ (wm.cols : Int) = sizes.getD i 0 ∧
        (bm.rows : Int) = sizes.getD (i + 1) 0 ∧ bm.cols = 1) := by
  have hi0 : i < sizes.length := by omega
  have e0 : sizes[i]? = some (sizes.getD i 0) := by
    simp [List.getD_eq_getElem?_getD, List.getElem?_eq_getElem hi0]
  have e1 : sizes[i + 1]? = some (sizes.getD (i + 1) 0) := by
    simp [List.getD_eq_getElem?_getD, List.getElem?_eq_getElem hi]
  generalize hsi : sizes.getD i 0 = si at e0
  generalize hsj : sizes.getD (i + 1) 0 = sj at e1
  unfold LayerFails LayerWraps
  rw [hsi, hsj]
  by_cases h1 : wrap64 (sj * si) < 0 ∨ (maxLen : Int) < wrap64 (sj * si)
  · left
    refine ⟨by omega, ?_⟩
    simp only [newLayer, e0, e1, makeFloats_none maxLen _ (wInit i) h1]
  · obtain ⟨w, hw, hwl⟩ := makeFloats_some maxLen (wrap64 (sj * si)) (wInit i)
      (by omega) (by omega)
    by_cases h2 : sj ≤ 0 ∨ si ≤ 0
    · left
      refine ⟨by omega, ?_⟩
      simp only [newLayer, e0, e1, hw, NewDense_panic sj si w h2]
    · by_cases h3 : (maxLen : Int) < sj
      · left
        refine ⟨by omega, ?_⟩
        have hb : makeFloats maxLen sj (bInit i) = none := makeFloats_none _ _ _ (Or.inr h3)
        simp only [newLayer, e0, e1, hw, hb]
        split <;> rfl
      · obtain ⟨b, hb, hbl⟩ := makeFloats_some maxLen sj (bInit i) (by omega) (by omega)
        have hsj1 : wrap64 (sj * 1) = sj * 1 := by
          rw [Int.mul_one]
          exact wrap64_of_range sj (by omega) (by omega)
        obtain ⟨bm, hbm, hbr, hbc⟩ := NewDense_ok sj 1 b (by omega) Int.one_pos
          (by rw [hsj1, Int.mul_one]; exact hbl.symm) hsj1
        have hnf : ¬ (si ≤ 0 ∨ sj ≤ 0 ∨ wrap64 (sj * si) < 0 ∨
            (maxLen : Int) < wrap64 (sj * si) ∨ (maxLen : Int) < sj) := by
          omega
        right
        by_cases h4 : wrap64 (sj * si) = sj * si
        · right
          obtain ⟨wm, hwm, hwr, hwc⟩ := NewDense_ok sj si w (by omega) (by omega) hwl.symm h4
          refine ⟨hnf, by simpa using h4, wm, bm, ?_, hwr, hwc, hbr, by omega⟩
          simp only [newLayer, e0, e1, hw, hwm, hb, hbm]
        · left
          have hwm := NewDense_short sj si w (by omega) (by omega) hwl.symm h4
          refine ⟨hnf, h4, ?_⟩
          simp only [newLayer, e0, e1, hw, hwm, hb, hbm]

end NewLemmas

section NewLemmas2
variable {R : Type} [LinearOrderedField R]

theorem exists_shift (P : Nat → Prop) (i k : Nat) :
    (∃ t, t < k + 1 ∧ P (i + t)) ↔ (P i ∨ ∃ t, t < k ∧ P (i + 1 + t)) := by
  constructor
  · rintro ⟨t, ht, hp⟩
    cases t with
    | zero => exact Or.inl hp
    | succ t =>
      refine Or.inr ⟨t, by omega, ?_⟩
      have e : i + 1 + t = i + (t + 1) := by omega
      rw [e]
      exact hp
  · rintro (hp | ⟨t, ht, hp⟩)
    · exact ⟨0, by omega, hp⟩
    · refine ⟨t + 1, by omega, ?_⟩
      have e : i + (t + 1) = i + 1 + t := by omega
      rw [e]
      exact hp

theorem forall_shift (P : Nat → Prop) (i k : Nat) :
    (∀ t, t < k + 1 → P (i + t)) ↔ (P i ∧ ∀ t, t < k → P (i + 1 + t)) := by
  constructor
  · intro h
    refine ⟨h 0 (by omega), fun t ht => ?_⟩
    have e : i + 1 + t = i + (t + 1) := by omega
    rw [e]
    exact h (t + 1) (by omega)
  · rintro ⟨h0, h1⟩ t ht
    cases t with
    | zero => exact h0
    | succ t =>
      have e : i + (t + 1) = i + 1 + t := by omega
      rw [e]
      exact h1 t (by omega)

theorem newLayers_cases (maxLen : Nat) (hmax : (maxLen : Int) < 2 ^ 63)
    (wInit bInit : Nat → Nat → R) (sizes : List Int) :
    ∀ (k i : Nat), i + k + 1 = sizes.length →
    ((∃ t, t < k ∧ LayerFails maxLen sizes (i + t)) ∧
      newLayers maxLen wInit bInit sizes k i = Built.panic) ∨
    ((∀ t, t < k → ¬ LayerFails maxLen sizes (i + t)) ∧
      (∃ t, t < k ∧ LayerWraps sizes (i + t)) ∧
      newLayers maxLen wInit bInit sizes k i = Built.short) ∨
    ((∀ t, t < k → ¬ LayerFails maxLen sizes (i + t)) ∧
      (∀ t, t < k → ¬ LayerWraps sizes (i + t)) ∧
      ∃ ws bs, newLayers maxLen wInit bInit sizes k i = Built.ok (ws, bs) ∧ ws.length = k ∧
        bs.length = k ∧
        ∀ t, t < k →
          ((traceAt ws t).rows : Int) = sizes.getD (i + t + 1) 0 ∧
          ((traceAt ws t).cols : Int) = sizes.getD (i + t) 0 ∧
          ((traceAt bs t).rows : Int) = sizes.getD (i + t + 1) 0 ∧
          (traceAt bs t).cols = 1) := by
  intro k
  induction k with
  | zero =>
    intro i _
    right
    right
    exact ⟨fun t ht => absurd ht (Nat.not_lt_zero t), fun t ht => absurd ht (Nat.not_lt_zero t),
      [], [], rfl, rfl, rfl, fun t ht => absurd ht (Nat.not_lt_zero t)⟩
  | succ k ih =>
    intro i hik
    rw [exists_shift (LayerFails maxLen sizes), exists_shift (LayerWraps sizes),
      forall_shift (fun j => ¬ LayerFails maxLen sizes j),
      forall_shift (fun j => ¬ LayerWraps sizes j)]
    rcases newLayer_cases maxLen hmax wInit bInit sizes i (by omega) with
      ⟨hf, hl⟩ | ⟨hnf, hw, hl⟩ | ⟨hnf, hnw, wm, bm, hl, s1, s2, s3, s4⟩
    · left
      exact ⟨Or.inl hf, by simp only [newLayers, hl]⟩
    · rcases ih (i + 1) (by omega) with
        ⟨hf1, hr⟩ | ⟨hnf1, hw1, hr⟩ | ⟨hnf1, hnw1, ws, bs, hr, -⟩
      · left
        exact ⟨Or.inr hf1, by simp only [newLayers, hl, hr]⟩
      · right
        left
        exact ⟨⟨hnf, hnf1⟩, Or.inl hw, by simp only [newLayers, hl, hr]⟩
      · right
        left
        exact ⟨⟨hnf, hnf1⟩, Or.inl hw, by simp only [newLayers, hl, hr]⟩
    · rcases ih (i + 1) (by omega) with
        ⟨hf1, hr⟩ | ⟨hnf1, hw1, hr⟩ | ⟨hnf1, hnw1, ws, bs, hr, hl1, hl2, hrest⟩
      · left
        exact ⟨Or.inr hf1, by simp only [newLayers, hl, hr]⟩
      · right
        left
        exact ⟨⟨hnf, hnf1⟩, Or.inr hw1, by simp only [newLayers, hl, hr]⟩
      · right
        right
        refine ⟨⟨hnf, hnf1⟩, ⟨hnw, hnw1⟩, wm :: ws, bm :: bs,
          by simp only [newLayers, hl, hr], by simp [hl1], by simp [hl2], ?_⟩
        intro t ht
        cases t with
        | zero =>
          simp only [traceAt_cons_zero, Nat.add_zero]
          exact ⟨s1, s2, s3, s4⟩
        | succ t =>
          have := hrest t (by omega)
          have e : i + (t + 1) = i + 1 + t := by omega
          simpa [traceAt_cons_succ, e] using this

theorem New_cases (maxLen : Nat) (hmax : (maxLen : Int) < 2 ^ 63)
    (wInit bInit : Nat → Nat → R) (sizes : List Int) :
    ((sizes.length < 2 ∨ ∃ i, i + 1 < sizes.length ∧ LayerFails maxLen sizes i) ∧
      New maxLen wInit bInit sizes = Built.panic) ∨
    (2 ≤ sizes.length ∧ (∀ i, i + 1 < sizes.length → ¬ LayerFails maxLen sizes i) ∧
      (∃ i, i + 1 < sizes.length ∧ LayerWraps sizes i) ∧
      New maxLen wInit bInit sizes = Built.short) ∨
    (2 ≤ sizes.length ∧ (∀ i, i + 1 < sizes.length → ¬ LayerFails maxLen sizes i) ∧
      (∀ i, i + 1 < sizes.length → ¬ LayerWraps sizes i) ∧
      ∃ n, New maxLen wInit bInit sizes = Built.ok n ∧ n.layers = sizes ∧
        n.weights.length + 1 = sizes.length ∧ n.biases.length + 1 = sizes.length ∧
        (∀ i, i + 1 < sizes.length →
          ((n.W i).rows : Int) = sizes.getD (i + 1) 0 ∧
          ((n.W i).cols : Int) = sizes.getD i 0 ∧
          ((n.B i).rows : Int) = sizes.getD (i + 1) 0 ∧ (n.B i).cols = 1) ∧
        WellShaped n) := by
  by_cases hl : sizes.length < 2
  · left
    exact ⟨Or.inl hl, by simp only [New, if_pos hl]⟩
  · have h2 : 2 ≤ sizes.length := by omega
    rcases newLayers_cases maxLen hmax wInit bInit sizes (sizes.length - 1) 0 (by omega) with
      ⟨⟨t, ht, hf⟩, hr⟩ | ⟨hnf, ⟨t, ht, hw⟩, hr⟩ |
      ⟨hnf, hnw, ws, bs, hr, hl1, hl2, hsh⟩
    · left
      rw [Nat.zero_add] at hf
      exact ⟨Or.inr ⟨t, by omega, hf⟩, by simp only [New, if_neg hl, hr]⟩
    · right
      left
      rw [Nat.zero_add] at hw
      refine ⟨h2, ?_, ⟨t, by omega, hw⟩, by simp only [New, if_neg hl, hr]⟩
      intro i hi
      have := hnf i (by omega)
      rwa [Nat.zero_add] at this
    · right
      right
      have hnf1 : ∀ i, i + 1 < sizes.length → ¬ LayerFails maxLen sizes i := by
        intro i hi
        have := hnf i (by omega)
        rwa [Nat.zero_add] at this
      have hsh1 : ∀ i, i + 1 < sizes.length →
          ((Net.W ⟨sizes, bs, ws⟩ i).rows : Int) = sizes.getD (i + 1) 0 ∧
          ((Net.W ⟨sizes, bs, ws⟩ i).cols : Int) = sizes.getD i 0 ∧
          ((Net.B ⟨sizes, bs, ws⟩ i).rows : Int) = sizes.getD (i + 1) 0 ∧
          (Net.B ⟨sizes, bs, ws⟩ i).cols = 1 := by
        intro i hi
        have := hsh i (by omega)
        simpa [Net.W, Net.B, traceAt] using this
      have hpos1 : ∀ j, j < sizes.length → 0 < sizes.getD j 0 := by
        intro j hj
        cases j with
        | zero =>
          have := hnf1 0 (by omega)
          unfold LayerFails at this
          omega
        | succ j =>
          have := hnf1 j hj
          unfold LayerFails at this
          omega
      refine ⟨h2, hnf1, ?_, ⟨sizes, bs, ws⟩, by simp only [New, if_neg hl, hr], rfl, ?_, ?_,
        hsh1, ?_⟩
      · intro i hi
        have := hnw i (by omega)
        rwa [Nat.zero_add] at this
      · show ws.length + 1 = sizes.length
        omega
      · show bs.length + 1 = sizes.length
        omega
      · refine ⟨h2, ?_, ?_, hpos1, ?_⟩
        · show ws.length + 1 = sizes.length
          omega
        · show bs.length + 1 = sizes.length
          omega
        · intro i hi
          have hi1 : i < ws.length := hi
          exact hsh1 i (by omega)

end NewLemmas2

section Claims910
variable {R : Type} [LinearOrderedField R]

theorem layer_fits (maxLen : Nat) (hmax : (maxLen : Int) < 2 ^ 63) (sizes : List Int)
    (hpos : ∀ s, s ∈ sizes → 0 < s)
    (hfit : ∀ i, i < sizes.length - 1 →
      sizes.getD (i + 1) 0 * sizes.getD i 0 ≤ (maxLen : Int)) :
    ∀ i, i + 1 < sizes.length → ¬ LayerFails maxLen sizes i ∧ ¬ LayerWraps sizes i := by
  intro i hi
  have p0 : 0 < sizes.getD i 0 := by
    apply hpos
    rw [List.getD_eq_getElem _ _ (by omega : i < sizes.length)]
    exact List.getElem_mem _
  have p1 : 0 < sizes.getD (i + 1) 0 := by
    apply hpos
    rw [List.getD_eq_getElem _ _ hi]
    exact List.getElem_mem _
  have hf := hfit i (by omega)
  have hprod : 0 < sizes.getD (i + 1) 0 * sizes.getD i 0 := Int.mul_pos p1 p0
  have hle : sizes.getD (i + 1) 0 ≤ sizes.getD (i + 1) 0 * sizes.getD i 0 :=
    le_mul_of_one_le_right (le_of_lt p1) p0
  have hw : wrap64 (sizes.getD (i + 1) 0 * sizes.getD i 0)
      = sizes.getD (i + 1) 0 * sizes.getD i 0 :=
    wrap64_of_range _ (by omega) (by omega)
  constructor
  · unfold LayerFails
    rw [hw]
    omega
  · unfold LayerWraps
    rw [hw]
    exact fun h => h rfl

theorem New_wellShaped (maxLen : Nat) (hmax : (maxLen : Int) < 2 ^ 63)
    (wInit bInit : Nat → Nat → R) (sizes : List Int)
    (h2 : 2 ≤ sizes.length) (hpos : ∀ s, s ∈ sizes → 0 < s)
    (hfit : ∀ i, i < sizes.length - 1 →
      sizes.getD (i + 1) 0 * sizes.getD i 0 ≤ (maxLen : Int)) :
    ∃ n, New maxLen wInit bInit sizes = Built.ok n ∧ n.layers = sizes ∧
      n.weights.length + 1 = sizes.length ∧ n.biases.length + 1 = sizes.length ∧
      (∀ i, i + 1 < sizes.length →
        ((n.W i).rows : Int) = sizes.getD (i + 1) 0 ∧ ((n.W i).cols : Int) = sizes.getD i 0 ∧
        ((n.B i).rows : Int) = sizes.getD (i + 1) 0 ∧ (n.B i).cols = 1) ∧
      WellShaped n := by
  have hfits := layer_fits maxLen hmax sizes hpos hfit
  rcases New_cases maxLen hmax wInit bInit sizes with
    ⟨hbad, -⟩ | ⟨-, -, ⟨i, hi, hw⟩, -⟩ | ⟨-, -, -, h⟩
  · rcases hbad with hl | ⟨i, hi, hf⟩
    · omega
    · exact absurd hf (hfits i hi).1
  · exact absurd hw (hfits i hi).2
  · exact h

theorem New_ok_wellShaped (maxLen : Nat) (hmax : (maxLen : Int) < 2 ^ 63)
    (wInit bInit : Nat → Nat → R) (sizes : List Int) (n : Net R)
    (h : New maxLen wInit bInit sizes = Built.ok n) :
    n.layers = sizes ∧ n.weights.length + 1 = sizes.length ∧ WellShaped n := by
  rcases New_cases maxLen hmax wInit bInit sizes with
    ⟨-, hp⟩ | ⟨-, -, -, hs⟩ | ⟨-, -, -, m, hm, h1, h2, -, -, h5⟩
  · rw [hp] at h
    exact Built.noConfusion h
  · rw [hs] at h
    exact Built.noConfusion h
  · rw [hm] at h
    have e : m = n := Built.ok.inj h
    rw [← e]
    exact ⟨h1, h2, h5⟩

theorem layerFails_of_nonpos (maxLen : Nat) (sizes : List Int) (h2 : 2 ≤ sizes.length)
    (s : Int) (hs : s ∈ sizes) (hs0 : s ≤ 0) :
    ∃ i, i + 1 < sizes.length ∧ LayerFails maxLen sizes i := by
  obtain ⟨j, hj, hjs⟩ := List.getElem_of_mem hs
  have hg : sizes.getD j 0 ≤ 0 := by
    rw [List.getD_eq_getElem _ _ hj, hjs]
    exact hs0
  cases j with
  | zero => exact ⟨0, by omega, Or.inl hg⟩
  | succ j => exact ⟨j, hj, Or.inr (Or.inl hg)⟩

theorem New_panic_first (maxLen : Nat) (wInit bInit : Nat → Nat → R) (si sj : Int)
    (rest : List Int)
    (h : wrap64 (sj * si) < 0 ∨ (maxLen : Int) < wrap64 (sj * si)) :
    New maxLen wInit bInit (si :: sj :: rest) = Built.panic := by
  have hm := makeFloats_none maxLen _ (wInit 0) h
  have hl : newLayer maxLen wInit bInit (si :: sj :: rest) 0 = Built.panic := by
    simp [newLayer, hm]
  simp [New, newLayers, hl]

theorem New_wrapped_product (wInit bInit : Nat → Nat → R) :
    New (2 ^ 45) wInit bInit [2 ^ 62, 4] = Built.short := by
  rcases New_cases (2 ^ 45) (by norm_num) wInit bInit [2 ^ 62, 4] with
    ⟨hbad, -⟩ | ⟨-, -, -, h⟩ | ⟨-, -, hnw, -⟩
  · rcases hbad with hl | ⟨i, hi, hf⟩
    · exact absurd hl (by decide)
    · have hi0 : i = 0 := by
        have : i + 1 < 2 := hi
        omega
      subst hi0
      exact absurd hf (by unfold LayerFails; decide)
  · exact h
  · exact absurd (hnw 0 (by decide)) (by unfold LayerWraps; decide)

/-- C9 (counterexample): for the two positive sizes `1 << 62, 2` the `int` product
`sizes[1] * sizes[0]` wraps around to `-(1 << 63)` and `New` panics, whatever the machine can
allocate. -/
theorem New_huge_panics :
    (∀ s, s ∈ [(2 : Int) ^ 62, 2] → 0 < s) ∧
    ∀ maxLen : Nat, New maxLen (fun _ _ => (0 : ℝ)) (fun _ _ => 0) [2 ^ 62, 2] = Built.panic :=
  ⟨by decide, fun maxLen => New_panic_first maxLen _ _ (2 ^ 62) 2 [] (Or.inl (by decide))⟩

/-- C9 (amended): `New` panics exactly when fewer than two sizes are given, or some size is not
positive, or, for some layer, the `int` product `sizes[i+1] * sizes[i]` is negative or exceeds
the length of the longest slice the machine allocates, or `sizes[i+1]` exceeds it; in every
other case it returns.  When all sizes are positive and every true product
`sizes[i+1] * sizes[i]` is at most that length, it returns a network with these layer sizes. -/
theorem New_fails_iff (maxLen : Nat) (hmax : (maxLen : Int) < 2 ^ 63)
    (wInit bInit : Nat → Nat → R) (sizes : List Int) :
    (New maxLen wInit bInit sizes = Built.panic ↔
      (sizes.length < 2 ∨ (∃ s, s ∈ sizes ∧ s ≤ 0) ∨
        ∃ i, i + 1 < sizes.length ∧
          (wrap64 (sizes.getD (i + 1) 0 * sizes.getD i 0) < 0 ∨
            (maxLen : Int) < wrap64 (sizes.getD (i + 1) 0 * sizes.getD i 0) ∨
            (maxLen : Int) < sizes.getD (i + 1) 0))) ∧
    (2 ≤ sizes.length → (∀ s, s ∈ sizes → 0 < s) →
      (∀ i, i < sizes.length - 1 →
        sizes.getD (i + 1) 0 * sizes.getD i 0 ≤ (maxLen : Int)) →
      ∃ n, New maxLen wInit bInit sizes = Built.ok n ∧ n.layers = sizes ∧ WellShaped n) := by
  constructor
  · constructor
    · intro h
      rcases New_cases maxLen hmax wInit bInit sizes with
        ⟨hbad, -⟩ | ⟨-, -, -, hs⟩ | ⟨-, -, -, m, hm, -⟩
      · rcases hbad with hl | ⟨i, hi, hf⟩
        · exact Or.inl hl
        · rcases hf with h0 | h1 | h3 | h4 | h5
          · right
            left
            refine ⟨sizes.getD i 0, ?_, h0⟩
            rw [List.getD_eq_getElem _ _ (by omega : i < sizes.length)]
            exact List.getElem_mem _
          · right
            left
            refine ⟨sizes.getD (i + 1) 0, ?_, h1⟩
            rw [List.getD_eq_getElem _ _ hi]
            exact List.getElem_mem _
          · exact Or.inr (Or.inr ⟨i, hi, Or.inl h3⟩)
          · exact Or.inr (Or.inr ⟨i, hi, Or.inr (Or.inl h4)⟩)
          · exact Or.inr (Or.inr ⟨i, hi, Or.inr (Or.inr h5)⟩)
      · rw [hs] at h
        exact Built.noConfusion h
      · rw [hm] at h
        exact Built.noConfusion h
    · intro h
      have hbad : sizes.length < 2 ∨
          ∃ i, i + 1 < sizes.length ∧ LayerFails maxLen sizes i := by
        by_cases hl : sizes.length < 2
        · exact Or.inl hl
        · right
          rcases h with h | ⟨s, hs, hs0⟩ | ⟨i, hi, hf⟩
          · exact absurd h hl
          · exact layerFails_of_nonpos maxLen sizes (by omega) s hs hs0
          · refine ⟨i, hi, ?_⟩
            unfold LayerFails
            omega
      rcases New_cases maxLen hmax wInit bInit sizes with
        ⟨-, hp⟩ | ⟨h2, hnf, -, -⟩ | ⟨h2, hnf, -, -⟩
      · exact hp
      · rcases hbad with hl | ⟨i, hi, hf⟩
        · omega
        · exact absurd hf (hnf i hi)
      · rcases hbad with hl | ⟨i, hi, hf⟩
        · omega
        · exact absurd hf (hnf i hi)
  · intro h2 hpos hfit
    obtain ⟨n, h1, h3, -, -, -, h7⟩ := New_wellShaped maxLen hmax wInit bInit sizes h2 hpos hfit
    exact ⟨n, h1, h3, h7⟩

/-- Witness of C9: with slices of up to `1 << 45` entries, `New(3, 0)` panics and
`New(784, 20, 20, 10)`, the call of `main.go`, returns a network. -/
theorem New_fails_iff_witness :
    New (2 ^ 45) (fun _ _ => (0 : ℝ)) (fun _ _ => 0) [3, 0] = Built.panic ∧
    ∃ n, New (2 ^ 45) (fun _ _ => (0 : ℝ)) (fun _ _ => 0) [784, 20, 20, 10] = Built.ok n ∧
      n.layers = [784, 20, 20, 10] ∧ WellShaped n :=
  ⟨(New_fails_iff (2 ^ 45) (by norm_num) (fun _ _ => (0 : ℝ)) (fun _ _ => 0) [3, 0]).1.mpr
      (Or.inr (Or.inl ⟨0, by decide, by decide⟩)),
    (New_fails_iff (2 ^ 45) (by norm_num) (fun _ _ => (0 : ℝ)) (fun _ _ => 0)
      [784, 20, 20, 10]).2 (by decide) (by decide) (by decide)⟩

theorem sameShape_traceAt : ∀ (l1 l2 : List (Dense R)), List.Forall₂ SameShape l1 l2 →
    ∀ i, (traceAt l2 i).rows = (traceAt l1 i).rows ∧
      (traceAt l2 i).cols = (traceAt l1 i).cols := by
  intro l1 l2 h
  induction h with
  | nil =>
    intro i
    exact ⟨rfl, rfl⟩
  | cons hab _ ih =>
    intro i
    cases i with
    | zero => exact ⟨hab.1, hab.2.1⟩
    | succ i => simpa [traceAt_cons_succ] using ih i

theorem gradientDescent_wellShaped (exp : R → R) (n : Net R) (hn : WellShaped n)
    (x y : List (Dense R)) (alpha : R) (hne : 0 < x.length) (hlen : x.length = y.length)
    (hsh : ∀ s, s < x.length → ColShaped (traceAt x s) (n.size 0) ∧
      ColShaped (traceAt y s) (n.size n.weights.length)) :
    ∃ n1, gradientDescent exp n x y alpha = some n1 ∧ n1.layers = n.layers ∧
      n1.weights.length = n.weights.length ∧ n1.biases.length = n.biases.length ∧
      (∀ i, (n1.W i).rows = (n.W i).rows ∧ (n1.W i).cols = (n.W i).cols ∧
        (n1.B i).rows = (n.B i).rows ∧ (n1.B i).cols = (n.B i).cols) ∧
      WellShaped n1 := by
  obtain ⟨n1, hgd, hlay, hW, hB, -⟩ := gradientDescent_spec exp n hn x y alpha hne hlen hsh
  have hshape : ∀ i, (n1.W i).rows = (n.W i).rows ∧ (n1.W i).cols = (n.W i).cols ∧
      (n1.B i).rows = (n.B i).rows ∧ (n1.B i).cols = (n.B i).cols := by
    intro i
    obtain ⟨a1, a2⟩ := sameShape_traceAt _ _ hW i
    obtain ⟨b1, b2⟩ := sameShape_traceAt _ _ hB i
    exact ⟨a1, a2, b1, b2⟩
  have hsize : ∀ i, n1.size i = n.size i := fun i => by simp only [Net.size, hlay]
  refine ⟨n1, hgd, hlay, hW.length_eq.symm, hB.length_eq.symm, hshape, ?_⟩
  obtain ⟨h2, hw, hb, hpos, hs⟩ := hn
  refine ⟨by rw [hlay]; exact h2, by rw [hlay, ← hW.length_eq]; exact hw,
    by rw [hlay, ← hB.length_eq]; exact hb, ?_, ?_⟩
  · intro i hi
    rw [hsize]
    exact hpos i (by rw [← hlay]; exact hi)
  · intro i hi
    obtain ⟨c1, c2, c3, c4⟩ := hshape i
    rw [c1, c2, c3, c4, hsize, hsize]
    exact hs i (by rw [hW.length_eq]; exact hi)

/-- C10 (counterexample): for the two positive sizes `1 << 32, 1 << 31` the `int` product
`sizes[1] * sizes[0]` wraps around to `-(1 << 63)` and `New` panics instead of returning a
network, whatever the machine can allocate. -/
theorem New_overflow_panics :
    (∀ s, s ∈ [(2 : Int) ^ 32, 2 ^ 31] → 0 < s) ∧
    ∀ maxLen : Nat,
      New maxLen (fun _ _ => (0 : ℝ)) (fun _ _ => 0) [2 ^ 32, 2 ^ 31] = Built.panic :=
  ⟨by decide,
    fun maxLen => New_panic_first maxLen _ _ (2 ^ 32) (2 ^ 31) [] (Or.inl (by decide))⟩

/-- C10 (amended): for two or more positive sizes in which every product
`sizes[i+1] * sizes[i]` is at most the length of the longest slice the machine allocates (so
that no product wraps around), `New` returns a network with `len(weights) = len(biases) =
len(sizes) - 1`, `weights[i]` of shape `(sizes[i+1], sizes[i])` and `biases[i]` of shape
`(sizes[i+1], 1)`; and `gradientDescent` on a network satisfying the shape invariant and a
well-shaped non-empty batch returns a network with the same layer sizes, the same number of
weight and bias matrices and the same shape for each of them. -/
theorem shape_invariant (exp : R → R) (maxLen : Nat) (wInit bInit : Nat → Nat → R)
    (sizes : List Int) (hmax : (maxLen : Int) < 2 ^ 63)
    (h2 : 2 ≤ sizes.length) (hpos : ∀ s, s ∈ sizes → 0 < s)
    (hfit : ∀ i, i < sizes.length - 1 →
      sizes.getD (i + 1) 0 * sizes.getD i 0 ≤ (maxLen : Int)) :
    (∃ n, New maxLen wInit bInit sizes = Built.ok n ∧ n.layers = sizes ∧
      n.weights.length = sizes.length - 1 ∧ n.biases.length = sizes.length - 1 ∧
      (∀ i, i + 1 < sizes.length →
        ((n.W i).rows : Int) = sizes.getD (i + 1) 0 ∧ ((n.W i).cols : Int) = sizes.getD i 0 ∧
        ((n.B i).rows : Int) = sizes.getD (i + 1) 0 ∧ (n.B i).cols = 1) ∧
      WellShaped n) ∧
    ∀ (m : Net R) (x y : List (Dense R)) (alpha : R), WellShaped m → 0 < x.length →
      x.length = y.length →
      (∀ s, s < x.length → ColShaped (traceAt x s) (m.size 0) ∧
        ColShaped (traceAt y s) (m.size m.weights.length)) →
      ∃ m1, gradientDescent exp m x y alpha = some m1 ∧ m1.layers = m.layers ∧
        m1.weights.length = m.weights.length ∧ m1.biases.length = m.biases.length ∧
        (∀ i, (m1.W i).rows = (m.W i).rows ∧ (m1.W i).cols = (m.W i).cols ∧
          (m1.B i).rows = (m.B i).rows ∧ (m1.B i).cols = (m.B i).cols) ∧
        WellShaped m1 := by
  constructor
  · obtain ⟨n, h1, h3, h4, h5, h6, h7⟩ :=
      New_wellShaped maxLen hmax wInit bInit sizes h2 hpos hfit
    exact ⟨n, h1, h3, by omega, by omega, h6, h7⟩
  · intro m x y alpha hm hne hlen hsh
    exact gradientDescent_wellShaped exp m hm x y alpha hne hlen hsh

/-- Witness of C10: the sizes `5, 10, 5, 2` of `TestNetwork_Cost`, with slices of up to
`1 << 45` entries. -/
theorem shape_invariant_witness :
    ∃ n, New (2 ^ 45) (fun _ _ => (0 : ℝ)) (fun _ _ => 0) [5, 10, 5, 2] = Built.ok n ∧
      n.weights.length = 3 ∧ n.biases.length = 3 ∧ WellShaped n := by
  obtain ⟨n, h1, -, h3, h4, -, h6⟩ :=
    (shape_invariant Real.exp (2 ^ 45) (fun _ _ => (0 : ℝ)) (fun _ _ => 0) [5, 10, 5, 2]
      (by norm_num) (by decide) (by decide) (by decide)).1
  exact ⟨n, h1, h3, h4, h6⟩

end Claims910

section Claim11
variable {R : Type} [LinearOrderedField R]

theorem ptrShape_getElem? : ∀ (ws : List (Dense R)) (g : List (Option (Dense R))),
    List.Forall₂ PtrShape ws g → ∀ i, i < ws.length →
    ∃ d, g[i]? = some (some d) ∧ d.rows = (traceAt ws i).rows ∧
      d.cols = (traceAt ws i).cols := by
  intro ws g h
  induction h with
  | nil =>
    intro i hi
    exact absurd hi (Nat.not_lt_zero i)
  | cons hab _ ih =>
    intro i hi
    cases i with
    | zero =>
      obtain ⟨d, rfl, h1, h2, -, -⟩ := hab
      exact ⟨d, by simp, h1, h2⟩
    | succ i =>
      obtain ⟨d, h1, h2, h3⟩ := ih i (by simpa using hi)
      exact ⟨d, by simpa using h1, by simpa [traceAt_cons_succ] using h2,
        by simpa [traceAt_cons_succ] using h3⟩

theorem backward_total (exp : R → R) (n : Net R) (x y : Dense R) (hn : WellShaped n)
    (hx : ColShaped x (n.size 0)) (hy : ColShaped y (n.size n.weights.length)) :
    ∃ dW dB, backward exp n x y = some (dW, dB) ∧
      dW.length = n.weights.length ∧ dB.length = n.weights.length ∧
      ∀ i, i < n.weights.length → ∃ gw gb,
        dW[i]? = some (some gw) ∧ dB[i]? = some (some gb) ∧
        gw.rows = (n.W i).rows ∧ gw.cols = (n.W i).cols ∧
        gb.rows = (n.B i).rows ∧ gb.cols = (n.B i).cols := by
  obtain ⟨dW, dB, hb, hW, hB⟩ := backward_shaped exp n hn x y hx hy
  have hbl : n.biases.length = n.weights.length := by
    have := hn.2.1
    have := hn.2.2.1
    omega
  refine ⟨dW, dB, hb, hW.length_eq.symm, by rw [← hB.length_eq, hbl], ?_⟩
  intro i hi
  obtain ⟨gw, e1, e2, e3⟩ := ptrShape_getElem? _ _ hW i hi
  obtain ⟨gb, f1, f2, f3⟩ := ptrShape_getElem? _ _ hB i (by omega)
  exact ⟨gw, gb, e1, f1, e2, e3, f2, f3⟩

/-- C11: for every network satisfying the shape invariant, every input `x` of shape
`(sizes[0], 1)` and every target `y` of shape `(sizes[L], 1)`, `backward` returns (no shape or
index panic) slices `dW`, `dB` of length `L` whose entries are non-nil, `dW[i]` with the shape
of `W[i]` and `dB[i]` with the shape of `B[i]`; and every network that `New` returns with all
the entries of its matrices satisfies the shape invariant, so `backward` returns on it. -/
theorem backward_completes (exp : R → R) :
    (∀ (n : Net R) (x y : Dense R), WellShaped n → ColShaped x (n.size 0) →
      ColShaped y (n.size n.weights.length) →
      ∃ dW dB, backward exp n x y = some (dW, dB) ∧
        dW.length = n.weights.length ∧ dB.length = n.weights.length ∧
        ∀ i, i < n.weights.length → ∃ gw gb,
          dW[i]? = some (some gw) ∧ dB[i]? = some (some gb) ∧
          gw.rows = (n.W i).rows ∧ gw.cols = (n.W i).cols ∧
          gb.rows = (n.B i).rows ∧ gb.cols = (n.B i).cols) ∧
    (∀ (maxLen : Nat) (wInit bInit : Nat → Nat → R) (sizes : List Int) (n : Net R)
      (x y : Dense R), (maxLen : Int) < 2 ^ 63 →
      New maxLen wInit bInit sizes = Built.ok n → ColShaped x (sizes.getD 0 0) →
      ColShaped y (sizes.getD (sizes.length - 1) 0) →
      WellShaped n ∧ ∃ dW dB, backward exp n x y = some (dW, dB) ∧
        dW.length = sizes.length - 1 ∧ dB.length = sizes.length - 1 ∧
        ∀ i, i < n.weights.length → ∃ gw gb,
          dW[i]? = some (some gw) ∧ dB[i]? = some (some gb) ∧
          gw.rows = (n.W i).rows ∧ gw.cols = (n.W i).cols ∧
          gb.rows = (n.B i).rows ∧ gb.cols = (n.B i).cols) := by
  constructor
  · intro n x y hn hx hy
    exact backward_total exp n x y hn hx hy
  · intro maxLen wInit bInit sizes n x y hmax hnew hx hy
    obtain ⟨hlay, hwl, hn⟩ := New_ok_wellShaped maxLen hmax wInit bInit sizes n hnew
    have hx1 : ColShaped x (n.size 0) := by
      simpa [Net.size, hlay] using hx
    have hy1 : ColShaped y (n.size n.weights.length) := by
      have e : n.weights.length = sizes.length - 1 := by omega
      simpa [Net.size, hlay, e] using hy
    obtain ⟨dW, dB, hb, h3, h4, h5⟩ := backward_total exp n x y hn hx1 hy1
    exact ⟨hn, dW, dB, hb, by omega, by omega, h5⟩

/-- Witness of C11: the call of `TestNetwork_Cost`, `New(5, 10, 5, 2)` with a 5-row input and a
2-row target, with slices of up to `1 << 45` entries. -/
theorem backward_completes_witness :
    ∃ n, New (2 ^ 45) (fun _ _ => (0 : ℝ)) (fun _ _ => 0) [5, 10, 5, 2] = Built.ok n ∧
      WellShaped n ∧
      (backward Real.exp n (Dense.ofList 5 1 [0.9, 0.3, 0.56, 0.93, 0.23])
        (Dense.ofList 2 1 [1, 0])).isSome = true := by
  obtain ⟨n, hn, -⟩ := New_wellShaped (2 ^ 45) (by norm_num) (fun _ _ => (0 : ℝ))
    (fun _ _ => 0) [5, 10, 5, 2] (by decide) (by decide) (by decide)
  obtain ⟨hw, dW, dB, h3, -⟩ :=
    (backward_completes Real.exp).2 (2 ^ 45) (fun _ _ => (0 : ℝ)) (fun _ _ => 0) [5, 10, 5, 2]
      n (Dense.ofList 5 1 [0.9, 0.3, 0.56, 0.93, 0.23]) (Dense.ofList 2 1 [1, 0])
      (by norm_num) hn ⟨rfl, rfl⟩ ⟨rfl, rfl⟩
  exact ⟨n, hn, hw, by rw [h3]; rfl⟩

end Claim11

section Claims13
variable {R : Type} [LinearOrderedField R]

/-- C13: for every weight `w`, bias `b` and input `x`, `forward` on the network with layers
`[1, 1]`, weights `[[w]]` and biases `[[b]]` returns, and its last activation (the value of
`Predict`) is the `1 × 1` matrix holding `sigmoid(w·x + b)`; for `x = 7`, `w = 4`, `b = -25`
this is `sigmoid(3)`. -/
theorem forward11_output (exp : R → R) (w b x : R) :
    ∃ a z, forward exp (net11 w b) (x11 x) = some (a, z) ∧ a.length = 2 ∧
      Predict exp (net11 w b) (x11 x) = some (traceAt a 1) ∧
      (traceAt a 1).rows = 1 ∧ (traceAt a 1).cols = 1 ∧
      (traceAt a 1).elem 0 0 = sigmoid exp (w * x + b) ∧
      (w = 4 → b = -25 → x = 7 → (traceAt a 1).elem 0 0 = sigmoid exp 3) := by
  have hn : WellShaped (net11 w b) := of_decide_eq_true rfl
  obtain ⟨a, z, hf, hp, hal, -, ha0, hash, hent⟩ :=
    forward_entry exp (net11 w b) hn (x11 x) ⟨rfl, rfl⟩
  obtain ⟨-, hj⟩ := hent 0 Nat.zero_lt_one
  obtain ⟨hz, ha⟩ := hj 0
  obtain ⟨hr, hc⟩ := hash 1 (le_refl 1)
  have hval : (traceAt a 1).elem 0 0 = sigmoid exp (w * x + b) := by
    rw [ha, hz, ha0]
    simp [net11, x11, Net.W, Net.B, Dense.ofList]
  refine ⟨a, z, hf, hal, hp, ?_, hc, hval, ?_⟩
  · have h1 : (net11 w b).size 1 = 1 := rfl
    omega
  · intro h1 h2 h3
    rw [hval, h1, h2, h3]
    norm_num

/-- Witness of C13: the values of `TestNetwork_Forward11`. -/
theorem forward11_output_witness :
    ∃ a z, forward Real.exp (net11 (4 : ℝ) (-25)) (x11 7) = some (a, z) ∧
      (traceAt a 1).elem 0 0 = sigmoid Real.exp 3 := by
  obtain ⟨a, z, hf, -, -, -, -, -, h⟩ := forward11_output Real.exp (4 : ℝ) (-25) 7
  exact ⟨a, z, hf, h rfl rfl rfl⟩

/-- C19: for a network of consistent shapes and a well-shaped input, the weighted sum that
`forward` computes for unit `j` of layer `i` is `(Σ_k W[i][j,k]·a[i][k]) + B[i][0]`: the bias
added is the first entry of the layer's bias vector, whatever `j` is (the `Apply` callback
indexes the bias by the column index of the single-column result). -/
theorem forward_adds_first_bias (exp : R → R) (n : Net R) (x : Dense R) (hn : WellShaped n)
    (hx : ColShaped x (n.size 0)) :
    ∃ a z, forward exp n x = some (a, z) ∧ a.length = n.weights.length + 1 ∧
      z.length = n.weights.length ∧ traceAt a 0 = x ∧
      ∀ i, i < n.weights.length → ∀ j,
        (traceAt z i).elem j 0 =
          (∑ k in Finset.range (n.W i).cols, (n.W i).elem j k * (traceAt a i).elem k 0)
            + (n.B i).elem 0 0 ∧
        (traceAt a (i + 1)).elem j 0 = sigmoid exp ((traceAt z i).elem j 0) := by
  obtain ⟨a, z, hf, -, hal, hzl, ha0, -, hent⟩ := forward_entry exp n hn x hx
  exact ⟨a, z, hf, hal, hzl, ha0, fun i hi j => (hent i hi).2 j⟩

/-- Witness of C19: the network of `TestNetwork_Forward32`, whose second unit gets the bias
`-5` of the first. -/
theorem forward_adds_first_bias_witness :
    ∃ a z, forward Real.exp (net32 : Net ℝ) x32 = some (a, z) ∧
      (traceAt z 0).elem 1 0 =
        (∑ k in Finset.range 3, ((net32 : Net ℝ).W 0).elem 1 k * (x32 : Dense ℝ).elem k 0)
          + (-5) := by
  obtain ⟨a, z, hf, -, -, ha0, h⟩ :=
    forward_adds_first_bias Real.exp (net32 : Net ℝ) x32 (by decide) (by decide)
  refine ⟨a, z, hf, ?_⟩
  rw [(h 0 (by decide) 1).1, ha0]
  simp [net32, Net.W, Net.B, Dense.ofList]

/-- C15: for every network, training set, validation set, `batchSize` and learning rate,
`Train` called with `epochs = 0` returns normally with the network (every weight and bias) and
the training set exactly as they were passed. -/
theorem Train_zero_epochs (exp : R → R) (rnd : Nat → Nat → Nat) (n : Net R)
    (data validation : DataSet R) (batchSize : Int) (alpha : R) :
    Train exp rnd n data validation batchSize 0 alpha = Run.ok (n, data) :=
  rfl

end Claims13

section Claim20

theorem hasDerivAt_sigmoid (x : ℝ) :
    HasDerivAt (sigmoid Real.exp) (sigmoidPrime Real.exp x) x := by
  have hpos : (1 : ℝ) + Real.exp (-x) ≠ 0 := by positivity
  have h1 : HasDerivAt (fun t : ℝ => Real.exp (-t)) (Real.exp (-x) * (-1)) x :=
    (Real.hasDerivAt_exp (-x)).comp x (hasDerivAt_neg x)
  have h2 : HasDerivAt (fun t : ℝ => 1 + Real.exp (-t)) (Real.exp (-x) * (-1)) x := by
    simpa using h1.const_add 1
  have h3 := (hasDerivAt_const x (1 : ℝ)).div h2 hpos
  have hfun : sigmoid Real.exp = fun t : ℝ => 1 / (1 + Real.exp (-t)) := rfl
  rw [hfun]
  convert h3 using 1
  simp only [sigmoidPrime, sigmoid]
  field_simp
  ring

/-- C20: over the reals, with `sigmoid(t) = 1 / (1 + exp(-t))`, the function `sigmoid` is
differentiable at every `x` with derivative `sigmoidPrime(x) = sigmoid(x) · (1 - sigmoid(x))`,
and `0 < sigmoid(x) < 1`. -/
theorem sigmoidPrime_is_derivative (x : ℝ) :
    HasDerivAt (sigmoid Real.exp) (sigmoidPrime Real.exp x) x ∧
    sigmoidPrime Real.exp x = sigmoid Real.exp x * (1 - sigmoid Real.exp x) ∧
    0 < sigmoid Real.exp x ∧ sigmoid Real.exp x < 1 := by
  have he : 0 < Real.exp (-x) := Real.exp_pos _
  refine ⟨hasDerivAt_sigmoid x, rfl, ?_, ?_⟩
  · unfold sigmoid
    positivity
  · unfold sigmoid
    rw [div_lt_one (by positivity)]
    linarith

end Claim20

section SwapPerm
variable {α β : Type}

theorem set_cons_perm : ∀ (xs : List α) (j : Nat) (b x : α), xs[j]? = some b →
    (b :: xs.set j x).Perm (x :: xs) := by
  intro xs
  induction xs with
  | nil =>
    intro j b x h
    simp at h
  | cons y ys ih =>
    intro j b x h
    cases j with
    | zero =>
      simp only [List.getElem?_cons_zero, Option.some.injEq] at h
      subst h
      simp only [List.set_cons_zero]
      exact List.Perm.swap _ _ _
    | succ j =>
      simp only [List.getElem?_cons_succ] at h
      simp only [List.set_cons_succ]
      exact ((List.Perm.swap y b _).trans ((ih j b x h).cons y)).trans (List.Perm.swap x y ys)

theorem swapAt_perm : ∀ (l l1 : List α) (i j : Nat), swapAt l i j = some l1 → l1.Perm l := by
  intro l
  induction l with
  | nil =>
    intro l1 i j h
    simp [swapAt] at h
  | cons x xs ih =>
    intro l1 i j h
    unfold swapAt at h
    split at h
    · rename_i a b ha hb
      simp only [Option.some.injEq] at h
      subst h
      cases i with
      | zero =>
        simp only [List.getElem?_cons_zero, Option.some.injEq] at ha
        subst ha
        cases j with
        | zero =>
          simp only [List.getElem?_cons_zero, Option.some.injEq] at hb
          subst hb
          simp
        | succ j =>
          simp only [List.getElem?_cons_succ] at hb
          simp only [List.set_cons_zero, List.set_cons_succ]
          exact set_cons_perm xs j b _ hb
      | succ i =>
        simp only [List.getElem?_cons_succ] at ha
        cases j with
        | zero =>
          simp only [List.getElem?_cons_zero, Option.some.injEq] at hb
          subst hb
          simp only [List.set_cons_zero, List.set_cons_succ]
          exact set_cons_perm xs i a _ ha
        | succ j =>
          simp only [List.getElem?_cons_succ] at hb
          simp only [List.set_cons_succ]
          apply List.Perm.cons
          apply ih _ i j
          simp only [swapAt, ha, hb]
    · exact absurd h (by simp)

theorem zip_set : ∀ (d : List α) (l : List β) (i : Nat) (u : α) (v : β),
    List.zip (d.set i u) (l.set i v) = (List.zip d l).set i (u, v) := by
  intro d
  induction d with
  | nil =>
    intro l i u v
    simp
  | cons x xs ih =>
    intro l i u v
    cases l with
    | nil => simp
    | cons y ys =>
      cases i with
      | zero => simp
      | succ i => simp [ih]

theorem swapAt_zip (d d1 : List α) (l l1 : List β) (i j : Nat)
    (hd : swapAt d i j = some d1) (hl : swapAt l i j = some l1) :
    swapAt (List.zip d l) i j = some (List.zip d1 l1) := by
  unfold swapAt at hd hl
  split at hd
  · rename_i a b ha hb
    split at hl
    · rename_i a1 b1 ha1 hb1
      simp only [Option.some.injEq] at hd hl
      subst hd
      subst hl
      have e1 : (List.zip d l)[i]? = some (a, a1) := by
        rw [List.getElem?_zip_eq_some]
        exact ⟨ha, ha1⟩
      have e2 : (List.zip d l)[j]? = some (b, b1) := by
        rw [List.getElem?_zip_eq_some]
        exact ⟨hb, hb1⟩
      simp only [swapAt, e1, e2, zip_set]
    · exact absurd hl (by simp)
  · exact absurd hd (by simp)

theorem swapAt_some (l : List α) (i j : Nat) (hi : i < l.length) (hj : j < l.length) :
    ∃ l1, swapAt l i j = some l1 := by
  simp [swapAt, List.getElem?_eq_getElem hi, List.getElem?_eq_getElem hj]

end SwapPerm

section ShufflePerm
variable {R : Type}

theorem shuffleLoop_perm (rnd : Nat → Nat) : ∀ (i : Nat) (d l : List (Dense R)),
    d.length = l.length → (i = 0 ∨ i < d.length) →
    ∃ d1 l1, shuffleLoop rnd i d l = some (d1, l1) ∧ d1.length = l1.length ∧
      (List.zip d1 l1).Perm (List.zip d l) := by
  intro i
  induction i with
  | zero =>
    intro d l hlen _
    exact ⟨d, l, rfl, hlen, List.Perm.refl _⟩
  | succ i ih =>
    intro d l hlen hi
    have hi1 : i + 1 < d.length := by
      rcases hi with h | h
      · exact absurd h (Nat.succ_ne_zero i)
      · exact h
    have hj : rnd (i + 1) % (i + 2) < d.length := by
      have : rnd (i + 1) % (i + 2) < i + 2 := Nat.mod_lt _ (by omega)
      omega
    obtain ⟨d2, hd2⟩ := swapAt_some d (i + 1) _ hi1 hj
    obtain ⟨l2, hl2⟩ := swapAt_some l (i + 1) _ (hlen ▸ hi1) (hlen ▸ hj)
    have hz := swapAt_zip d d2 l l2 _ _ hd2 hl2
    have hlen2 : d2.length = l2.length := by
      rw [swapAt_length _ _ _ _ hd2, swapAt_length _ _ _ _ hl2, hlen]
    obtain ⟨d1, l1, hrun, hl1, hperm⟩ := ih d2 l2 hlen2 (by
      rw [swapAt_length _ _ _ _ hd2]
      omega)
    refine ⟨d1, l1, ?_, hl1, hperm.trans (swapAt_perm _ _ _ _ hz)⟩
    simp only [shuffleLoop, hd2, hl2, hrun]

theorem shuffle_perm (rnd : Nat → Nat) (data : DataSet R)
    (hlen : data.Data.len = data.Labels.len) :
    ∃ data1, shuffle rnd data = some data1 ∧ data1.Data.len = data1.Labels.len ∧
      data1.Data.spare = data.Data.spare ∧ data1.Labels.spare = data.Labels.spare ∧
      (List.zip data1.Data.elems data1.Labels.elems).Perm
        (List.zip data.Data.elems data.Labels.elems) := by
  obtain ⟨d1, l1, hrun, hl1, hperm⟩ := shuffleLoop_perm rnd (data.Data.len - 1)
    data.Data.elems data.Labels.elems hlen (by
      simp only [Slice.len]
      omega)
  refine ⟨⟨⟨d1, data.Data.spare⟩, ⟨l1, data.Labels.spare⟩⟩, ?_, hl1, rfl, rfl, hperm⟩
  simp only [shuffle, hrun]

end ShufflePerm

section TrainPerm
variable {R : Type} [LinearOrderedField R]

theorem trainEpochs_perm (exp : R → R) (rnd : Nat → Nat → Nat) (validation : DataSet R)
    (batchSize : Int) (alpha : R) :
    ∀ (k e : Nat) (n : Net R) (data : DataSet R) (n1 : Net R) (data1 : DataSet R),
      data.Data.len = data.Labels.len →
      trainEpochs exp rnd validation batchSize alpha k e n data = Run.ok (n1, data1) →
      (List.zip data1.Data.elems data1.Labels.elems).Perm
        (List.zip data.Data.elems data.Labels.elems) := by
  intro k
  induction k with
  | zero =>
    intro e n data n1 data1 _ h
    simp only [trainEpochs, Run.ok.injEq, Prod.mk.injEq] at h
    rw [h.2]
  | succ k ih =>
    intro e n data n1 data1 hlen h
    obtain ⟨data2, hs, hlen2, -, -, hperm⟩ := shuffle_perm (rnd e) data hlen
    simp only [trainEpochs, hs] at h
    split at h
    · exact absurd h (by simp)
    · exact absurd h (by simp)
    · split at h
      · split at h
        · exact absurd h (by simp)
        · exact (ih _ _ _ _ _ hlen2 h).trans hperm
      · exact (ih _ _ _ _ _ hlen2 h).trans hperm

end TrainPerm

section RefLists
variable {α : Type}

theorem elems_getElem? (s : SliceRef) (m : List α) (k : Nat) :
    (s.elems m)[k]? = if k < s.len then m[s.off + k]? else none := by
  unfold SliceRef.elems
  rw [List.getElem?_take]
  split
  · rw [List.getElem?_drop]
  · rfl

theorem elems_length (s : SliceRef) (m : List α) (h : s.off + s.len ≤ m.length) :
    (s.elems m).length = s.len := by
  unfold SliceRef.elems
  rw [List.length_take, List.length_drop]
  omega

theorem elems_congr (s : SliceRef) (m m1 : List α)
    (h : ∀ q, s.off ≤ q → q < s.off + s.len → m1[q]? = m[q]?) :
    s.elems m1 = s.elems m := by
  apply List.ext_getElem?
  intro k
  rw [elems_getElem?, elems_getElem?]
  split
  · exact h _ (by omega) (by omega)
  · rfl

theorem swapRef_spec (m : List α) (s : SliceRef) (i j : Nat)
    (hv : s.off + s.len ≤ m.length) (hi : i < s.len) (hj : j < s.len) :
    ∃ m1, swapRef m s i j = some m1 ∧ m1.length = m.length ∧
      (∀ q, (q < s.off ∨ s.off + s.len ≤ q) → m1[q]? = m[q]?) ∧
      swapAt (s.elems m) i j = some (s.elems m1) := by
  have hi1 : s.off + i < m.length := by omega
  have hj1 : s.off + j < m.length := by omega
  refine ⟨(m.set (s.off + i) m[s.off + j]).set (s.off + j) m[s.off + i], ?_, by simp, ?_, ?_⟩
  · simp only [swapRef, if_pos (And.intro hi hj), List.getElem?_eq_getElem hi1,
      List.getElem?_eq_getElem hj1]
  · intro q hq
    rw [List.getElem?_set_ne (by omega), List.getElem?_set_ne (by omega)]
  · have e1 : (s.elems m)[i]? = some m[s.off + i] := by
      rw [elems_getElem?, if_pos hi, List.getElem?_eq_getElem hi1]
    have e2 : (s.elems m)[j]? = some m[s.off + j] := by
      rw [elems_getElem?, if_pos hj, List.getElem?_eq_getElem hj1]
    simp only [swapAt, e1, e2, Option.some.injEq]
    apply List.ext_getElem?
    intro k
    rw [elems_getElem?]
    simp only [List.getElem?_set, elems_getElem?]
    by_cases hk : k < s.len
    · simp only [if_pos hk]
      by_cases hkj : j = k
      · subst hkj
        simp [elems_length s m hv, hj, hj1]
      · by_cases hki : i = k
        · subst hki
          simp [elems_length s m hv, hi, hi1, hkj]
        · have a1 : ¬ s.off + j = s.off + k := by omega
          have a2 : ¬ s.off + i = s.off + k := by omega
          simp [hkj, hki, a1, a2, hk]
    · have hl := elems_length s m hv
      by_cases hkj : j = k
      · omega
      · by_cases hki : i = k
        · omega
        · simp [hkj, hki, hk]

end RefLists

section RefShuffle
variable {R : Type}

theorem swapAt_none_of_ge {α : Type} (l : List α) (i j : Nat)
    (h : ¬ (i < l.length ∧ j < l.length)) : swapAt l i j = none := by
  unfold swapAt
  by_cases hi : i < l.length
  · have hj : ¬ j < l.length := fun hj => h ⟨hi, hj⟩
    rw [List.getElem?_eq_none (by omega : l.length ≤ j)]
    cases l[i]? <;> rfl
  · rw [List.getElem?_eq_none (by omega : l.length ≤ i)]

theorem swapRef_none {α : Type} (m : List α) (s : SliceRef) (i j : Nat)
    (h : ¬ (i < s.len ∧ j < s.len)) : swapRef m s i j = none := by
  unfold swapRef
  rw [if_neg h]

theorem shuffleLoopRef_sim (rnd : Nat → Nat) (d : DataRef) (hap : d.Data.Apart d.Labels) :
    ∀ (i : Nat) (m : List (Dense R)), d.Data.off + d.Data.len ≤ m.length →
      d.Labels.off + d.Labels.len ≤ m.length →
      match shuffleLoopRef rnd d i m with
      | none => shuffleLoop rnd i (d.Data.elems m) (d.Labels.elems m) = none
      | some m1 => m1.length = m.length ∧
        (∀ q, (q < d.Data.off ∨ d.Data.off + d.Data.len ≤ q) →
          (q < d.Labels.off ∨ d.Labels.off + d.Labels.len ≤ q) → m1[q]? = m[q]?) ∧
        shuffleLoop rnd i (d.Data.elems m) (d.Labels.elems m)
          = some (d.Data.elems m1, d.Labels.elems m1) := by
  intro i
  induction i with
  | zero =>
    intro m _ _
    exact ⟨rfl, fun q _ _ => rfl, rfl⟩
  | succ i ih =>
    intro m hD hL
    unfold SliceRef.Apart at hap
    have hDl := elems_length d.Data m hD
    have hLl := elems_length d.Labels m hL
    by_cases h1 : i + 1 < d.Data.len ∧ rnd (i + 1) % (i + 2) < d.Data.len
    · obtain ⟨m1, hs1, hl1, hf1, hv1⟩ := swapRef_spec m d.Data _ _ hD h1.1 h1.2
      have hLe : d.Labels.elems m1 = d.Labels.elems m :=
        elems_congr _ _ _ (fun q hq1 hq2 => hf1 q (by omega))
      by_cases h2 : i + 1 < d.Labels.len ∧ rnd (i + 1) % (i + 2) < d.Labels.len
      · obtain ⟨m2, hs2, hl2, hf2, hv2⟩ := swapRef_spec m1 d.Labels _ _ (by omega) h2.1 h2.2
        have hDe : d.Data.elems m2 = d.Data.elems m1 :=
          elems_congr _ _ _ (fun q hq1 hq2 => hf2 q (by omega))
        have hrec := ih m2 (by omega) (by omega)
        rw [hLe] at hv2
        rw [← hDe] at hv1
        simp only [shuffleLoopRef, hs1, hs2, shuffleLoop, hv1, hv2]
        cases hr : shuffleLoopRef rnd d i m2 with
        | none =>
          rw [hr] at hrec
          exact hrec
        | some m3 =>
          rw [hr] at hrec
          obtain ⟨r1, r2, r3⟩ := hrec
          refine ⟨by omega, ?_, r3⟩
          intro q hq1 hq2
          rw [r2 q hq1 hq2, hf2 q hq2, hf1 q hq1]
      · have hs2 : swapRef m1 d.Labels (i + 1) (rnd (i + 1) % (i + 2)) = none :=
          swapRef_none _ _ _ _ h2
        have hv2 : swapAt (d.Labels.elems m) (i + 1) (rnd (i + 1) % (i + 2)) = none :=
          swapAt_none_of_ge _ _ _ (by rw [hLl]; exact h2)
        simp only [shuffleLoopRef, hs1, hs2, shuffleLoop, hv1, hv2]
    · have hs1 : swapRef m d.Data (i + 1) (rnd (i + 1) % (i + 2)) = none :=
        swapRef_none _ _ _ _ h1
      have hv1 : swapAt (d.Data.elems m) (i + 1) (rnd (i + 1) % (i + 2)) = none :=
        swapAt_none_of_ge _ _ _ (by rw [hDl]; exact h1)
      simp only [shuffleLoopRef, hs1, shuffleLoop, hv1]

theorem shuffleRef_perm (rnd : Nat → Nat) (d : DataRef) (m : List (Dense R))
    (hlen : d.Data.len = d.Labels.len) (hap : d.Data.Apart d.Labels)
    (hD : d.Data.off + d.Data.len ≤ m.length) (hL : d.Labels.off + d.Labels.len ≤ m.length) :
    ∃ m1, shuffleRef rnd d m = some m1 ∧ m1.length = m.length ∧
      (∀ q, (q < d.Data.off ∨ d.Data.off + d.Data.len ≤ q) →
        (q < d.Labels.off ∨ d.Labels.off + d.Labels.len ≤ q) → m1[q]? = m[q]?) ∧
      (d.pairs m1).Perm (d.pairs m) := by
  have hDl := elems_length d.Data m hD
  have hLl := elems_length d.Labels m hL
  obtain ⟨d1, l1, hrun, -, hperm⟩ := shuffleLoop_perm rnd (d.Data.len - 1)
    (d.Data.elems m) (d.Labels.elems m) (by omega) (by omega)
  have hsim := shuffleLoopRef_sim rnd d hap (d.Data.len - 1) m hD hL
  unfold shuffleRef
  cases hr : shuffleLoopRef rnd d (d.Data.len - 1) m with
  | none =>
    rw [hr] at hsim
    rw [hrun] at hsim
    exact absurd hsim (by simp)
  | some m1 =>
    rw [hr] at hsim
    obtain ⟨r1, r2, r3⟩ := hsim
    rw [hrun] at r3
    simp only [Option.some.injEq, Prod.mk.injEq] at r3
    refine ⟨m1, rfl, r1, r2, ?_⟩
    unfold DataRef.pairs
    rw [← r3.1, ← r3.2]
    exact hperm

theorem spare_congr {α : Type} (s : SliceRef) (m m1 : List α)
    (h : ∀ q, s.off + s.len ≤ q → q < s.off + s.cap → m1[q]? = m[q]?) :
    (s.view m1).spare = (s.view m).spare := by
  exact elems_congr ⟨s.off + s.len, s.cap - s.len, 0⟩ m m1
    (fun q (hq1 : s.off + s.len ≤ q) (hq2 : q < s.off + s.len + (s.cap - s.len)) =>
      h q hq1 (by omega))

theorem shuffleRef_frame (rnd : Nat → Nat) (d : DataRef) (m m1 : List (Dense R))
    (hap : d.Data.Apart d.Labels)
    (hD : d.Data.off + d.Data.len ≤ m.length) (hL : d.Labels.off + d.Labels.len ≤ m.length)
    (h : shuffleRef rnd d m = some m1) :
    m1.length = m.length ∧
    (∀ q, (q < d.Data.off ∨ d.Data.off + d.Data.len ≤ q) →
      (q < d.Labels.off ∨ d.Labels.off + d.Labels.len ≤ q) → m1[q]? = m[q]?) ∧
    shuffleLoop rnd (d.Data.len - 1) (d.Data.elems m) (d.Labels.elems m)
      = some (d.Data.elems m1, d.Labels.elems m1) := by
  have hsim := shuffleLoopRef_sim rnd d hap (d.Data.len - 1) m hD hL
  unfold shuffleRef at h
  rw [h] at hsim
  exact hsim

theorem shuffleRef_view (rnd : Nat → Nat) (d : DataRef) (m : List (Dense R))
    (hvD : d.Data.Valid m) (hvL : d.Labels.Valid m) (hfar : d.Data.FarApart d.Labels) :
    shuffle rnd (d.view m) = (shuffleRef rnd d m).map d.view := by
  unfold SliceRef.Valid at hvD hvL
  unfold SliceRef.FarApart at hfar
  have hap : d.Data.Apart d.Labels := by
    unfold SliceRef.Apart
    omega
  have hD : d.Data.off + d.Data.len ≤ m.length := by omega
  have hL : d.Labels.off + d.Labels.len ≤ m.length := by omega
  have hlen : (d.view m).Data.len = d.Data.len := elems_length d.Data m hD
  have hsim := shuffleLoopRef_sim rnd d hap (d.Data.len - 1) m hD hL
  have e1 : (d.view m).Data.elems = d.Data.elems m := rfl
  have e2 : (d.view m).Labels.elems = d.Labels.elems m := rfl
  unfold shuffleRef
  cases hr : shuffleLoopRef rnd d (d.Data.len - 1) m with
  | none =>
    rw [hr] at hsim
    simp only [shuffle, hlen, e1, e2, hsim, Option.map_none']
  | some m1 =>
    rw [hr] at hsim
    obtain ⟨r1, r2, r3⟩ := hsim
    have s1 : (d.Data.view m1).spare = (d.Data.view m).spare :=
      spare_congr _ _ _ (fun q hq1 hq2 => r2 q (by omega) (by omega))
    have s2 : (d.Labels.view m1).spare = (d.Labels.view m).spare :=
      spare_congr _ _ _ (fun q hq1 hq2 => r2 q (by omega) (by omega))
    simp only [shuffle, hlen, e1, e2, r3, Option.map_some']
    show some (⟨⟨d.Data.elems m1, (d.Data.view m).spare⟩,
      ⟨d.Labels.elems m1, (d.Labels.view m).spare⟩⟩ : DataSet R) = some (d.view m1)
    rw [← s1, ← s2]
    rfl

end RefShuffle

section RefTrain
variable {R : Type} [LinearOrderedField R]

theorem Evaluate_congr (exp : R → R) (n : Net R) (v1 v2 : DataSet R)
    (h1 : v1.Data.elems = v2.Data.elems) (h2 : v1.Labels.elems = v2.Labels.elems) :
    Evaluate exp n v1 = Evaluate exp n v2 := by
  simp only [Evaluate, Slice.len, h1, h2]

theorem trainEpochs_validation_congr (exp : R → R) (rnd : Nat → Nat → Nat)
    (v1 v2 : DataSet R) (h1 : v1.Data.elems = v2.Data.elems)
    (h2 : v1.Labels.elems = v2.Labels.elems) (batchSize : Int) (alpha : R) :
    ∀ (k e : Nat) (n : Net R) (data : DataSet R),
      trainEpochs exp rnd v1 batchSize alpha k e n data
        = trainEpochs exp rnd v2 batchSize alpha k e n data := by
  intro k
  induction k with
  | zero =>
    intro e n data
    rfl
  | succ k ih =>
    intro e n data
    have hl : v1.Data.len = v2.Data.len := by simp only [Slice.len, h1]
    simp only [trainEpochs, hl]
    cases shuffle (rnd e) data with
    | none => rfl
    | some data1 =>
      simp only []
      cases batchLoop exp data1 batchSize alpha (data1.Data.len + 1) 0 n with
      | panic => rfl
      | outOfFuel => rfl
      | ok n1 =>
        simp only [Evaluate_congr exp n1 v1 v2 h1 h2, ih]

theorem trainEpochsRef_sim (exp : R → R) (rnd : Nat → Nat → Nat) (data validation : DataRef)
    (batchSize : Int) (alpha : R) (hfar : data.Data.FarApart data.Labels)
    (a1 : validation.Data.Apart data.Data) (a2 : validation.Data.Apart data.Labels)
    (a3 : validation.Labels.Apart data.Data) (a4 : validation.Labels.Apart data.Labels) :
    ∀ (k e : Nat) (n : Net R) (m : List (Dense R)), data.Data.Valid m → data.Labels.Valid m →
      validation.Data.off + validation.Data.len ≤ m.length →
      Run.map (fun p => (p.1, data.view p.2))
          (trainEpochsRef exp rnd data validation batchSize alpha k e n m)
        = trainEpochs exp rnd (validation.view m) batchSize alpha k e n (data.view m) := by
  intro k
  induction k with
  | zero =>
    intro e n m _ _ _
    rfl
  | succ k ih =>
    intro e n m hvD hvL hV
    have hview := shuffleRef_view (rnd e) data m hvD hvL hfar
    have hvD0 := hvD
    have hvL0 := hvL
    unfold SliceRef.Valid at hvD hvL
    unfold SliceRef.FarApart at hfar
    unfold SliceRef.Apart at a1 a2 a3 a4
    have hap : data.Data.Apart data.Labels := by
      unfold SliceRef.Apart
      omega
    have hvl : (validation.view m).Data.len = validation.Data.len :=
      elems_length validation.Data m hV
    cases hr : shuffleRef (rnd e) data m with
    | none =>
      rw [hr] at hview
      simp only [trainEpochsRef, hr, trainEpochs, hview, Option.map_none', Run.map]
    | some m1 =>
      rw [hr] at hview
      obtain ⟨r1, r2, -⟩ := shuffleRef_frame (rnd e) data m m1 hap (by omega) (by omega) hr
      have hdl : (data.view m1).Data.len = data.Data.len :=
        elems_length data.Data m1 (by omega)
      have ev1 : (validation.view m1).Data.elems = (validation.view m).Data.elems :=
        elems_congr _ _ _ (fun q hq1 hq2 => r2 q (by omega) (by omega))
      have ev2 : (validation.view m1).Labels.elems = (validation.view m).Labels.elems :=
        elems_congr _ _ _ (fun q hq1 hq2 => r2 q (by omega) (by omega))
      have hrec := ih (e + 1)
      simp only [trainEpochsRef, hr, trainEpochs, hview, Option.map_some', hdl, hvl]
      cases batchLoop exp (data.view m1) batchSize alpha (data.Data.len + 1) 0 n with
      | panic => rfl
      | outOfFuel => rfl
      | ok n1 =>
        simp only []
        have hrec1 := hrec n1 m1 ⟨hvD.1, by omega⟩ ⟨hvL.1, by omega⟩ (by omega)
        rw [trainEpochs_validation_congr exp rnd _ _ ev1 ev2] at hrec1
        rw [← Evaluate_congr exp n1 _ _ ev1 ev2]
        by_cases hpos : validation.Data.len > 0
        · simp only [if_pos hpos]
          cases Evaluate exp n1 (validation.view m1) with
          | none => rfl
          | some q => exact hrec1
        · simp only [if_neg hpos]
          exact hrec1

theorem trainEpochsRef_perm (exp : R → R) (rnd : Nat → Nat → Nat) (data validation : DataRef)
    (batchSize : Int) (alpha : R) (hlen : data.Data.len = data.Labels.len)
    (hap : data.Data.Apart data.Labels) :
    ∀ (k e : Nat) (n : Net R) (m : List (Dense R)) (n1 : Net R) (m1 : List (Dense R)),
      data.Data.off + data.Data.len ≤ m.length →
      data.Labels.off + data.Labels.len ≤ m.length →
      trainEpochsRef exp rnd data validation batchSize alpha k e n m = Run.ok (n1, m1) →
      m1.length = m.length ∧ (data.pairs m1).Perm (data.pairs m) := by
  intro k
  induction k with
  | zero =>
    intro e n m n1 m1 _ _ h
    simp only [trainEpochsRef, Run.ok.injEq, Prod.mk.injEq] at h
    rw [h.2]
    exact ⟨rfl, List.Perm.refl _⟩
  | succ k ih =>
    intro e n m n1 m1 hD hL h
    obtain ⟨m2, hs, hl2, -, hperm⟩ := shuffleRef_perm (rnd e) data m hlen hap hD hL
    simp only [trainEpochsRef, hs] at h
    split at h
    · exact absurd h (by simp)
    · exact absurd h (by simp)
    · split at h
      · split at h
        · exact absurd h (by simp)
        · obtain ⟨q1, q2⟩ := ih _ _ _ _ _ (by omega) (by omega) h
          exact ⟨by omega, q2.trans hperm⟩
      · obtain ⟨q1, q2⟩ := ih _ _ _ _ _ (by omega) (by omega) h
        exact ⟨by omega, q2.trans hperm⟩

end RefTrain

section Claim12
variable {R : Type} [LinearOrderedField R]

theorem TrainRef_view (exp : R → R) (rnd : Nat → Nat → Nat) (n : Net R)
    (data validation : DataRef) (batchSize epochs : Int) (alpha : R) (m : List (Dense R))
    (hvD : data.Data.Valid m) (hvL : data.Labels.Valid m)
    (hfar : data.Data.FarApart data.Labels)
    (hV : validation.Data.off + validation.Data.len ≤ m.length)
    (a1 : validation.Data.Apart data.Data) (a2 : validation.Data.Apart data.Labels)
    (a3 : validation.Labels.Apart data.Data) (a4 : validation.Labels.Apart data.Labels) :
    Run.map (fun p => (p.1, data.view p.2))
        (TrainRef exp rnd n data validation batchSize epochs alpha m)
      = Train exp rnd n (data.view m) (validation.view m) batchSize epochs alpha :=
  trainEpochsRef_sim exp rnd data validation batchSize alpha hfar a1 a2 a3 a4 _ _ _ _ hvD hvL hV

/-- C12 (counterexample): with `Data = arr[0:3]` and `Labels = arr[1:4]` over one backing array
`arr = [A, B, C, D]`, slices of equal length, the shuffle that calls `swap(2, 0)` leaves the
array as `[C, D, A, B]`: the pairs are now `(C, D), (D, A), (A, B)`, and the pair `(B, C)` is
lost. -/
theorem shuffle_breaks_shared_pairs :
    seqData.Data.len = seqData.Labels.len ∧
    shuffleRef draws20 seqData (seqMem : List (Dense ℝ))
      = some [Dense.ofList 1 1 [3], Dense.ofList 1 1 [4], Dense.ofList 1 1 [1],
          Dense.ofList 1 1 [2]] ∧
    ¬ (seqData.pairs [Dense.ofList 1 1 [3], Dense.ofList 1 1 [4], Dense.ofList 1 1 [1],
          Dense.ofList 1 1 [(2 : ℝ)]]).Perm (seqData.pairs seqMem) := by
  refine ⟨rfl, rfl, ?_⟩
  intro hp
  have h := (hp.map (fun p => p.1.elem 0 0)).mem_iff (a := (4 : ℝ))
  simp [DataRef.pairs, SliceRef.elems, seqData, seqMem, Dense.ofList] at h

/-- C12 (amended): for a training set whose `Data` and `Labels` slices have equal length and
share no element of a backing array, and for every outcome of the random draws, the shuffle of
an epoch returns, writes to no cell outside the two slices, and afterwards the sequence of pairs
`(Data[i], Labels[i])` is a permutation of the sequence before it: every input stays paired
with its own target, none is lost or duplicated.  Hence, when `Train` returns, the pairs of the
training set are a permutation of the original pairs. -/
theorem shuffle_keeps_pairs (exp : R → R) (rnd : Nat → Nat → Nat) (data : DataRef)
    (m : List (Dense R)) (hlen : data.Data.len = data.Labels.len)
    (hap : data.Data.Apart data.Labels)
    (hD : data.Data.off + data.Data.len ≤ m.length)
    (hL : data.Labels.off + data.Labels.len ≤ m.length) :
    (∀ e, ∃ m1, shuffleRef (rnd e) data m = some m1 ∧ m1.length = m.length ∧
      (∀ q, (q < data.Data.off ∨ data.Data.off + data.Data.len ≤ q) →
        (q < data.Labels.off ∨ data.Labels.off + data.Labels.len ≤ q) → m1[q]? = m[q]?) ∧
      (data.pairs m1).Perm (data.pairs m)) ∧
    (∀ (n n1 : Net R) (validation : DataRef) (m1 : List (Dense R)) (batchSize epochs : Int)
      (alpha : R),
      TrainRef exp rnd n data validation batchSize epochs alpha m = Run.ok (n1, m1) →
      (data.pairs m1).Perm (data.pairs m)) := by
  constructor
  · intro e
    exact shuffleRef_perm (rnd e) data m hlen hap hD hL
  · intro n n1 validation m1 batchSize epochs alpha h
    exact (trainEpochsRef_perm exp rnd data validation batchSize alpha hlen hap _ _ _ _ _ _
      hD hL h).2

/-- Witness of C12: three samples with three different inputs and targets, inputs in the cells
`0..2` and targets in the cells `3..5`; the shuffle that calls `swap(2, 0)` exchanges the first
and the last input and the first and the last target. -/
theorem shuffle_keeps_pairs_witness :
    shuffleRef draws20 sampleData (sampleMem : List (Dense ℝ))
      = some [Dense.ofList 3 1 [1, 1, 1], Dense.ofList 3 1 [0, 0, 0], Dense.ofList 3 1 [2, 3, 4],
          Dense.ofList 2 1 [1, 1], Dense.ofList 2 1 [1, 0], Dense.ofList 2 1 [0, 1]] ∧
    (sampleData.pairs [Dense.ofList 3 1 [1, 1, 1], Dense.ofList 3 1 [0, 0, 0],
        Dense.ofList 3 1 [2, 3, 4], Dense.ofList 2 1 [1, 1], Dense.ofList 2 1 [1, 0],
        Dense.ofList 2 1 [(0 : ℝ), 1]]).Perm (sampleData.pairs sampleMem) := by
  obtain ⟨m1, h1, -, -, h4⟩ :=
    (shuffle_keeps_pairs Real.exp (fun _ => draws20) sampleData (sampleMem : List (Dense ℝ))
      rfl (by decide) (by decide) (by decide)).1 0
  have e : shuffleRef draws20 sampleData (sampleMem : List (Dense ℝ))
      = some [Dense.ofList 3 1 [1, 1, 1], Dense.ofList 3 1 [0, 0, 0],
          Dense.ofList 3 1 [2, 3, 4], Dense.ofList 2 1 [1, 1], Dense.ofList 2 1 [1, 0],
          Dense.ofList 2 1 [0, 1]] := rfl
  rw [e] at h1
  rw [← Option.some.inj h1] at h4
  exact ⟨e, h4⟩

end Claim12

namespace Mnist

/-- C16 (code bug): for a label file whose header is read without error and whose magic number
differs from `labelMagic`, `LoadLabelFile` returns no labels and the nil error: the `err` it
returns is the result of the header read, which has succeeded. -/
theorem LoadLabelFile_wrong_magic (reader r1 : Reader) (header : labelFileHeader)
    (hread : readLabelHeader reader = Except.ok (header, r1))
    (hmagic : header.Magic ≠ labelMagic) :
    LoadLabelFile (Source.opened reader) = some ⟨none, none⟩ := by
  simp only [LoadLabelFile, hread, if_pos hmagic]

/-- Witness of C16: a label file starting with the bytes `00 00 08 03 00 00 00 00`. -/
theorem LoadLabelFile_wrong_magic_witness :
    LoadLabelFile badLabelFile = some ⟨none, none⟩ :=
  LoadLabelFile_wrong_magic ⟨[0, 0, 8, 3, 0, 0, 0, 0], none⟩ ⟨[], none⟩ ⟨2051, 0⟩
    rfl (by decide)

/-- C17 (code bug): for an image file whose header is read without error, with the magic number
`imageMagic`, `Width = 28` and no image, `LoadImageFile` returns the empty list of images and
the nil error whatever `Height` is: the height is compared with itself, never with `28`. -/
theorem LoadImageFile_any_height (reader r1 : Reader) (header : imageFileHeader)
    (hread : readImageHeader reader = Except.ok (header, r1))
    (hmagic : header.Magic = imageMagic) (hwidth : header.Width = Width)
    (hnum : header.NumImages = 0) :
    LoadImageFile (Source.opened reader) = some ⟨some [], none⟩ := by
  simp only [LoadImageFile, hread, hmagic, hwidth, hnum]
  simp [readImages]

/-- Witness of C17: a header with `Height = 27`. -/
theorem LoadImageFile_any_height_witness :
    LoadImageFile shortImageFile = some ⟨some [], none⟩ ∧
    (27 : Int) ≠ Height :=
  ⟨LoadImageFile_any_height
      ⟨[0, 0, 8, 3, 0, 0, 0, 0, 0, 0, 0, 27, 0, 0, 0, 28], none⟩ ⟨[], none⟩ ⟨2051, 0, 27, 28⟩
      rfl rfl rfl rfl,
    by decide⟩

end Mnist

section Claim18
variable {R : Type} [LinearOrderedField R]

theorem Predict_none_of_rows (exp : R → R) (n : Net R) (hn : WellShaped n) (x : Dense R)
    (hx : (x.rows : Int) ≠ n.size 0) : Predict exp n x = none := by
  obtain ⟨h2, hw, hb, hpos, hsh⟩ := hn
  obtain ⟨k, hk⟩ : ∃ k, n.layers.length - 1 = k + 1 := ⟨n.layers.length - 2, by omega⟩
  obtain ⟨-, hwc, -, -⟩ := hsh 0 (by omega)
  have hmul : Dense.Mul (n.W 0) x = none := by
    unfold Dense.Mul
    rw [if_pos]
    intro h
    apply hx
    rw [← h]
    exact hwc
  simp only [Predict, forward, if_neg (by omega : ¬ n.layers.length = 0), hk, forwardFrom,
    Net.weights_get n 0 (by omega), hmul]

theorem maxLoop_none (output label : Dense R) : ∀ (js : List Nat) (st : MaxState R) (j : Nat),
    j ∈ js → label.rows ≤ j → maxLoop output label js st = none := by
  intro js
  induction js with
  | nil =>
    intro st j hj _
    simp at hj
  | cons a js ih =>
    intro st j hj hlt
    simp only [maxLoop]
    rcases List.mem_cons.mp hj with h | h
    · subst h
      have hrow : Dense.Row j label = none := by
        simp only [Dense.Row]
        rw [if_neg (by omega)]
      have hstep : maxStep output label st j = none := by
        unfold maxStep
        rw [hrow]
        cases Dense.Row j output <;> rfl
      rw [hstep]
    · split
      · rfl
      · exact ih _ j h hlt

theorem sampleCorrect_short (exp : R → R) (n : Net R) (hn : WellShaped n) (x label : Dense R)
    (hx : ColShaped x (n.size 0)) (hl : (label.rows : Int) < n.size n.weights.length) :
    sampleCorrect exp n x label = none := by
  obtain ⟨a, z, -, hp, -, -, -, hash, -⟩ := forward_entry exp n hn x hx
  obtain ⟨hor, hoc⟩ := hash n.weights.length (le_refl _)
  obtain ⟨out, hout⟩ : ∃ out, out = traceAt a n.weights.length := ⟨_, rfl⟩
  rw [← hout] at hp hor hoc
  simp only [sampleCorrect, hp]
  split
  · rename_i maxP maxE h1 h2
    have hmem : label.rows ∈ List.range out.rows := by
      rw [List.mem_range]
      omega
    rw [maxLoop_none out label _ _ label.rows hmem (le_refl _)]
  · rfl

theorem evalLoop_none (exp : R → R) (n : Net R) (labels : List (Dense R)) :
    ∀ (xs : List (Dense R)) (i c t : Nat), t < xs.length →
      (∀ l, labels[i + t]? = some l → sampleCorrect exp n (traceAt xs t) l = none) →
      evalLoop exp n labels xs i c = none := by
  intro xs
  induction xs with
  | nil =>
    intro i c t ht _
    simp at ht
  | cons x xs ih =>
    intro i c t ht hbad
    simp only [evalLoop]
    cases t with
    | zero =>
      rw [Nat.add_zero, traceAt_cons_zero] at hbad
      split
      · rfl
      · rename_i l hl
        rw [hbad l hl]
    | succ t =>
      split
      · rfl
      · split
        · rfl
        · apply ih (i + 1) _ t (by simpa using ht)
          intro l hl
          have e : i + 1 + t = i + (t + 1) := by omega
          rw [e] at hl
          have := hbad l hl
          rwa [traceAt_cons_succ] at this

theorem sampleCorrect_long (exp : R → R) (n : Net R) (hn : WellShaped n) (x label : Dense R)
    (hx : ColShaped x (n.size 0)) (hl : n.size n.weights.length ≤ (label.rows : Int))
    (hc : 0 < label.cols) :
    ∃ out, Predict exp n x = some out ∧ (out.rows : Int) = n.size n.weights.length ∧
      sampleCorrect exp n x label = some (decide
        (∃ k, k < out.rows ∧ IsArgmax out out.rows k ∧ IsArgmax label out.rows k)) := by
  obtain ⟨a, z, -, hp, -, -, -, hash, -⟩ := forward_entry exp n hn x hx
  obtain ⟨hor, hoc⟩ := hash n.weights.length (le_refl _)
  have hpos := hn.2.2.2.1 n.weights.length (by have := hn.2.1; omega)
  obtain ⟨out, hout⟩ : ∃ out, out = traceAt a n.weights.length := ⟨_, rfl⟩
  rw [← hout] at hp hor hoc
  refine ⟨out, hp, hor, ?_⟩
  have hat1 : out.At 0 0 = some (out.elem 0 0) := by
    simp only [Dense.At]
    rw [if_pos ⟨by omega, by omega⟩]
  have hat2 : label.At 0 0 = some (label.elem 0 0) := by
    simp only [Dense.At]
    rw [if_pos ⟨by omega, by omega⟩]
  have hinit : MaxInv out label 0 ⟨out.elem 0 0, 0, label.elem 0 0, 0⟩ :=
    ⟨⟨rfl, fun j hj => absurd hj (Nat.not_lt_zero j), fun j hj => absurd hj (Nat.not_lt_zero j),
      Or.inr rfl⟩,
     ⟨rfl, fun j hj => absurd hj (Nat.not_lt_zero j), fun j hj => absurd hj (Nat.not_lt_zero j),
      Or.inr rfl⟩⟩
  obtain ⟨st, hrun, hinv⟩ := maxLoop_spec out label (by omega) hc out.rows 0 _
    (by omega) (by omega) hinit
  rw [Nat.zero_add] at hinv
  have hP := ArgInv_final out out.rows (by omega) _ _ hinv.1
  have hE := ArgInv_final label out.rows (by omega) _ _ hinv.2
  have hmatch : (∃ k, k < out.rows ∧ IsArgmax out out.rows k ∧ IsArgmax label out.rows k)
      ↔ st.maxEInd = st.maxPInd := by
    constructor
    · rintro ⟨k, -, k1, k2⟩
      rw [← IsArgmax_unique _ _ _ _ k1 hP, ← IsArgmax_unique _ _ _ _ k2 hE]
    · intro h
      refine ⟨st.maxPInd, hP.1, hP, ?_⟩
      rw [← h]
      exact hE
  simp only [sampleCorrect, hp, hat1, hat2, List.range_eq_range', hrun]
  congr 1
  by_cases h : st.maxEInd = st.maxPInd
  · simp [h, hmatch.mpr h]
  · have : ¬ (∃ k, k < out.rows ∧ IsArgmax out out.rows k ∧ IsArgmax label out.rows k) :=
      fun hm => h (hmatch.mp hm)
    simp [h, this]

theorem evalLoop_some (exp : R → R) (n : Net R) (hn : WellShaped n) (labels : List (Dense R)) :
    ∀ (xs : List (Dense R)) (i c : Nat),
    (∀ t, t < xs.length → ColShaped (traceAt xs t) (n.size 0) ∧ i + t < labels.length ∧
      n.size n.weights.length ≤ ((traceAt labels (i + t)).rows : Int) ∧
      0 < (traceAt labels (i + t)).cols) →
    ∃ c1, evalLoop exp n labels xs i c = some c1 := by
  intro xs
  induction xs with
  | nil =>
    intro i c _
    exact ⟨c, rfl⟩
  | cons x xs ih =>
    intro i c hsh
    obtain ⟨hx0, hi0, hl0, hc0⟩ := hsh 0 (by simp)
    rw [traceAt_cons_zero] at hx0
    rw [Nat.add_zero] at hi0 hl0 hc0
    obtain ⟨out, -, -, hs⟩ := sampleCorrect_long exp n hn x (traceAt labels i) hx0 hl0 hc0
    obtain ⟨c1, hrec⟩ := ih (i + 1)
      (if decide (∃ k, k < out.rows ∧ IsArgmax out out.rows k ∧
        IsArgmax (traceAt labels i) out.rows k) = true then c + 1 else c) (by
        intro t ht
        have := hsh (t + 1) (by simpa using ht)
        rw [traceAt_cons_succ] at this
        have e : i + (t + 1) = i + 1 + t := by omega
        rw [e] at this
        exact this)
    exact ⟨c1, by simp only [evalLoop, traceAt_get labels i hi0, hs, hrec]⟩

end Claim18

section Claim18b
variable {R : Type} [LinearOrderedField R]

theorem sampleCorrect_first (exp : R → R) (n : Net R) (hn : WellShaped n) (x label : Dense R)
    (hx : ColShaped x (n.size 0)) (hl : n.size n.weights.length ≤ (label.rows : Int))
    (hc : 0 < label.cols) :
    sampleCorrect exp n x label = some (decide (sampleMatchesFirst exp n x label)) := by
  obtain ⟨out, hp, -, hs⟩ := sampleCorrect_long exp n hn x label hx hl hc
  rw [hs]
  congr 1
  apply decide_eq_decide.mpr
  simp only [sampleMatchesFirst, hp]

theorem sampleMatchesFirst_congr (exp : R → R) (n : Net R) (hn : WellShaped n)
    (x l1 l2 : Dense R) (hx : ColShaped x (n.size 0))
    (h : ∀ j : Nat, (j : Int) < n.size n.weights.length → l2.elem j 0 = l1.elem j 0) :
    sampleMatchesFirst exp n x l2 ↔ sampleMatchesFirst exp n x l1 := by
  obtain ⟨a, z, -, hp, -, -, -, hash, -⟩ := forward_entry exp n hn x hx
  obtain ⟨hor, -⟩ := hash n.weights.length (le_refl _)
  simp only [sampleMatchesFirst, hp]
  have hk : ∀ k, IsArgmax l2 (traceAt a n.weights.length).rows k
      ↔ IsArgmax l1 (traceAt a n.weights.length).rows k := by
    intro k
    unfold IsArgmax
    constructor
    · rintro ⟨k1, k2, k3⟩
      refine ⟨k1, fun j hj => ?_, fun j hj => ?_⟩
      · rw [← h j (by omega), ← h k (by omega)]
        exact k2 j hj
      · rw [← h j (by omega), ← h k (by omega)]
        exact k3 j hj
    · rintro ⟨k1, k2, k3⟩
      refine ⟨k1, fun j hj => ?_, fun j hj => ?_⟩
      · rw [h j (by omega), h k (by omega)]
        exact k2 j hj
      · rw [h j (by omega), h k (by omega)]
        exact k3 j hj
  constructor
  · rintro ⟨k, q1, q2, q3⟩
    exact ⟨k, q1, q2, (hk k).mp q3⟩
  · rintro ⟨k, q1, q2, q3⟩
    exact ⟨k, q1, q2, (hk k).mpr q3⟩

theorem evalLoop_first (exp : R → R) (n : Net R) (hn : WellShaped n) (labels : List (Dense R)) :
    ∀ (xs : List (Dense R)) (i c : Nat),
    (∀ t, t < xs.length → ColShaped (traceAt xs t) (n.size 0) ∧ i + t < labels.length ∧
      n.size n.weights.length ≤ ((traceAt labels (i + t)).rows : Int) ∧
      0 < (traceAt labels (i + t)).cols) →
    evalLoop exp n labels xs i c = some (c + ∑ t in Finset.range xs.length,
      if sampleMatchesFirst exp n (traceAt xs t) (traceAt labels (i + t)) then 1 else 0) := by
  intro xs
  induction xs with
  | nil =>
    intro i c _
    simp [evalLoop]
  | cons x xs ih =>
    intro i c hsh
    obtain ⟨hx0, hi0, hl0, hc0⟩ := hsh 0 (by simp)
    rw [traceAt_cons_zero] at hx0
    rw [Nat.add_zero] at hi0 hl0 hc0
    have hs := sampleCorrect_first exp n hn x (traceAt labels i) hx0 hl0 hc0
    have hrec := ih (i + 1)
      (if decide (sampleMatchesFirst exp n x (traceAt labels i)) = true then c + 1 else c) (by
        intro t ht
        have := hsh (t + 1) (by simpa using ht)
        rw [traceAt_cons_succ] at this
        have e : i + (t + 1) = i + 1 + t := by omega
        rw [e] at this
        exact this)
    simp only [evalLoop, traceAt_get labels i hi0, hs, hrec, List.length_cons]
    rw [Finset.sum_range_succ']
    simp only [traceAt_cons_succ, traceAt_cons_zero, Nat.add_zero, ← Nat.add_assoc,
      Nat.add_right_comm i 1]
    congr 1
    by_cases h : sampleMatchesFirst exp n x (traceAt labels i)
    · simp [h]
      ring
    · simp [h]

theorem Evaluate_first (exp : R → R) (n : Net R) (data : DataSet R) (hn : WellShaped n)
    (hlen : data.Data.len ≤ data.Labels.len)
    (hsh : ∀ s, s < data.Data.len → ColShaped (traceAt data.Data.elems s) (n.size 0) ∧
      n.size n.weights.length ≤ ((traceAt data.Labels.elems s).rows : Int) ∧
      0 < (traceAt data.Labels.elems s).cols) :
    Evaluate exp n data = some (divCounts (firstCount exp n data) data.Data.len) := by
  have h := evalLoop_first exp n hn data.Labels.elems data.Data.elems 0 0 (by
    intro t ht
    rw [Nat.zero_add]
    have hlt : t < data.Labels.elems.length := by
      have h1 : data.Data.elems.length ≤ data.Labels.elems.length := hlen
      omega
    exact ⟨(hsh t ht).1, hlt, (hsh t ht).2.1, (hsh t ht).2.2⟩)
  simp only [Evaluate, h, Nat.zero_add, firstCount, Finset.card_filter, Slice.len]

theorem firstCount_congr (exp : R → R) (n : Net R) (hn : WellShaped n) (data data2 : DataSet R)
    (hd : data2.Data = data.Data)
    (hx : ∀ s, s < data.Data.len → ColShaped (traceAt data.Data.elems s) (n.size 0))
    (h : ∀ s, s < data.Data.len → ∀ j : Nat, (j : Int) < n.size n.weights.length →
      (traceAt data2.Labels.elems s).elem j 0 = (traceAt data.Labels.elems s).elem j 0) :
    firstCount exp n data2 = firstCount exp n data := by
  unfold firstCount
  rw [hd]
  congr 1
  apply Finset.filter_congr
  intro s hs
  exact sampleMatchesFirst_congr exp n hn _ _ _ (hx s (Finset.mem_range.mp hs))
    (h s (Finset.mem_range.mp hs))

theorem longTargetSet_count : firstCount Real.exp (net32 : Net ℝ) longTargetSet = 1 := by
  obtain ⟨o1, hp1, hr1, ha1⟩ := predict32_x32
  have hl : IsArgmax (longTarget : Dense ℝ) 2 1 := by
    refine ⟨by omega, ?_, ?_⟩
    · intro j hj
      interval_cases j <;> simp [longTarget, Dense.ofList]
    · intro j hj
      interval_cases j
      simp [longTarget, Dense.ofList]
  have m0 : sampleMatchesFirst Real.exp (net32 : Net ℝ) x32 longTarget := by
    simp only [sampleMatchesFirst, hp1, hr1]
    exact ⟨1, by omega, ha1, hl⟩
  have t0 : traceAt (longTargetSet : DataSet ℝ).Data.elems 0 = x32 := rfl
  have l0 : traceAt (longTargetSet : DataSet ℝ).Labels.elems 0 = longTarget := rfl
  have hlen : (longTargetSet : DataSet ℝ).Data.len = 1 := rfl
  unfold firstCount
  rw [Finset.card_filter, hlen]
  simp only [Finset.sum_range_succ, Finset.sum_range_zero, t0, l0, if_pos m0]

/-- C18 (counterexample): on a data set whose single target `(0, 1, 5)` has three rows while the
output layer of the network has two units, `Evaluate` does not fail; it returns the accuracy
`1`, computed from the first two entries of the target, although the maximum of the target is
at index 2. -/
theorem Evaluate_accepts_long_target :
    (longTarget : Dense ℝ).rows = 3 ∧
    (net32 : Net ℝ).size (net32 : Net ℝ).weights.length = 2 ∧
    IsArgmax (longTarget : Dense ℝ) 3 2 ∧
    Evaluate Real.exp (net32 : Net ℝ) longTargetSet = some (Quot64.num 1) := by
  refine ⟨rfl, rfl, ?_, ?_⟩
  · refine ⟨by omega, ?_, ?_⟩
    · intro j hj
      interval_cases j <;> simp [longTarget, Dense.ofList]
    · intro j hj
      interval_cases j <;> simp [longTarget, Dense.ofList]
  · rw [Evaluate_first Real.exp (net32 : Net ℝ) longTargetSet (by decide) (by decide) (by
      intro s hs
      have hs1 : s < 1 := hs
      interval_cases s
      exact ⟨by decide, by decide, by decide⟩), longTargetSet_count]
    have hlen : (longTargetSet : DataSet ℝ).Data.len = 1 := rfl
    rw [hlen]
    simp [divCounts]

/-- C18 (amended): `Evaluate` has no shape check of its own.  On a network satisfying the shape
invariant it fails (a panic of the matrix library) whenever some sample's input has a number
of rows different from `sizes[0]`, and whenever some sample has a well-shaped input and a target
with fewer than `sizes[L]` rows.  A target with more than `sizes[L]` rows is not rejected: when
every input is well-shaped and every target is a non-empty matrix with at least `sizes[L]` rows,
`Evaluate` returns the number of samples whose prediction has its maximum at the index of the
maximum among the first `sizes[L]` entries of the target, divided by the number of samples; no
other entry of a target is examined: replacing the targets by others with the same first
`sizes[L]` entries does not change the result. -/
theorem Evaluate_shape_failures (exp : R → R) (n : Net R) (data : DataSet R)
    (hn : WellShaped n) :
    ((∃ s, s < data.Data.len ∧ ((traceAt data.Data.elems s).rows : Int) ≠ n.size 0) →
      Evaluate exp n data = none) ∧
    ((∃ s, s < data.Data.len ∧ ColShaped (traceAt data.Data.elems s) (n.size 0) ∧
        ((traceAt data.Labels.elems s).rows : Int) < n.size n.weights.length) →
      Evaluate exp n data = none) ∧
    (data.Data.len ≤ data.Labels.len →
      (∀ s, s < data.Data.len → ColShaped (traceAt data.Data.elems s) (n.size 0) ∧
        n.size n.weights.length ≤ ((traceAt data.Labels.elems s).rows : Int) ∧
        0 < (traceAt data.Labels.elems s).cols) →
      Evaluate exp n data = some (divCounts (firstCount exp n data) data.Data.len) ∧
      ∀ data2 : DataSet R, data2.Data = data.Data → data.Data.len ≤ data2.Labels.len →
        (∀ s, s < data.Data.len →
          n.size n.weights.length ≤ ((traceAt data2.Labels.elems s).rows : Int) ∧
          0 < (traceAt data2.Labels.elems s).cols ∧
          ∀ j : Nat, (j : Int) < n.size n.weights.length →
            (traceAt data2.Labels.elems s).elem j 0 = (traceAt data.Labels.elems s).elem j 0) →
        Evaluate exp n data2 = Evaluate exp n data) := by
  refine ⟨?_, ?_, ?_⟩
  · rintro ⟨s, hs, hrows⟩
    have h := evalLoop_none exp n data.Labels.elems data.Data.elems 0 0 s hs (by
      intro l _
      simp only [sampleCorrect, Predict_none_of_rows exp n hn _ hrows])
    simp only [Evaluate, h]
  · rintro ⟨s, hs, hx, hshort⟩
    have h := evalLoop_none exp n data.Labels.elems data.Data.elems 0 0 s hs (by
      intro l hl
      rw [Nat.zero_add] at hl
      have hl1 : l = traceAt data.Labels.elems s := by
        simp [traceAt, List.getD_eq_getElem?_getD, hl]
      rw [hl1]
      exact sampleCorrect_short exp n hn _ _ hx hshort)
    simp only [Evaluate, h]
  · intro hlen hsh
    have h1 := Evaluate_first exp n data hn hlen hsh
    refine ⟨h1, ?_⟩
    intro data2 hd hlen2 h2
    have h3 := Evaluate_first exp n data2 hn (by rw [hd]; exact hlen2) (by
      intro s hs
      rw [hd] at hs ⊢
      exact ⟨(hsh s hs).1, (h2 s hs).1, (h2 s hs).2.1⟩)
    rw [h1, h3, firstCount_congr exp n hn data data2 hd (fun s hs => (hsh s hs).1)
      (fun s hs => (h2 s hs).2.2), hd]

/-- Witness of C18: on `net32`, a data set whose single input has two rows instead of three
makes `Evaluate` panic; the data set whose single target is `(0, 1, 5)` is evaluated like the
one whose target is `(0, 1)`. -/
theorem Evaluate_shape_failures_witness :
    Evaluate Real.exp (net32 : Net ℝ) ⟨⟨[y32], []⟩, ⟨[y32], []⟩⟩ = none ∧
    Evaluate Real.exp (net32 : Net ℝ) longTargetSet
      = Evaluate Real.exp (net32 : Net ℝ) ⟨⟨[x32], []⟩, ⟨[y32], []⟩⟩ :=
  ⟨(Evaluate_shape_failures Real.exp (net32 : Net ℝ) ⟨⟨[y32], []⟩, ⟨[y32], []⟩⟩
      (by decide)).1 ⟨0, by decide, by decide⟩,
    (((Evaluate_shape_failures Real.exp (net32 : Net ℝ) ⟨⟨[x32], []⟩, ⟨[y32], []⟩⟩
      (by decide)).2.2 (by decide) (by
        intro s hs
        have hs1 : s < 1 := hs
        interval_cases s
        exact ⟨by decide, by decide, by decide⟩)).2 longTargetSet rfl (by decide) (by
        intro s hs
        have hs1 : s < 1 := hs
        interval_cases s
        refine ⟨by decide, by decide, ?_⟩
        intro j hj
        have hj1 : j < 2 := by
          have : (net32 : Net ℝ).size (net32 : Net ℝ).weights.length = 2 := rfl
          omega
        interval_cases j <;> rfl))⟩

end Claim18b

section HeapBasics
variable {R : Type} {α β : Type}

theorem forall2_get_right (P : α → β → Prop) : ∀ (ps : List α) (vs : List β),
    List.Forall₂ P ps vs → ∀ (i : Nat) (v : β), vs[i]? = some v →
    ∃ p, ps[i]? = some p ∧ P p v := by
  intro ps vs h
  induction h with
  | nil =>
    intro i v hv
    simp at hv
  | cons hab _ ih =>
    intro i v hv
    cases i with
    | zero =>
      simp only [List.getElem?_cons_zero, Option.some.injEq] at hv
      subst hv
      exact ⟨_, by simp, hab⟩
    | succ i =>
      simp only [List.getElem?_cons_succ] at hv
      obtain ⟨p, h1, h2⟩ := ih i v hv
      exact ⟨p, by simpa using h1, h2⟩

theorem forall2_get_none (P : α → β → Prop) (ps : List α) (vs : List β)
    (h : List.Forall₂ P ps vs) (i : Nat) (hv : vs[i]? = none) : ps[i]? = none := by
  have hl := h.length_eq
  rw [List.getElem?_eq_none_iff] at hv ⊢
  omega

theorem forall2_set (P : α → β → Prop) : ∀ (ps : List α) (vs : List β),
    List.Forall₂ P ps vs → ∀ (i : Nat) (a : α) (b : β), P a b →
    List.Forall₂ P (ps.set i a) (vs.set i b) := by
  intro ps vs h
  induction h with
  | nil =>
    intro i a b _
    simp
  | cons hab hrest ih =>
    intro i a b hp
    cases i with
    | zero => exact List.Forall₂.cons hp hrest
    | succ i => exact List.Forall₂.cons hab (ih i a b hp)

theorem Unchanged.refl (h : Heap R) : Unchanged h h :=
  fun _ _ => rfl

theorem Unchanged.length_le {h h1 : Heap R} (hu : Unchanged h h1) : h.length ≤ h1.length := by
  by_contra hcon
  have hlt : h1.length < h.length := Nat.lt_of_not_le hcon
  have h1n := hu h1.length hlt
  rw [List.getElem?_eq_none (le_refl _), List.getElem?_eq_getElem hlt] at h1n
  exact absurd h1n (by simp)

theorem Unchanged.trans {h h1 h2 : Heap R} (hu : Unchanged h h1) (hv : Unchanged h1 h2) :
    Unchanged h h2 := by
  intro p hp
  rw [hv p (Nat.lt_of_lt_of_le hp hu.length_le), hu p hp]

theorem Unchanged.append (h e : Heap R) : Unchanged h (h ++ e) := by
  intro p hp
  exact List.getElem?_append_left hp

theorem Unchanged.get {h h1 : Heap R} (hu : Unchanged h h1) (p : Nat) (m : Dense R)
    (hp : h[p]? = some m) : h1[p]? = some m := by
  have hlt : p < h.length := by
    by_contra hcon
    rw [List.getElem?_eq_none (Nat.le_of_not_lt hcon)] at hp
    exact absurd hp (by simp)
  rw [hu p hlt, hp]

theorem Holds_mono {h h1 : Heap R} (hu : Unchanged h h1) (ps : List Nat) (vs : List (Dense R))
    (hh : Holds h ps vs) : Holds h1 ps vs :=
  List.Forall₂.imp (fun p m hp => hu.get p m hp) hh

theorem HoldsOpt_mono {h h1 : Heap R} (hu : Unchanged h h1) (ps : List (Option Nat))
    (vs : List (Option (Dense R))) (hh : HoldsOpt h ps vs) : HoldsOpt h1 ps vs := by
  refine List.Forall₂.imp ?_ hh
  intro p m hp
  cases p <;> cases m
  · trivial
  · exact hp
  · exact hp
  · exact hu.get _ _ hp

theorem Refs_mono {h h1 : Heap R} (hu : Unchanged h h1) (n : NetRef) (N : Net R)
    (hr : Refs h n N) : Refs h1 n N :=
  ⟨hr.1, List.Forall₂.imp (fun p m hp => hu.get p m hp) hr.2.1,
    List.Forall₂.imp (fun p m hp => hu.get p m hp) hr.2.2⟩

theorem Heap.assign_append (l e : Heap R) (j : Nat) (r m : Dense R) (he : e[j]? = some r)
    (hok : (r.rows = 0 ∧ r.cols = 0) ∨ (r.rows = m.rows ∧ r.cols = m.cols)) :
    Heap.assign (l ++ e) (l.length + j) (some m) = some (l ++ e.set j m) := by
  have hget : (l ++ e)[l.length + j]? = some r := by
    rw [List.getElem?_append_right (Nat.le_add_right _ _), Nat.add_sub_cancel_left, he]
  simp only [Heap.assign, hget, if_pos hok]
  rw [List.set_append_right _ _ (Nat.le_add_right _ _), Nat.add_sub_cancel_left]

theorem get_append_left (l e : Heap R) (p : Nat) (m : Dense R) (hp : l[p]? = some m) :
    (l ++ e)[p]? = some m :=
  (Unchanged.append l e).get p m hp

theorem get_append_right (l e : Heap R) (j : Nat) :
    (l ++ e)[l.length + j]? = e[j]? := by
  rw [List.getElem?_append_right (Nat.le_add_right _ _), Nat.add_sub_cancel_left]

end HeapBasics

section HeapForward
variable {R : Type} [LinearOrderedField R]

theorem Dense.Apply_shape (fn : Nat → Nat → R → Option R) (a m : Dense R)
    (h : Dense.Apply fn a = some m) : m.rows = a.rows ∧ m.cols = a.cols := by
  unfold Dense.Apply at h
  split at h
  · exact absurd h (by simp)
  · split at h
    · simp only [Option.some.injEq] at h
      rw [← h]
      exact ⟨rfl, rfl⟩
    · exact absurd h (by simp)

theorem biasCallbackH_eq (h : Heap R) (n : NetRef) (N : Net R) (hr : Refs h n N) (i : Nat) :
    biasCallbackH h n i = biasCallback N i := by
  funext r c v
  unfold biasCallbackH biasCallback
  cases hN : N.biases[i]? with
  | none =>
    rw [forall2_get_none _ _ _ hr.2.2 i hN]
  | some B =>
    obtain ⟨b, hb, hB⟩ := forall2_get_right _ _ _ hr.2.2 i B hN
    rw [hb]
    simp only [hB]

theorem forwardFromH_sim (exp : R → R) (n : NetRef) (N : Net R) :
    ∀ (k i x : Nat) (h : Heap R) (X : Dense R) (As Zs : List (Dense R)),
      Refs h n N → h[x]? = some X → forwardFrom exp N k i X = some (As, Zs) →
      ∃ h1 a z, forwardFromH exp n k i x h = some (h1, a, z) ∧ Unchanged h h1 ∧
        Holds h1 a As ∧ Holds h1 z Zs := by
  intro k
  induction k with
  | zero =>
    intro i x h X As Zs _ _ hp
    simp only [forwardFrom, Option.some.injEq, Prod.mk.injEq] at hp
    obtain ⟨rfl, rfl⟩ := hp
    exact ⟨h, [], [], rfl, Unchanged.refl h, List.Forall₂.nil, List.Forall₂.nil⟩
  | succ k ih =>
    intro i x h X As Zs hr hx hp
    simp only [forwardFrom] at hp
    split at hp
    · exact absurd hp (by simp)
    · rename_i W hW
      split at hp
      · exact absurd hp (by simp)
      · rename_i m hm
        split at hp
        · exact absurd hp (by simp)
        · rename_i Zv hZ
          split at hp
          · exact absurd hp (by simp)
          · rename_i Av hA
            split at hp
            · exact absurd hp (by simp)
            · rename_i As1 Zs1 hrec
              simp only [Option.some.injEq, Prod.mk.injEq] at hp
              obtain ⟨rfl, rfl⟩ := hp
              obtain ⟨w, hw, hwW⟩ := forall2_get_right _ _ _ hr.2.1 i W hW
              have e1 : Heap.Mul (h ++ [Dense.empty, Dense.empty]) h.length (Operand.mat w)
                  (Operand.mat x) = some (h ++ [m, Dense.empty]) := by
                simp only [Heap.Mul, Heap.read, get_append_left _ _ _ _ hwW,
                  get_append_left _ _ _ _ hx, hm]
                exact Heap.assign_append h [Dense.empty, Dense.empty] 0 Dense.empty m rfl
                  (Or.inl ⟨rfl, rfl⟩)
              have hu3 : Unchanged h (h ++ [m, Dense.empty]) := Unchanged.append _ _
              have e2 : Heap.Apply (h ++ [m, Dense.empty]) h.length
                  (biasCallbackH (h ++ [m, Dense.empty]) n i) (Operand.mat h.length)
                  = some (h ++ [Zv, Dense.empty]) := by
                have hget : (h ++ [m, Dense.empty])[h.length]? = some m :=
                  get_append_right h [m, Dense.empty] 0
                rw [biasCallbackH_eq _ n N (Refs_mono hu3 n N hr)]
                simp only [Heap.Apply, Heap.read, hget, hZ]
                exact Heap.assign_append h [m, Dense.empty] 0 m Zv rfl
                  (Or.inr ⟨(Dense.Apply_shape _ _ _ hZ).1.symm,
                    (Dense.Apply_shape _ _ _ hZ).2.symm⟩)
              have e3 : Heap.Apply (h ++ [Zv, Dense.empty]) (h.length + 1)
                  (fun _ _ v => some (sigmoid exp v)) (Operand.mat h.length)
                  = some (h ++ [Zv, Av]) := by
                have hget : (h ++ [Zv, Dense.empty])[h.length]? = some Zv :=
                  get_append_right h [Zv, Dense.empty] 0
                simp only [Heap.Apply, Heap.read, hget, hA]
                exact Heap.assign_append h [Zv, Dense.empty] 1 Dense.empty Av rfl
                  (Or.inl ⟨rfl, rfl⟩)
              have hu5 : Unchanged h (h ++ [Zv, Av]) := Unchanged.append _ _
              have hgetA : (h ++ [Zv, Av])[h.length + 1]? = some Av :=
                get_append_right h [Zv, Av] 1
              have hgetZ : (h ++ [Zv, Av])[h.length]? = some Zv :=
                get_append_right h [Zv, Av] 0
              obtain ⟨h6, a1, z1, hrun, hu6, ha1, hz1⟩ :=
                ih (i + 1) (h.length + 1) (h ++ [Zv, Av]) Av As1 Zs1 (Refs_mono hu5 n N hr) hgetA hrec
              refine ⟨h6, (h.length + 1) :: a1, h.length :: z1, ?_, hu5.trans hu6,
                List.Forall₂.cons (hu6.get _ _ hgetA) ha1,
                List.Forall₂.cons (hu6.get _ _ hgetZ) hz1⟩
              simp only [forwardFromH, hw, e1, e2, e3, hrun]

end HeapForward

section HeapBackward
variable {R : Type} [LinearOrderedField R]

theorem setAt_some_iff {α : Type} (l l1 : List α) (i : Nat) (v : α) (h : setAt l i v = some l1) :
    i < l.length ∧ l1 = l.set i v := by
  unfold setAt at h
  split at h
  · rename_i hi
    simp only [Option.some.injEq] at h
    exact ⟨hi, h.symm⟩
  · exact absurd h (by simp)

theorem Dense.MulElem_shape (a b m : Dense R) (h : Dense.MulElem a b = some m) :
    m.rows = a.rows ∧ m.cols = a.cols := by
  unfold Dense.MulElem at h
  split at h
  · exact absurd h (by simp)
  · split at h
    · exact absurd h (by simp)
    · simp only [Option.some.injEq] at h
      rw [← h]
      exact ⟨rfl, rfl⟩

theorem forwardH_sim (exp : R → R) (n : NetRef) (N : Net R) (x : Nat) (h : Heap R)
    (X : Dense R) (A Z : List (Dense R)) (hr : Refs h n N) (hx : h[x]? = some X)
    (hp : forward exp N X = some (A, Z)) :
    ∃ h1 a z, forwardH exp n x h = some (h1, a, z) ∧ Unchanged h h1 ∧
      Holds h1 a A ∧ Holds h1 z Z := by
  unfold forward at hp
  split at hp
  · exact absurd hp (by simp)
  · rename_i hne
    split at hp
    · exact absurd hp (by simp)
    · rename_i As Zs hrec
      simp only [Option.some.injEq, Prod.mk.injEq] at hp
      obtain ⟨rfl, rfl⟩ := hp
      obtain ⟨h1, a, z, hrun, hu, ha, hz⟩ :=
        forwardFromH_sim exp n N _ 0 x h X As Zs hr hx hrec
      refine ⟨h1, x :: a, z, ?_, hu, List.Forall₂.cons (hu.get _ _ hx) ha, hz⟩
      simp only [forwardH, hr.1, if_neg hne, hrun]

theorem backwardLoopH_sim (exp : R → R) (n : NetRef) (N : Net R) (a z : List Nat)
    (A Z : List (Dense R)) :
    ∀ (k delta : Nat) (dWp dBp : List (Option Nat)) (h : Heap R) (D : Dense R)
      (dW dB dW1 dB1 : List (Option (Dense R))),
      Refs h n N → Holds h a A → Holds h z Z → h[delta]? = some D →
      HoldsOpt h dWp dW → HoldsOpt h dBp dB →
      backwardLoop exp N A Z k D dW dB = some (dW1, dB1) →
      ∃ h1 dWp1 dBp1, backwardLoopH exp n a z k delta dWp dBp h = some (h1, dWp1, dBp1) ∧
        Unchanged h h1 ∧ HoldsOpt h1 dWp1 dW1 ∧ HoldsOpt h1 dBp1 dB1 := by
  intro k
  induction k with
  | zero =>
    intro delta dWp dBp h D dW dB dW1 dB1 _ _ _ _ hW hB hp
    simp only [backwardLoop, Option.some.injEq, Prod.mk.injEq] at hp
    obtain ⟨rfl, rfl⟩ := hp
    exact ⟨h, dWp, dBp, rfl, Unchanged.refl h, hW, hB⟩
  | succ i ih =>
    intro delta dWp dBp h D dW dB dW1 dB1 hr ha hz hd hW hB hp
    simp only [backwardLoop] at hp
    split at hp
    · exact absurd hp (by simp)
    · rename_i ziv hzi
      split at hp
      · exact absurd hp (by simp)
      · rename_i spv hsp
        split at hp
        · exact absurd hp (by simp)
        · rename_i W hWv
          split at hp
          · exact absurd hp (by simp)
          · rename_i wd hwd
            split at hp
            · exact absurd hp (by simp)
            · rename_i nd hnd
              split at hp
              · exact absurd hp (by simp)
              · rename_i dB2 hsB
                split at hp
                · exact absurd hp (by simp)
                · rename_i aiv hai
                  split at hp
                  · exact absurd hp (by simp)
                  · rename_i g hg
                    split at hp
                    · exact absurd hp (by simp)
                    · rename_i dW2 hsW
                      obtain ⟨zi, hzi1, hzi2⟩ := forall2_get_right _ _ _ hz i ziv hzi
                      obtain ⟨w, hw1, hw2⟩ := forall2_get_right _ _ _ hr.2.1 (i + 1) W hWv
                      obtain ⟨ai, hai1, hai2⟩ := forall2_get_right _ _ _ ha i aiv hai
                      obtain ⟨hiB, rfl⟩ := setAt_some_iff _ _ _ _ hsB
                      obtain ⟨hiW, rfl⟩ := setAt_some_iff _ _ _ _ hsW
                      have hlB : dBp.length = dB.length := hB.length_eq
                      have hlW : dWp.length = dW.length := hW.length_eq
                      -- sp
                      have e1 : Heap.Apply (h ++ [Dense.empty]) h.length
                          (fun _ _ v => some (sigmoidPrime exp v)) (Operand.mat zi)
                          = some (h ++ [spv]) := by
                        simp only [Heap.Apply, Heap.read, get_append_left _ _ _ _ hzi2, hsp]
                        exact Heap.assign_append h [Dense.empty] 0 Dense.empty spv rfl
                          (Or.inl ⟨rfl, rfl⟩)
                      have hu2 : Unchanged h (h ++ [spv]) := Unchanged.append _ _
                      have hl2 : (h ++ [spv]).length = h.length + 1 := by simp
                      have hsp2 : (h ++ [spv])[h.length]? = some spv :=
                        get_append_right h [spv] 0
                      -- newDelta
                      have e2 : Heap.Mul ((h ++ [spv]) ++ [Dense.empty]) (h ++ [spv]).length
                          (Operand.tr w) (Operand.mat delta)
                          = some ((h ++ [spv]) ++ [wd]) := by
                        simp only [Heap.Mul, Heap.read,
                          get_append_left _ _ _ _ (hu2.get _ _ hw2),
                          get_append_left _ _ _ _ (hu2.get _ _ hd), hwd]
                        exact Heap.assign_append (h ++ [spv]) [Dense.empty] 0 Dense.empty wd rfl
                          (Or.inl ⟨rfl, rfl⟩)
                      have e3 : Heap.MulElem ((h ++ [spv]) ++ [wd]) (h ++ [spv]).length
                          (Operand.mat (h ++ [spv]).length) (Operand.mat h.length)
                          = some ((h ++ [spv]) ++ [nd]) := by
                        have g1 : ((h ++ [spv]) ++ [wd])[(h ++ [spv]).length]? = some wd :=
                          get_append_right (h ++ [spv]) [wd] 0
                        simp only [Heap.MulElem, Heap.read, g1,
                          get_append_left _ _ _ _ hsp2, hnd]
                        exact Heap.assign_append (h ++ [spv]) [wd] 0 wd nd rfl
                          (Or.inr ⟨(Dense.MulElem_shape _ _ _ hnd).1.symm,
                            (Dense.MulElem_shape _ _ _ hnd).2.symm⟩)
                      have hu5 : Unchanged (h ++ [spv]) ((h ++ [spv]) ++ [nd]) :=
                        Unchanged.append _ _
                      have hnd5 : ((h ++ [spv]) ++ [nd])[(h ++ [spv]).length]? = some nd :=
                        get_append_right (h ++ [spv]) [nd] 0
                      have e4 : setAt dBp i (some (h ++ [spv]).length)
                          = some (dBp.set i (some (h ++ [spv]).length)) :=
                        setAt_of_lt _ _ _ (by omega)
                      have e5 : setAt dWp i (some ((h ++ [spv]) ++ [nd]).length)
                          = some (dWp.set i (some ((h ++ [spv]) ++ [nd]).length)) :=
                        setAt_of_lt _ _ _ (by omega)
                      have e6 : Heap.Mul (((h ++ [spv]) ++ [nd]) ++ [Dense.empty])
                          ((h ++ [spv]) ++ [nd]).length (Operand.mat (h ++ [spv]).length)
                          (Operand.tr ai) = some (((h ++ [spv]) ++ [nd]) ++ [g]) := by
                        simp only [Heap.Mul, Heap.read, get_append_left _ _ _ _ hnd5,
                          get_append_left _ _ _ _ ((hu2.trans hu5).get _ _ hai2), hg]
                        exact Heap.assign_append ((h ++ [spv]) ++ [nd]) [Dense.empty] 0
                          Dense.empty g rfl (Or.inl ⟨rfl, rfl⟩)
                      have hu7 : Unchanged h (((h ++ [spv]) ++ [nd]) ++ [g]) :=
                        (hu2.trans hu5).trans (Unchanged.append _ _)
                      have hg7 : (((h ++ [spv]) ++ [nd]) ++ [g])[((h ++ [spv]) ++ [nd]).length]?
                          = some g := get_append_right ((h ++ [spv]) ++ [nd]) [g] 0
                      have hnd7 : (((h ++ [spv]) ++ [nd]) ++ [g])[(h ++ [spv]).length]?
                          = some nd := get_append_left _ _ _ _ hnd5
                      obtain ⟨h1, dWp1, dBp1, hrun, hu1, hW1, hB1⟩ :=
                        ih (h ++ [spv]).length (dWp.set i (some ((h ++ [spv]) ++ [nd]).length))
                          (dBp.set i (some (h ++ [spv]).length))
                          (((h ++ [spv]) ++ [nd]) ++ [g]) nd _ _ dW1 dB1 (Refs_mono hu7 n N hr)
                          (Holds_mono hu7 _ _ ha) (Holds_mono hu7 _ _ hz) hnd7
                          (forall2_set _ _ _ (HoldsOpt_mono hu7 _ _ hW) i _ _ hg7)
                          (forall2_set _ _ _ (HoldsOpt_mono hu7 _ _ hB) i _ _ hnd7) hp
                      refine ⟨h1, dWp1, dBp1, ?_, hu7.trans hu1, hW1, hB1⟩
                      simp only [backwardLoopH, hzi1, e1, hw1, e2, e3, e4, e5, hai1, e6, hrun]

end HeapBackward

section HeapReplicate
variable {R : Type}

theorem HoldsOpt.replicate (h : Heap R) : ∀ (k : Nat),
    HoldsOpt h (List.replicate k none) (List.replicate k none) := by
  intro k
  induction k with
  | zero => exact List.Forall₂.nil
  | succ k ih => exact List.Forall₂.cons trivial ih

end HeapReplicate

section HeapBackward2
variable {R : Type} [LinearOrderedField R]

theorem backwardH_sim (exp : R → R) (n : NetRef) (N : Net R) (x y : Nat) (h : Heap R)
    (X Y : Dense R) (dW dB : List (Option (Dense R))) (hr : Refs h n N)
    (hx : h[x]? = some X) (hy : h[y]? = some Y)
    (hp : backward exp N X Y = some (dW, dB)) :
    ∃ h1 dWp dBp, backwardH exp n x y h = some (h1, dWp, dBp) ∧ Unchanged h h1 ∧
      HoldsOpt h1 dWp dW ∧ HoldsOpt h1 dBp dB := by
  unfold backward at hp
  split at hp
  · exact absurd hp (by simp)
  · rename_i A Z hf
    split at hp
    · exact absurd hp (by simp)
    · rename_i aLv haL
      split at hp
      · exact absurd hp (by simp)
      · rename_i dC hdC
        split at hp
        · exact absurd hp (by simp)
        · rename_i zLv hzL
          split at hp
          · exact absurd hp (by simp)
          · rename_i spv hsp
            split at hp
            · exact absurd hp (by simp)
            · rename_i D hD
              split at hp
              · exact absurd hp (by simp)
              · rename_i dB0 hsB
                split at hp
                · exact absurd hp (by simp)
                · rename_i hlen2
                  split at hp
                  · exact absurd hp (by simp)
                  · rename_i aPv haP
                    split at hp
                    · exact absurd hp (by simp)
                    · rename_i g hg
                      split at hp
                      · exact absurd hp (by simp)
                      · rename_i dW0 hsW
                        obtain ⟨h0, a, z, hfh, hu0, ha, hz⟩ :=
                          forwardH_sim exp n N x h X A Z hr hx hf
                        have hla : a.length = A.length := ha.length_eq
                        have hlz : z.length = Z.length := hz.length_eq
                        have hlb : n.biases.length = N.biases.length := hr.2.2.length_eq
                        have hlw : n.weights.length = N.weights.length := hr.2.1.length_eq
                        obtain ⟨aL, haL1, haL2⟩ := forall2_get_right _ _ _ ha _ aLv haL
                        obtain ⟨zL, hzL1, hzL2⟩ := forall2_get_right _ _ _ hz _ zLv hzL
                        obtain ⟨aP, haP1, haP2⟩ := forall2_get_right _ _ _ ha _ aPv haP
                        obtain ⟨hiB, rfl⟩ := setAt_some_iff _ _ _ _ hsB
                        obtain ⟨hiW, rfl⟩ := setAt_some_iff _ _ _ _ hsW
                        rw [← hla] at haL1 haP1
                        rw [← hlz] at hzL1
                        have e1 : Heap.Sub (h0 ++ [Dense.empty]) h0.length (Operand.mat aL)
                            (Operand.mat y) = some (h0 ++ [dC]) := by
                          simp only [Heap.Sub, Heap.read, get_append_left _ _ _ _ haL2,
                            get_append_left _ _ _ _ (hu0.get _ _ hy), hdC]
                          exact Heap.assign_append h0 [Dense.empty] 0 Dense.empty dC rfl
                            (Or.inl ⟨rfl, rfl⟩)
                        have hu1 : Unchanged h0 (h0 ++ [dC]) := Unchanged.append _ _
                        have hdC1 : (h0 ++ [dC])[h0.length]? = some dC :=
                          get_append_right h0 [dC] 0
                        have e2 : Heap.Apply ((h0 ++ [dC]) ++ [Dense.empty]) (h0 ++ [dC]).length
                            (fun _ _ v => some (sigmoidPrime exp v)) (Operand.mat zL)
                            = some ((h0 ++ [dC]) ++ [spv]) := by
                          simp only [Heap.Apply, Heap.read,
                            get_append_left _ _ _ _ (hu1.get _ _ hzL2), hsp]
                          exact Heap.assign_append (h0 ++ [dC]) [Dense.empty] 0 Dense.empty spv
                            rfl (Or.inl ⟨rfl, rfl⟩)
                        have hu2 : Unchanged (h0 ++ [dC]) ((h0 ++ [dC]) ++ [spv]) :=
                          Unchanged.append _ _
                        have hsp2 : ((h0 ++ [dC]) ++ [spv])[(h0 ++ [dC]).length]? = some spv :=
                          get_append_right (h0 ++ [dC]) [spv] 0
                        have e3 : Heap.MulElem (((h0 ++ [dC]) ++ [spv]) ++ [Dense.empty])
                            ((h0 ++ [dC]) ++ [spv]).length (Operand.mat h0.length)
                            (Operand.mat (h0 ++ [dC]).length)
                            = some (((h0 ++ [dC]) ++ [spv]) ++ [D]) := by
                          simp only [Heap.MulElem, Heap.read,
                            get_append_left _ _ _ _ (hu2.get _ _ hdC1),
                            get_append_left _ _ _ _ hsp2, hD]
                          exact Heap.assign_append ((h0 ++ [dC]) ++ [spv]) [Dense.empty] 0
                            Dense.empty D rfl (Or.inl ⟨rfl, rfl⟩)
                        have hu3 : Unchanged ((h0 ++ [dC]) ++ [spv])
                            (((h0 ++ [dC]) ++ [spv]) ++ [D]) := Unchanged.append _ _
                        have hD3 : (((h0 ++ [dC]) ++ [spv]) ++ [D])[((h0 ++ [dC]) ++ [spv]).length]?
                            = some D := get_append_right ((h0 ++ [dC]) ++ [spv]) [D] 0
                        have e4 : setAt (List.replicate n.biases.length (none : Option Nat))
                            (n.biases.length - 1) (some ((h0 ++ [dC]) ++ [spv]).length)
                            = some ((List.replicate n.biases.length none).set
                                (n.biases.length - 1) (some ((h0 ++ [dC]) ++ [spv]).length)) :=
                          setAt_of_lt _ _ _ (by
                            rw [hlb]
                            simpa using hiB)
                        have e5 : setAt (List.replicate n.weights.length (none : Option Nat))
                            (n.weights.length - 1)
                            (some (((h0 ++ [dC]) ++ [spv]) ++ [D]).length)
                            = some ((List.replicate n.weights.length none).set
                                (n.weights.length - 1)
                                (some (((h0 ++ [dC]) ++ [spv]) ++ [D]).length)) :=
                          setAt_of_lt _ _ _ (by
                            rw [hlw]
                            simpa using hiW)
                        have e6 : ¬ a.length < 2 := by rw [hla]; exact hlen2
                        have hu03 : Unchanged h0 (((h0 ++ [dC]) ++ [spv]) ++ [D]) :=
                          (hu1.trans hu2).trans hu3
                        have e7 : Heap.Mul ((((h0 ++ [dC]) ++ [spv]) ++ [D]) ++ [Dense.empty])
                            (((h0 ++ [dC]) ++ [spv]) ++ [D]).length
                            (Operand.mat ((h0 ++ [dC]) ++ [spv]).length) (Operand.tr aP)
                            = some ((((h0 ++ [dC]) ++ [spv]) ++ [D]) ++ [g]) := by
                          simp only [Heap.Mul, Heap.read, get_append_left _ _ _ _ hD3,
                            get_append_left _ _ _ _ (hu03.get _ _ haP2), hg]
                          exact Heap.assign_append (((h0 ++ [dC]) ++ [spv]) ++ [D])
                            [Dense.empty] 0 Dense.empty g rfl (Or.inl ⟨rfl, rfl⟩)
                        have hu4 : Unchanged h0 ((((h0 ++ [dC]) ++ [spv]) ++ [D]) ++ [g]) :=
                          hu03.trans (Unchanged.append _ _)
                        have hg4 : ((((h0 ++ [dC]) ++ [spv]) ++ [D]) ++ [g])[
                            (((h0 ++ [dC]) ++ [spv]) ++ [D]).length]? = some g :=
                          get_append_right (((h0 ++ [dC]) ++ [spv]) ++ [D]) [g] 0
                        have hD4 : ((((h0 ++ [dC]) ++ [spv]) ++ [D]) ++ [g])[
                            ((h0 ++ [dC]) ++ [spv]).length]? = some D :=
                          get_append_left _ _ _ _ hD3
                        have hWinit : HoldsOpt ((((h0 ++ [dC]) ++ [spv]) ++ [D]) ++ [g])
                            ((List.replicate n.weights.length none).set (n.weights.length - 1)
                              (some (((h0 ++ [dC]) ++ [spv]) ++ [D]).length))
                            ((List.replicate N.weights.length none).set (N.weights.length - 1)
                              (some g)) := by
                          rw [hlw]
                          exact forall2_set _ _ _ (HoldsOpt.replicate _ _) _ _ _ hg4
                        have hBinit : HoldsOpt ((((h0 ++ [dC]) ++ [spv]) ++ [D]) ++ [g])
                            ((List.replicate n.biases.length none).set (n.biases.length - 1)
                              (some ((h0 ++ [dC]) ++ [spv]).length))
                            ((List.replicate N.biases.length none).set (N.biases.length - 1)
                              (some D)) := by
                          rw [hlb]
                          exact forall2_set _ _ _ (HoldsOpt.replicate _ _) _ _ _ hD4
                        obtain ⟨h1, dWp, dBp, hrun, huL, hW1, hB1⟩ :=
                          backwardLoopH_sim exp n N a z A Z (N.layers.length - 2)
                            ((h0 ++ [dC]) ++ [spv]).length _ _
                            ((((h0 ++ [dC]) ++ [spv]) ++ [D]) ++ [g]) D _ _ dW dB
                            (Refs_mono (hu0.trans hu4) n N hr) (Holds_mono hu4 _ _ ha)
                            (Holds_mono hu4 _ _ hz) hD4 hWinit hBinit hp
                        refine ⟨h1, dWp, dBp, ?_, (hu0.trans hu4).trans huL, hW1, hB1⟩
                        simp only [backwardH, hfh, haL1, e1, hzL1, e2, e3, e4, e5, if_neg e6,
                          haP1, e7, hr.1, hrun]

end HeapBackward2

section Claim14
variable {R : Type} [LinearOrderedField R]

theorem PredictH_sim (exp : R → R) (n : NetRef) (N : Net R) (x : Nat) (h : Heap R)
    (X out : Dense R) (hr : Refs h n N) (hx : h[x]? = some X)
    (hp : Predict exp N X = some out) :
    ∃ h1 p, PredictH exp n x h = some (h1, p) ∧ Unchanged h h1 ∧ h1[p]? = some out := by
  unfold Predict at hp
  split at hp
  · exact absurd hp (by simp)
  · rename_i A Z hf
    obtain ⟨h1, a, z, hfh, hu, ha, -⟩ := forwardH_sim exp n N x h X A Z hr hx hf
    obtain ⟨p, hp1, hp2⟩ := forall2_get_right _ _ _ ha _ out hp
    rw [← ha.length_eq] at hp1
    exact ⟨h1, p, by simp only [PredictH, hfh, hp1], hu, hp2⟩

/-- C14: let the store `h` hold a network of consistent shapes (through the pointers of `n`), a
well-shaped input at `x` and a well-shaped target at `y`.  Then `forward`, `backward` and
`Predict` return, and every matrix that existed before the call, in particular every weight
and every bias, is unchanged afterwards: the methods write only to matrices they allocate.
Their results are those of the value-level embedding.  Consequently a second call of
`Predict` with the same input returns an output equal to that of the first (which still holds
its value). -/
theorem forward_backward_frame (exp : R → R) (h : Heap R) (n : NetRef) (N : Net R)
    (x y : Nat) (X Y : Dense R) (hr : Refs h n N) (hx : h[x]? = some X)
    (hy : h[y]? = some Y) (hN : WellShaped N) (hX : ColShaped X (N.size 0))
    (hY : ColShaped Y (N.size N.weights.length)) :
    (∃ h1 a z A Z, forwardH exp n x h = some (h1, a, z) ∧ Unchanged h h1 ∧ Refs h1 n N ∧
      forward exp N X = some (A, Z) ∧ Holds h1 a A ∧ Holds h1 z Z) ∧
    (∃ h1 dWp dBp dW dB, backwardH exp n x y h = some (h1, dWp, dBp) ∧ Unchanged h h1 ∧
      Refs h1 n N ∧ backward exp N X Y = some (dW, dB) ∧ HoldsOpt h1 dWp dW ∧
      HoldsOpt h1 dBp dB) ∧
    (∃ h1 p out, PredictH exp n x h = some (h1, p) ∧ Unchanged h h1 ∧ Refs h1 n N ∧
      Predict exp N X = some out ∧ h1[p]? = some out ∧
      ∃ h2 q, PredictH exp n x h1 = some (h2, q) ∧ Unchanged h1 h2 ∧
        h2[q]? = some out ∧ h2[p]? = some out) := by
  refine ⟨?_, ?_, ?_⟩
  · obtain ⟨A, Z, hf, -⟩ := forward_spec exp N hN X hX
    obtain ⟨h1, a, z, hfh, hu, ha, hz⟩ := forwardH_sim exp n N x h X A Z hr hx hf
    exact ⟨h1, a, z, A, Z, hfh, hu, Refs_mono hu n N hr, hf, ha, hz⟩
  · obtain ⟨dW, dB, hb, -⟩ := backward_shaped exp N hN X Y hX hY
    obtain ⟨h1, dWp, dBp, hbh, hu, hW, hB⟩ :=
      backwardH_sim exp n N x y h X Y dW dB hr hx hy hb
    exact ⟨h1, dWp, dBp, dW, dB, hbh, hu, Refs_mono hu n N hr, hb, hW, hB⟩
  · obtain ⟨A, Z, -, hp, -⟩ := forward_entry exp N hN X hX
    obtain ⟨h1, p, hph, hu, hout⟩ := PredictH_sim exp n N x h X _ hr hx hp
    obtain ⟨h2, q, hph2, hu2, hout2⟩ :=
      PredictH_sim exp n N x h1 X _ (Refs_mono hu n N hr) (hu.get _ _ hx) hp
    exact ⟨h1, p, _, hph, hu, Refs_mono hu n N hr, hp, hout, h2, q, hph2, hu2, hout2,
      hu2.get _ _ hout⟩

/-- Witness of C14: the network with layers `2, 2, 1` held in a store of six matrices. -/
theorem forward_backward_frame_witness :
    ∃ h1 p, PredictH Real.exp netRef221 4 (heap221 : Heap ℝ) = some (h1, p) ∧
      Unchanged (heap221 : Heap ℝ) h1 := by
  obtain ⟨h1, p, out, hp, hu, -⟩ :=
    (forward_backward_frame Real.exp (heap221 : Heap ℝ) netRef221 net221 4 5 x221 y221
      ⟨rfl, List.Forall₂.cons rfl (List.Forall₂.cons rfl List.Forall₂.nil),
        List.Forall₂.cons rfl (List.Forall₂.cons rfl List.Forall₂.nil)⟩
      rfl rfl (by decide) (by decide) (by decide)).2.2
  exact ⟨h1, p, hp, hu⟩

end Claim14

end Gomlp
